import Mathlib

/-! Verification of `_accelerate.c` (package `hint`)

A shallow embedding of the C extension function `levenshtein_distance`
(exported to Python as `ldist`) and of its helper `minimum`, followed by
theorems about them.

Modelling conventions.

* A C `int` is an `Int` together with an explicit range check
  (`INT_MIN ≤ v ≤ INT_MAX`, 32 bits).  Signed overflow is undefined
  behaviour in C; the embedding stops with `UB.signedOverflow` at the first
  operation whose exact result leaves the range.
* `Py_ssize_t` values (the two string lengths) are exact integers.
* Dynamic memory is a table of blocks.  `malloc` may fail (return `NULL`),
  as decided by the environment; fresh memory holds arbitrary values, also
  supplied by the environment.  Using a `NULL`, freed or never assigned
  pointer, or an index outside a block, is undefined behaviour.
* A Python string object is its PEP 393 storage: a `kind` (bytes per
  character), a length in codepoints and the raw bytes.
* Reference counting (`Py_INCREF` / `Py_DECREF`) is not modelled.
-/

namespace Hint

/-! ## Machine integers -/

/-- Largest value of a C `int` (32 bits). -/
def INT_MAX : Int := 2147483647

/-- Smallest value of a C `int` (32 bits). -/
def INT_MIN : Int := -2147483648

/-- The ways in which the C code can leave defined behaviour.  The last one,
`outOfFuel`, is not a behaviour of the C code: it is what the embedding answers
when the bound on the number of loop tests is used up, which never happens
(theorem `levenshtein_distance_fuel`). -/
inductive UB where
  | signedOverflow
  | invalidPointer
  | outOfBounds
  | outOfFuel
  deriving DecidableEq, Repr

/-- Addition of two C `int`s: defined only when the exact sum is an `int`. -/
def intAdd (x y : Int) : Except UB Int :=
  if INT_MIN ≤ x + y ∧ x + y ≤ INT_MAX then .ok (x + y) else .error .signedOverflow

/-- Subtraction of two C `int`s: defined only when the exact difference is an `int`. -/
def intSub (x y : Int) : Except UB Int :=
  if INT_MIN ≤ x - y ∧ x - y ≤ INT_MAX then .ok (x - y) else .error .signedOverflow

/-- The function `minimum` of the source:
`return _MIN(_MIN(a, b), c);` with `#define _MIN(x, y) (x) < (y) ? (x) : (y)`.
The macro is expanded textually: the outer call puts its first argument, the
inner expansion, between parentheses on both of its occurrences. -/
def minimum (a b c : Int) : Int :=
  if (if a < b then a else b) < c then (if a < b then a else b) else c

/-! ## Python objects -/

/-- Modelled from the spec: the layout of a Python string comes from CPython
(`Python.h`), which is not part of the repository.  A string is stored with one
width for all its characters, wide enough for each of them (PEP 393): `kind`
bytes per character, `length` characters, raw bytes `data`. -/
structure PyUnicode where
  kind : Nat
  length : Nat
  data : List Nat
  deriving DecidableEq, Repr

/-- A Python object as far as the function looks at it: a string, either of
the exact type `str` or of a subclass, or anything else. -/
inductive PyObject where
  | unicode (exact : Bool) (u : PyUnicode)
  | other (tag : Nat)
  deriving DecidableEq, Repr

/-- Exceptions the function can set before returning `NULL`. -/
inductive PyErr where
  | TypeError
  deriving DecidableEq, Repr

/-- Modelled from the spec: the CPython macro `PyUnicode_CheckExact`, not part of
the repository, tells whether the object's type is exactly `str`. -/
def PyUnicode_CheckExact : PyObject → Bool
  | .unicode exact _ => exact
  | .other _ => false

/-- The string storage behind an object pointer (only used after the type check). -/
def PyObject.payload : PyObject → PyUnicode
  | .unicode _ u => u
  | .other _ => ⟨1, 0, []⟩

/-- Modelled from the spec: the CPython function `PyUnicode_GetLength`, not part of
the repository, gives the length in codepoints, a `Py_ssize_t`. -/
def PyUnicode_GetLength (u : PyUnicode) : Int := (u.length : Int)

/-- Modelled from the spec: the CPython macro `PyUnicode_KIND`, not part of the
repository, gives the number of bytes per character. -/
def PyUnicode_KIND (u : PyUnicode) : Nat := u.kind

/-- Modelled from the spec: the CPython macro `PyUnicode_DATA`, not part of the
repository, gives the raw storage. -/
def PyUnicode_DATA (u : PyUnicode) : List Nat := u.data

/-- Little-endian value of the `width` bytes of `data` that start at byte `off`. -/
def readUnit (data : List Nat) (off : Nat) : Nat → Nat
  | 0 => 0
  | width + 1 => data.getD off 0 + 256 * readUnit data (off + 1) width

/-- Modelled from the spec: the CPython macro `PyUnicode_READ(kind, data, index)`,
not part of the repository, reads element `index` of `data` seen as an array of
`Py_UCS1` (kind 1), `Py_UCS2` (kind 2) or else `Py_UCS4`: a codepoint by its
logical index, not by a raw storage offset.  The bytes of an element are taken
in little-endian order. -/
def PyUnicode_READ (kind : Nat) (data : List Nat) (index : Int) : Nat :=
  if kind = 1 then readUnit data index.toNat 1
  else if kind = 2 then readUnit data (2 * index.toNat) 2
  else readUnit data (4 * index.toNat) 4

/-- The codepoint sequence a string object stands for. -/
def PyUnicode.codepoints (u : PyUnicode) : List Nat :=
  (List.range u.length).map (fun (i : Nat) => PyUnicode_READ u.kind u.data (i : Int))

/-- The `width` little-endian bytes of the storage unit holding `c`. -/
def unitBytes (c : Nat) : Nat → List Nat
  | 0 => []
  | width + 1 => c % 256 :: unitBytes (c / 256) width

/-- A string object storing the codepoints `s` with `kind` bytes per character. -/
def PyUnicode.store (kind : Nat) (s : List Nat) : PyUnicode :=
  ⟨kind, s.length, (s.map (fun c => unitBytes c kind)).flatten⟩

/-! ## Dynamic memory -/

/-- What the C code cannot control: which calls of `malloc` succeed (by call
number) and what a fresh block contains (by block and offset). -/
structure Env where
  mallocOk : Nat → Bool
  junk : Nat → Int → Int

/-- The allocator: the number of calls of `malloc` so far and the live blocks
with their sizes in elements. -/
structure Heap where
  next : Nat
  blocks : Nat → Option Nat

/-- The C library function `malloc`, for a block of `n` elements: a fresh block, or
`NULL` when the environment lets this call fail. -/
def malloc (env : Env) (h : Heap) (n : Nat) : Heap × Option Nat :=
  if env.mallocOk h.next then
    (⟨h.next + 1, fun k => if k = h.next then some n else h.blocks k⟩, some h.next)
  else (⟨h.next + 1, h.blocks⟩, none)

/-- The C library function `free`: `free(NULL)` does nothing, freeing a block that
is not live is undefined. -/
def free (h : Heap) : Option Nat → Except UB Heap
  | none => .ok h
  | some p =>
    match h.blocks p with
    | none => .error .invalidPointer
    | some _ => .ok ⟨h.next, fun k => if k = p then none else h.blocks k⟩

/-- The variables of one call that live in memory: the allocator, the pointer
`d`, the row pointers stored in `d[i]` and the contents of the `int` blocks. -/
structure Frame where
  heap : Heap
  d : Option Nat
  rowPtr : Int → Option Nat
  cells : Nat → Int → Int

/-- Check that `d` points to a live block and that `i` indexes it. -/
def checkRowIndex (f : Frame) (i : Int) : Except UB Unit :=
  match f.d with
  | none => .error .invalidPointer
  | some p =>
    match f.heap.blocks p with
    | none => .error .invalidPointer
    | some sz => if 0 ≤ i ∧ i < (sz : Int) then .ok () else .error .outOfBounds

/-- The rvalue `d[i]`. -/
def loadRow (f : Frame) (i : Int) : Except UB (Option Nat) :=
  match checkRowIndex f i with
  | .error e => .error e
  | .ok _ => .ok (f.rowPtr i)

/-- The assignment `d[i] = p`. -/
def storeRow (f : Frame) (i : Int) (p : Option Nat) : Except UB Frame :=
  match checkRowIndex f i with
  | .error e => .error e
  | .ok _ => .ok { f with rowPtr := fun k => if k = i then p else f.rowPtr k }

/-- The block behind `d[i]` when `d[i][j]` is a valid element. -/
def cellBlock (f : Frame) (i j : Int) : Except UB Nat :=
  match loadRow f i with
  | .error e => .error e
  | .ok none => .error .invalidPointer
  | .ok (some r) =>
    match f.heap.blocks r with
    | none => .error .invalidPointer
    | some sz => if 0 ≤ j ∧ j < (sz : Int) then .ok r else .error .outOfBounds

/-- The rvalue `d[i][j]`. -/
def readCell (f : Frame) (i j : Int) : Except UB Int :=
  match cellBlock f i j with
  | .error e => .error e
  | .ok r => .ok (f.cells r j)

/-- The assignment `d[i][j] = v`. -/
def writeCell (f : Frame) (i j : Int) (v : Int) : Except UB Frame :=
  match cellBlock f i j with
  | .error e => .error e
  | .ok r =>
    .ok { f with cells := fun k c => if k = r ∧ c = j then v else f.cells k c }

/-! ## Control flow -/

/-- The loop `for (int i = lo; i <= hi; i++) body`, started at `i`, where `hi` is a
`Py_ssize_t`.  The first argument bounds the number of tests of the condition. -/
def forLoop {σ : Type} (hi : Int) (body : Int → σ → Except UB σ) :
    Nat → Int → σ → Except UB σ
  | 0, _, _ => .error .outOfFuel
  | fuel + 1, i, s =>
    if i ≤ hi then
      match body i s with
      | .error e => .error e
      | .ok s1 =>
        match intAdd i 1 with
        | .error e => .error e
        | .ok i1 => forLoop hi body fuel i1 s1
    else .ok s

/-- Number of tests of the condition that a loop up to `hi` can need. -/
def loopFuel (hi : Int) : Nat := hi.toNat + 2

/-! ## The function `levenshtein_distance` -/

/-- Lines 52: `d[i] = malloc(sizeof(int) * (size_b + 1));`. -/
def allocRow (env : Env) (size_b : Int) (i : Int) (f : Frame) : Except UB Frame :=
  match malloc env f.heap (size_b + 1).toNat with
  | (h1, p) => storeRow { f with heap := h1 } i p

/-- Lines 78-79: the body of the fill loop. -/
def fillCell (a b : PyUnicode) (j i : Int) (f : Frame) : Except UB Frame :=
  match intSub i 1, intSub j 1 with
  | .ok i1, .ok j1 =>
    let cost : Int :=
      if PyUnicode_READ (PyUnicode_KIND a) (PyUnicode_DATA a) i1
          = PyUnicode_READ (PyUnicode_KIND b) (PyUnicode_DATA b) j1 then 0 else 1
    match readCell f i1 j, readCell f i j1, readCell f i1 j1 with
    | .ok up, .ok left, .ok diag =>
      match intAdd up 1, intAdd left 1, intAdd diag cost with
      | .ok x, .ok y, .ok z => writeCell f i j (minimum x y z)
      | _, _, _ => .error .signedOverflow
    | .error e, _, _ => .error e
    | _, .error e, _ => .error e
    | _, _, .error e => .error e
  | _, _ => .error .signedOverflow

/-- Line 88: `free(d[i]);`. -/
def freeRow (i : Int) (f : Frame) : Except UB Frame :=
  match loadRow f i with
  | .error e => .error e
  | .ok p =>
    match free f.heap p with
    | .error e => .error e
    | .ok h1 => .ok { f with heap := h1 }

/-- Lines 43-81 of the source: the lengths, the allocation of the matrix, the
zero fill, the base column and row, and the fill loop.  Returns the memory as
it stands when `result` is about to be read. -/
def fillMatrix (env : Env) (h : Heap) (a b : PyUnicode) : Except UB Frame :=
  let size_a := PyUnicode_GetLength a
  let size_b := PyUnicode_GetLength b
  match malloc env h (size_a + 1).toNat with
  | (h0, d) =>
    let f0 : Frame := ⟨h0, d, fun _ => none, env.junk⟩
    match forLoop size_a (allocRow env size_b) (loopFuel size_a) 0 f0 with
    | .error e => .error e
    | .ok f1 =>
    match forLoop size_a
        (fun i f => forLoop size_b (fun j g => writeCell g i j 0) (loopFuel size_b) 0 f)
        (loopFuel size_a) 0 f1 with
    | .error e => .error e
    | .ok f2 =>
    match forLoop size_a (fun i f => writeCell f i 0 i) (loopFuel size_a) 1 f2 with
    | .error e => .error e
    | .ok f3 =>
    match forLoop size_b (fun j f => writeCell f 0 j j) (loopFuel size_b) 1 f3 with
    | .error e => .error e
    | .ok f4 =>
    forLoop size_b
        (fun j f => forLoop size_a (fillCell a b j) (loopFuel size_a) 1 f)
        (loopFuel size_b) 1 f4

/-- Lines 43-90 of the source: everything after the type check, up to and
including `free(d)`.  Returns the allocator state and `result`. -/
def distanceBody (env : Env) (h : Heap) (a b : PyUnicode) : Except UB (Heap × Int) :=
  let size_a := PyUnicode_GetLength a
  let size_b := PyUnicode_GetLength b
  match fillMatrix env h a b with
  | .error e => .error e
  | .ok f5 =>
    match readCell f5 size_a size_b with
    | .error e => .error e
    | .ok result =>
    match forLoop size_a freeRow (loopFuel size_a) 0 f5 with
    | .error e => .error e
    | .ok f6 =>
    match free f6.heap f6.d with
    | .error e => .error e
    | .ok h7 => .ok (h7, result)

/-- What a call does: it returns to the caller, with the allocator state at that
moment and either a Python integer or an exception, or it runs into undefined
behaviour. -/
inductive Outcome where
  | returned (heap : Heap) (value : Except PyErr Int)
  | undefined (why : UB)

/-- The function `levenshtein_distance(self, args)`.  `PyArg_ParseTuple(args, "OO", ...)`
fails with a `TypeError` unless `args` holds exactly two objects. -/
def levenshtein_distance (env : Env) (h : Heap) (args : List PyObject) : Outcome :=
  match args with
  | [a, b] =>
    if !(PyUnicode_CheckExact a && PyUnicode_CheckExact b) then
      .returned h (.error .TypeError)
    else
      match distanceBody env h a.payload b.payload with
      | .error e => .undefined e
      | .ok (h1, result) => .returned h1 (.ok result)
  | _ => .returned h (.error .TypeError)

/-- The integer a call returned, if it returned one. -/
def Outcome.value? : Outcome → Option Int
  | .returned _ (.ok v) => some v
  | _ => none

/-- The function as Python sees it, `ldist(a, b)`, on two objects of exact type
`str`: the integer the call returns, if it returns one. -/
def ldist (env : Env) (h : Heap) (a b : PyUnicode) : Option Int :=
  (levenshtein_distance env h [.unicode true a, .unicode true b]).value?

/-- An environment in which every `malloc` succeeds and fresh memory holds `v`. -/
def Env.plain (v : Int) : Env := ⟨fun _ => true, fun _ _ => v⟩

/-- The allocator before any allocation. -/
def Heap.empty : Heap := ⟨0, fun _ => none⟩

/-! ## Edit scripts and edit distance -/

/-- A single-character edit, at a position counted in codepoints. -/
inductive EditOp where
  | insert (pos : Nat) (c : Nat)
  | delete (pos : Nat)
  | substitute (pos : Nat) (c : Nat)
  deriving DecidableEq, Repr

/-- Apply one edit; it fails when the position does not exist. -/
def EditOp.apply : EditOp → List Nat → Option (List Nat)
  | .insert pos c, l =>
    if pos ≤ l.length then some (l.take pos ++ c :: l.drop pos) else none
  | .delete pos, l =>
    if pos < l.length then some (l.take pos ++ l.drop (pos + 1)) else none
  | .substitute pos c, l =>
    if pos < l.length then some (l.take pos ++ c :: l.drop (pos + 1)) else none

/-- Apply the edits of a script one after the other. -/
def applyScript : List EditOp → List Nat → Option (List Nat)
  | [], l => some l
  | op :: rest, l =>
    match op.apply l with
    | none => none
    | some l1 => applyScript rest l1

/-- The number `n` is the Levenshtein distance of `a` and `b`: some edit script
of length `n` turns `a` into `b` and no shorter one does. -/
def IsEditDistance (a b : List Nat) (n : Nat) : Prop :=
  (∃ s : List EditOp, s.length = n ∧ applyScript s a = some b) ∧
  ∀ s : List EditOp, applyScript s a = some b → n ≤ s.length

/-- One edit somewhere in a list, by structure: at the head or further down. -/
inductive Step : List Nat → List Nat → Prop where
  | ins (c : Nat) (l : List Nat) : Step l (c :: l)
  | del (c : Nat) (l : List Nat) : Step (c :: l) l
  | sub (c e : Nat) (l : List Nat) : Step (c :: l) (e :: l)
  | cons (c : Nat) {l r : List Nat} : Step l r → Step (c :: l) (c :: r)

/-- A chain of `n` edits from one list to another. -/
inductive Chain : Nat → List Nat → List Nat → Prop where
  | nil (l : List Nat) : Chain 0 l l
  | next {n : Nat} {a b c : List Nat} : Step a b → Chain n b c → Chain (n + 1) a c

/-- Substitution cost of two codepoints. -/
def subCost (x y : Nat) : Nat := if x = y then 0 else 1

/-- One row of the textbook recursion: `levRow x prev` is `lev (x :: xs)` when
`prev` is `lev xs`. -/
def levRow (x : Nat) (prev : List Nat → Nat) : List Nat → Nat
  | [] => prev [] + 1
  | y :: ys => min (min (prev (y :: ys) + 1) (levRow x prev ys + 1)) (prev ys + subCost x y)

/-- The textbook recursion for the Levenshtein distance, on the heads of two lists. -/
def lev : List Nat → List Nat → Nat
  | [] => List.length
  | x :: xs => levRow x (lev xs)

/-- The value the dynamic programme is meant to put in cell `(i, j)`: the
recursion `lev` on the first `i` codepoints of `a` and the first `j` of `b`,
read from their last codepoint backwards. -/
def cellValue (a b : List Nat) (i j : Nat) : Nat :=
  lev (a.take i).reverse (b.take j).reverse

/-! ## Sample inputs -/

/-- The string "kit", one byte per character. -/
def sampleKit : PyUnicode := PyUnicode.store 1 [107, 105, 116]

/-- The string "sit€", two bytes per character. -/
def sampleSit : PyUnicode := PyUnicode.store 2 [115, 105, 116, 8364]

/-- The string "it" followed by U+1F600, four bytes per character. -/
def sampleWide : PyUnicode := PyUnicode.store 4 [105, 116, 128512]

/-- The empty string. -/
def sampleEmpty : PyUnicode := PyUnicode.store 1 []

/-! ## Vocabulary of the proofs -/

/-- Every call of `malloc` succeeds. -/
def Env.allocOK (env : Env) : Prop := ∀ k, env.mallocOk k = true

/-- The next `calls` calls of `malloc`, counted from allocator state `h`, succeed. -/
def Env.callsOK (env : Env) (h : Heap) (calls : Nat) : Prop :=
  ∀ k, h.next ≤ k → k < h.next + calls → env.mallocOk k = true

/-- The block that row `i` of the matrix gets in a call started on allocator `h`,
when every `malloc` succeeds. -/
def rowBlock (h : Heap) (i : Int) : Nat := h.next + 1 + i.toNat

/-- The pointer `d` and the rows below `upto` are allocated, for a matrix with
rows `0..m` and columns `0..n`, in a call started on allocator `h`. -/
def Allocated (h : Heap) (m n : Nat) (upto : Int) (f : Frame) : Prop :=
  f.d = some h.next ∧ f.heap.next = h.next + 1 + upto.toNat ∧
  (∀ k, f.heap.blocks k =
    if k = h.next then some (m + 1)
    else if h.next < k ∧ k < h.next + 1 + upto.toNat then some (n + 1)
    else h.blocks k) ∧
  (∀ r : Int, f.rowPtr r = if 0 ≤ r ∧ r < upto then some (rowBlock h r) else none)

/-- All rows were allocated and the rows below `upto` have been released again. -/
def Released (h : Heap) (m n : Nat) (upto : Int) (f : Frame) : Prop :=
  f.d = some h.next ∧ f.heap.next = h.next + (m + 2) ∧
  (∀ k, f.heap.blocks k =
    if k = h.next then some (m + 1)
    else if h.next < k ∧ k < h.next + (m + 2) then
      (if k < h.next + 1 + upto.toNat then none else some (n + 1))
    else h.blocks k) ∧
  (∀ r : Int, f.rowPtr r = if 0 ≤ r ∧ r < (m : Int) + 1 then some (rowBlock h r) else none)

/-- The cells of the region `R` hold the values `T`. -/
def Agrees (h : Heap) (f : Frame) (R : Int → Int → Prop) (T : Int → Int → Int) : Prop :=
  ∀ i j, R i j → f.cells (rowBlock h i) j = T i j

/-- The value meant for cell `(i, j)` of the matrix for the strings `a` and `b`. -/
def target (a b : PyUnicode) (i j : Int) : Int :=
  (cellValue a.codepoints b.codepoints i.toNat j.toNat : Nat)

/-- The allocator after a call that began on `h` and made `calls` calls of
`malloc`, all of them released again. -/
def Heap.afterCall (h : Heap) (calls : Nat) : Heap :=
  ⟨h.next + calls, fun k => if h.next ≤ k ∧ k < h.next + calls then none else h.blocks k⟩

/-! ## The stages of the matrix, the recurrence and the scenarios -/

/-- Lines 43-69 of the source: what `fillMatrix` does before the fill loop, that
is the allocation, the zero fill and the base column and row. -/
def baseMatrix (env : Env) (h : Heap) (a b : PyUnicode) : Except UB Frame :=
  let size_a := PyUnicode_GetLength a
  let size_b := PyUnicode_GetLength b
  match malloc env h (size_a + 1).toNat with
  | (h0, d) =>
    let f0 : Frame := ⟨h0, d, fun _ => none, env.junk⟩
    match forLoop size_a (allocRow env size_b) (loopFuel size_a) 0 f0 with
    | .error e => .error e
    | .ok f1 =>
    match forLoop size_a
        (fun i f => forLoop size_b (fun j g => writeCell g i j 0) (loopFuel size_b) 0 f)
        (loopFuel size_a) 0 f1 with
    | .error e => .error e
    | .ok f2 =>
    match forLoop size_a (fun i f => writeCell f i 0 i) (loopFuel size_a) 1 f2 with
    | .error e => .error e
    | .ok f3 => forLoop size_b (fun j f => writeCell f 0 j j) (loopFuel size_b) 1 f3

/-- Lines 76-81 of the source: the fill loop as the source has it, column by
column (outer loop over `j`, inner loop over `i`). -/
def fillColumnMajor (a b : PyUnicode) (g : Frame) : Except UB Frame :=
  forLoop (PyUnicode_GetLength b)
    (fun j f => forLoop (PyUnicode_GetLength a) (fillCell a b j)
      (loopFuel (PyUnicode_GetLength a)) 1 f)
    (loopFuel (PyUnicode_GetLength b)) 1 g

/-- The other fill order the spec allows, in the spec's words row by row: the
outer loop over `i`, the inner loop over `j`, the same loop body. -/
def fillRowMajor (a b : PyUnicode) (g : Frame) : Except UB Frame :=
  forLoop (PyUnicode_GetLength a)
    (fun i f => forLoop (PyUnicode_GetLength b) (fun j f1 => fillCell a b j i f1)
      (loopFuel (PyUnicode_GetLength b)) 1 f)
    (loopFuel (PyUnicode_GetLength a)) 1 g

/-- The cost of lines 78: 0 when codepoint `i` of `a` equals codepoint `j` of `b`. -/
def cellCost (a b : PyUnicode) (i j : Int) : Int :=
  if PyUnicode_READ (PyUnicode_KIND a) (PyUnicode_DATA a) i
      = PyUnicode_READ (PyUnicode_KIND b) (PyUnicode_DATA b) j then 0 else 1

/-- One row of the recurrence of the source over unbounded integers: row `i + 1`
from row `i`, with `d[i + 1][0] = i + 1`. -/
def unboundedRow (a b : PyUnicode) (i : Nat) (prev : Nat → Int) : Nat → Int
  | 0 => (i : Int) + 1
  | j + 1 =>
    minimum (prev (j + 1) + 1) (unboundedRow a b i prev j + 1)
      (prev j + cellCost a b (i : Int) (j : Int))

/-- The recurrence of the source over unbounded integers: `d[0][j] = j`,
`d[i][0] = i` and `d[i][j] = minimum(d[i-1][j] + 1, d[i][j-1] + 1, d[i-1][j-1] + cost)`,
with no range check anywhere. -/
def unboundedCell (a b : PyUnicode) : Nat → Nat → Int
  | 0 => fun j => (j : Int)
  | i + 1 => unboundedRow a b i (unboundedCell a b i)

/-- An environment in which the call of `malloc` number `k` fails and every
other one succeeds. -/
def Env.failAt (k : Nat) : Env := ⟨fun c => decide (c ≠ k), fun _ _ => 0⟩

/-- The allocator has handed out only blocks numbered below `next`. -/
def Heap.WF (h : Heap) : Prop := ∀ k, h.next ≤ k → h.blocks k = none

/-- The codepoints of "kitten". -/
def kitten : List Nat := [107, 105, 116, 116, 101, 110]

/-- The codepoints of "sitting". -/
def sitting : List Nat := [115, 105, 116, 116, 105, 110, 103]

/-- The codepoints of "flaw". -/
def flaw : List Nat := [102, 108, 97, 119]

/-- The codepoints of "lawn". -/
def lawn : List Nat := [108, 97, 119, 110]

/-! ## The textbook recursion -/

theorem lev_nil_left (b : List Nat) : lev [] b = b.length := rfl

theorem lev_nil_right (a : List Nat) : lev a [] = a.length := by
  induction a with
  | nil => rfl
  | cons x xs ih => simp [lev, levRow] at ih ⊢; exact ih

theorem lev_cons_cons (x y : Nat) (xs ys : List Nat) :
    lev (x :: xs) (y :: ys)
      = min (min (lev xs (y :: ys) + 1) (lev (x :: xs) ys + 1)) (lev xs ys + subCost x y) := rfl

theorem subCost_le_one (x y : Nat) : subCost x y ≤ 1 := by
  unfold subCost; split <;> omega

theorem subCost_self (x : Nat) : subCost x x = 0 := by simp [subCost]

theorem lev_self (l : List Nat) : lev l l = 0 := by
  induction l with
  | nil => rfl
  | cons x xs ih =>
    have h : lev (x :: xs) (x :: xs) ≤ lev xs xs + subCost x x := by
      rw [lev_cons_cons]; exact min_le_right _ _
    rw [ih, subCost_self] at h
    omega

/-- Dropping the head of the first list costs at most one. -/
theorem lev_cons_left_le (c : Nat) (l b : List Nat) : lev (c :: l) b ≤ lev l b + 1 := by
  cases b with
  | nil => simp [lev_nil_right]
  | cons y ys =>
    rw [lev_cons_cons]
    exact le_trans (min_le_left _ _) (min_le_left _ _)

/-- Dropping the head of the second list costs at most one. -/
theorem lev_cons_right_le (y : Nat) (l ys : List Nat) : lev l (y :: ys) ≤ lev l ys + 1 := by
  cases l with
  | nil => simp [lev_nil_left]
  | cons x xs =>
    rw [lev_cons_cons]
    exact le_trans (min_le_left _ _) (min_le_right _ _)

theorem lev_cons_cons_le_diag (x y : Nat) (xs ys : List Nat) :
    lev (x :: xs) (y :: ys) ≤ lev xs ys + subCost x y := by
  rw [lev_cons_cons]; exact min_le_right _ _

/-- Adding a head to the first list costs at most one. -/
theorem lev_le_cons_left (c : Nat) (l b : List Nat) : lev l b ≤ lev (c :: l) b + 1 := by
  induction b with
  | nil => simp only [lev_nil_right, List.length_cons]; omega
  | cons y ys ih =>
    have h1 := lev_cons_right_le y l ys
    have h2 := subCost_le_one c y
    rw [lev_cons_cons]
    simp only [min_def]
    split_ifs <;> omega

/-- Replacing the head of the first list costs at most one. -/
theorem lev_subst_head_le (c e : Nat) (l b : List Nat) :
    lev (c :: l) b ≤ lev (e :: l) b + 1 := by
  induction b with
  | nil => simp [lev_nil_right]
  | cons y ys ih =>
    have h1 := lev_cons_left_le c l (y :: ys)
    have h2 := lev_cons_right_le y (c :: l) ys
    have h3 := lev_cons_cons_le_diag c y l ys
    have h4 := subCost_le_one c y
    rw [lev_cons_cons e y]
    simp only [min_def]
    split_ifs <;> omega

/-- An edit below the head of the first list costs at most one. -/
theorem lev_cons_congr_le (c : Nat) (l r : List Nat)
    (h : ∀ b, lev l b ≤ lev r b + 1) (b : List Nat) :
    lev (c :: l) b ≤ lev (c :: r) b + 1 := by
  induction b with
  | nil =>
    have := h []
    simp [lev_nil_right] at this ⊢
    exact this
  | cons y ys ih =>
    have h1 := lev_cons_left_le c l (y :: ys)
    have h2 := lev_cons_right_le y (c :: l) ys
    have h3 := lev_cons_cons_le_diag c y l ys
    have h5 := h (y :: ys)
    have h6 := h ys
    rw [lev_cons_cons c y r]
    simp only [min_def]
    split_ifs <;> omega

/-- One edit of the first list changes the recursion's value by at most one. -/
theorem Step.lev_le_succ {a r : List Nat} (h : Step a r) : ∀ b, lev a b ≤ lev r b + 1 := by
  induction h with
  | ins c l => exact lev_le_cons_left c l
  | del c l => exact lev_cons_left_le c l
  | sub c e l => exact lev_subst_head_le c e l
  | cons c _ ih => exact lev_cons_congr_le c _ _ ih

/-- No chain of edits is shorter than the recursion's value. -/
theorem Chain.lev_le_length {n : Nat} {a b : List Nat} (h : Chain n a b) : lev a b ≤ n := by
  induction h with
  | nil l => simp [lev_self]
  | next st _ ih => exact le_trans (st.lev_le_succ _) (Nat.succ_le_succ ih)

/-! ## Chains of edits -/

theorem Chain.trans {n k : Nat} {a b c : List Nat} (h1 : Chain n a b) (h2 : Chain k b c) :
    Chain (n + k) a c := by
  induction h1 with
  | nil l => simpa using h2
  | @next n a b c1 st _ ih =>
    have := Chain.next st (ih h2)
    have e : n + 1 + k = n + k + 1 := by omega
    rw [e]; exact this

theorem Chain.single {a b : List Nat} (h : Step a b) : Chain 1 a b :=
  Chain.next h (Chain.nil b)

theorem Chain.snoc {n : Nat} {a b c : List Nat} (h1 : Chain n a b) (h2 : Step b c) :
    Chain (n + 1) a c :=
  h1.trans (Chain.single h2)

theorem Chain.lift (c : Nat) {n : Nat} {a b : List Nat} (h : Chain n a b) :
    Chain n (c :: a) (c :: b) := by
  induction h with
  | nil l => exact Chain.nil _
  | next st _ ih => exact Chain.next (Step.cons c st) ih

theorem Chain.cast {n k : Nat} {a b : List Nat} (h : Chain n a b) (e : n = k) : Chain k a b :=
  e ▸ h

theorem chain_of_nil (b : List Nat) : Chain b.length [] b := by
  induction b with
  | nil => exact Chain.nil []
  | cons y ys ih => exact ih.snoc (Step.ins y ys)

theorem chain_to_nil (a : List Nat) : Chain a.length a [] := by
  induction a with
  | nil => exact Chain.nil []
  | cons x xs ih => exact Chain.next (Step.del x xs) ih

/-- A chain of exactly `lev a b` edits turns `a` into `b`. -/
theorem chain_lev (a : List Nat) : ∀ b, Chain (lev a b) a b := by
  induction a with
  | nil => intro b; exact chain_of_nil b
  | cons x xs ihx =>
    intro b
    induction b with
    | nil => rw [lev_nil_right]; exact chain_to_nil _
    | cons y ys ihy =>
      have c1 : Chain (lev xs (y :: ys) + 1) (x :: xs) (y :: ys) :=
        Chain.next (Step.del x xs) (ihx (y :: ys))
      have c2 : Chain (lev (x :: xs) ys + 1) (x :: xs) (y :: ys) := ihy.snoc (Step.ins y ys)
      have c3 : Chain (lev xs ys + subCost x y) (x :: xs) (y :: ys) := by
        by_cases hxy : x = y
        · subst hxy
          rw [subCost_self]
          exact Chain.lift x (ihx ys)
        · have : subCost x y = 1 := by simp [subCost, hxy]
          rw [this]
          exact (Chain.lift x (ihx ys)).snoc (Step.sub x y ys)
      rw [lev_cons_cons]
      simp only [min_def]
      split_ifs
      · exact c1
      · exact c3
      · exact c2
      · exact c3

/-! ## Edit scripts and chains -/

theorem Step.append_left (p : List Nat) {l r : List Nat} (h : Step l r) :
    Step (p ++ l) (p ++ r) := by
  induction p with
  | nil => exact h
  | cons c p ih => exact Step.cons c ih

theorem Step.append_right {l r : List Nat} (h : Step l r) (t : List Nat) :
    Step (l ++ t) (r ++ t) := by
  induction h with
  | ins c l => exact Step.ins c (l ++ t)
  | del c l => exact Step.del c (l ++ t)
  | sub c e l => exact Step.sub c e (l ++ t)
  | cons c _ ih => exact Step.cons c ih

theorem Step.symm_step {l r : List Nat} (h : Step l r) : Step r l := by
  induction h with
  | ins c l => exact Step.del c l
  | del c l => exact Step.ins c l
  | sub c e l => exact Step.sub e c l
  | cons c _ ih => exact Step.cons c ih

theorem Step.reverse_step {l r : List Nat} (h : Step l r) : Step l.reverse r.reverse := by
  induction h with
  | ins c l =>
    have := Step.append_left l.reverse (Step.ins c [])
    simpa using this
  | del c l =>
    have := Step.append_left l.reverse (Step.del c [])
    simpa using this
  | sub c e l =>
    have := Step.append_left l.reverse (Step.sub c e [])
    simpa using this
  | cons c _ ih =>
    have := Step.append_right ih [c]
    simpa using this

theorem Step.length_le_succ {l r : List Nat} (h : Step l r) :
    l.length ≤ r.length + 1 ∧ r.length ≤ l.length + 1 := by
  induction h with
  | ins c l => simp only [List.length_cons]; omega
  | del c l => simp only [List.length_cons]; omega
  | sub c e l => simp only [List.length_cons]; omega
  | cons c _ ih => simp only [List.length_cons]; omega

/-- An edit operation that succeeds is one edit step. -/
theorem EditOp.apply_step {op : EditOp} {l r : List Nat} (h : op.apply l = some r) :
    Step l r := by
  cases op with
  | insert pos c =>
    simp only [EditOp.apply] at h
    split at h
    · injection h with h
      subst h
      have := Step.append_left (l.take pos) (Step.ins c (l.drop pos))
      rwa [List.take_append_drop] at this
    · exact absurd h (by simp)
  | delete pos =>
    simp only [EditOp.apply] at h
    split at h
    · rename_i hp
      injection h with h
      subst h
      have := Step.append_left (l.take pos) (Step.del (l[pos]) (l.drop (pos + 1)))
      rwa [← List.drop_eq_getElem_cons hp, List.take_append_drop] at this
    · exact absurd h (by simp)
  | substitute pos c =>
    simp only [EditOp.apply] at h
    split at h
    · rename_i hp
      injection h with h
      subst h
      have := Step.append_left (l.take pos) (Step.sub (l[pos]) c (l.drop (pos + 1)))
      rwa [← List.drop_eq_getElem_cons hp, List.take_append_drop] at this
    · exact absurd h (by simp)

/-- Every edit step is the effect of some edit operation. -/
theorem Step.exists_op {l r : List Nat} (h : Step l r) : ∃ op : EditOp, op.apply l = some r := by
  induction h with
  | ins c l => exact ⟨.insert 0 c, by simp [EditOp.apply]⟩
  | del c l => exact ⟨.delete 0, by simp [EditOp.apply]⟩
  | sub c e l => exact ⟨.substitute 0 e, by simp [EditOp.apply]⟩
  | @cons c l r _ ih =>
    obtain ⟨op, hop⟩ := ih
    cases op with
    | insert pos e =>
      refine ⟨.insert (pos + 1) e, ?_⟩
      simp only [EditOp.apply] at hop ⊢
      split at hop
      · injection hop with hop
        simp [*]
      · exact absurd hop (by simp)
    | delete pos =>
      refine ⟨.delete (pos + 1), ?_⟩
      simp only [EditOp.apply] at hop ⊢
      split at hop
      · injection hop with hop
        simp [*]
      · exact absurd hop (by simp)
    | substitute pos e =>
      refine ⟨.substitute (pos + 1) e, ?_⟩
      simp only [EditOp.apply] at hop ⊢
      split at hop
      · injection hop with hop
        simp [*]
      · exact absurd hop (by simp)

theorem chain_of_script (s : List EditOp) :
    ∀ a b : List Nat, applyScript s a = some b → Chain s.length a b := by
  induction s with
  | nil =>
    intro a b h
    simp only [applyScript] at h
    injection h with h
    subst h
    exact Chain.nil a
  | cons op rest ih =>
    intro a b h
    simp only [applyScript] at h
    split at h
    · exact absurd h (by simp)
    · rename_i l1 hop
      exact Chain.next (EditOp.apply_step hop) (ih l1 b h)

theorem script_of_chain {n : Nat} {a b : List Nat} (h : Chain n a b) :
    ∃ s : List EditOp, s.length = n ∧ applyScript s a = some b := by
  induction h with
  | nil l => exact ⟨[], rfl, rfl⟩
  | next st _ ih =>
    obtain ⟨s, hs, hrun⟩ := ih
    obtain ⟨op, hop⟩ := st.exists_op
    exact ⟨op :: s, by simp [hs], by simp [applyScript, hop, hrun]⟩

/-- The textbook recursion computes the Levenshtein distance. -/
theorem lev_isEditDistance (a b : List Nat) : IsEditDistance a b (lev a b) :=
  ⟨script_of_chain (chain_lev a b), fun s hs => (chain_of_script s a b hs).lev_le_length⟩

theorem IsEditDistance.unique {a b : List Nat} {n k : Nat}
    (h1 : IsEditDistance a b n) (h2 : IsEditDistance a b k) : n = k := by
  obtain ⟨⟨s1, l1, r1⟩, m1⟩ := h1
  obtain ⟨⟨s2, l2, r2⟩, m2⟩ := h2
  have := m1 s2 r2
  have := m2 s1 r1
  omega

theorem Chain.symm_chain {n : Nat} {a b : List Nat} (h : Chain n a b) : Chain n b a := by
  induction h with
  | nil l => exact Chain.nil l
  | next st _ ih => exact ih.snoc st.symm_step

theorem Chain.reverse_chain {n : Nat} {a b : List Nat} (h : Chain n a b) :
    Chain n a.reverse b.reverse := by
  induction h with
  | nil l => exact Chain.nil _
  | next st _ ih => exact Chain.next st.reverse_step ih

theorem Chain.length_le_add {n : Nat} {a b : List Nat} (h : Chain n a b) :
    a.length ≤ b.length + n ∧ b.length ≤ a.length + n := by
  induction h with
  | nil l => simp
  | next st _ ih => have := st.length_le_succ; omega

theorem lev_comm (a b : List Nat) : lev a b = lev b a :=
  le_antisymm (chain_lev b a).symm_chain.lev_le_length (chain_lev a b).symm_chain.lev_le_length

theorem lev_reverse (a b : List Nat) : lev a.reverse b.reverse = lev a b := by
  apply le_antisymm
  · exact (chain_lev a b).reverse_chain.lev_le_length
  · have := (chain_lev a.reverse b.reverse).reverse_chain.lev_le_length
    simpa using this

theorem lev_triangle (a b c : List Nat) : lev a b ≤ lev a c + lev c b :=
  ((chain_lev a c).trans (chain_lev c b)).lev_le_length

theorem lev_le_max (a : List Nat) : ∀ b, lev a b ≤ max a.length b.length := by
  induction a with
  | nil => intro b; simp [lev_nil_left]
  | cons x xs ih =>
    intro b
    cases b with
    | nil => simp [lev_nil_right]
    | cons y ys =>
      have h1 := lev_cons_cons_le_diag x y xs ys
      have h2 := subCost_le_one x y
      have h3 := ih ys
      simp only [List.length_cons]
      omega

theorem lev_ge_diff (a b : List Nat) :
    a.length ≤ b.length + lev a b ∧ b.length ≤ a.length + lev a b :=
  (chain_lev a b).length_le_add

theorem cellValue_zero_left (a b : List Nat) (j : Nat) (hj : j ≤ b.length) :
    cellValue a b 0 j = j := by
  simp [cellValue, lev_nil_left, hj]

theorem cellValue_zero_right (a b : List Nat) (i : Nat) (hi : i ≤ a.length) :
    cellValue a b i 0 = i := by
  simp [cellValue, lev_nil_right, hi]

theorem take_succ_reverse (a : List Nat) (i : Nat) (hi : i < a.length) :
    (a.take (i + 1)).reverse = a.getD i 0 :: (a.take i).reverse := by
  rw [List.take_succ]
  simp [List.getElem?_eq_getElem hi, List.getD_eq_getElem a 0 hi]

/-- The recurrence of the dynamic programme holds for the values of the cells. -/
theorem cellValue_succ_succ (a b : List Nat) (i j : Nat) (hi : i < a.length)
    (hj : j < b.length) :
    cellValue a b (i + 1) (j + 1)
      = min (min (cellValue a b i (j + 1) + 1) (cellValue a b (i + 1) j + 1))
          (cellValue a b i j + subCost (a.getD i 0) (b.getD j 0)) := by
  simp only [cellValue, take_succ_reverse a i hi, take_succ_reverse b j hj, lev_cons_cons]

theorem cellValue_full (a b : List Nat) : cellValue a b a.length b.length = lev a b := by
  simp [cellValue, lev_reverse]

theorem cellValue_le_max (a b : List Nat) (i j : Nat) : cellValue a b i j ≤ max i j := by
  have h := lev_le_max (a.take i).reverse (b.take j).reverse
  simp only [List.length_reverse, List.length_take] at h
  unfold cellValue
  omega

/-! ## Machine integers and loops -/

theorem intAdd_ok {x y : Int} (h1 : INT_MIN ≤ x + y) (h2 : x + y ≤ INT_MAX) :
    intAdd x y = .ok (x + y) := by
  simp [intAdd, h1, h2]

theorem intSub_ok {x y : Int} (h1 : INT_MIN ≤ x - y) (h2 : x - y ≤ INT_MAX) :
    intSub x y = .ok (x - y) := by
  simp [intSub, h1, h2]

theorem intAdd_overflow {x y : Int} (h : INT_MAX < x + y) :
    intAdd x y = .error .signedOverflow := by
  have : ¬ (x + y ≤ INT_MAX) := not_le.mpr h
  simp [intAdd, this]

theorem minimum_eq (a b c : Int) : minimum a b c = min (min a b) c := by
  unfold minimum
  simp only [min_def]
  split_ifs <;> omega

/-- Invariant rule for a counting loop whose bound is below `INT_MAX`: the
counter never overflows, the loop ends, and the invariant holds at `hi + 1`. -/
theorem forLoop_inv {σ : Type} (hi : Int) (body : Int → σ → Except UB σ)
    (Inv : Int → σ → Prop) (hhi : hi < INT_MAX)
    (hbody : ∀ i s, i ≤ hi → Inv i s → ∃ s1, body i s = .ok s1 ∧ Inv (i + 1) s1) :
    ∀ (k : Nat) (lo : Int) (s : σ) (fuel : Nat), INT_MIN ≤ lo + 1 → lo ≤ hi + 1 →
      hi + 1 - lo ≤ (k : Int) → k < fuel → Inv lo s →
      ∃ s1, forLoop hi body fuel lo s = .ok s1 ∧ Inv (hi + 1) s1 := by
  intro k
  induction k with
  | zero =>
    intro lo s fuel _ h2 h3 h4 hI
    obtain ⟨fuel, rfl⟩ : ∃ g, fuel = g + 1 := ⟨fuel - 1, by omega⟩
    have e : lo = hi + 1 := by omega
    subst e
    have : ¬ (hi + 1 ≤ hi) := by omega
    exact ⟨s, by simp [forLoop, this], hI⟩
  | succ k ih =>
    intro lo s fuel h1 h2 h3 h4 hI
    obtain ⟨fuel, rfl⟩ : ∃ g, fuel = g + 1 := ⟨fuel - 1, by omega⟩
    by_cases hle : lo ≤ hi
    · obtain ⟨s1, hb, hI1⟩ := hbody lo s hle hI
      have hadd : intAdd lo 1 = .ok (lo + 1) := by
        apply intAdd_ok h1
        unfold INT_MAX at *; omega
      have hmin : INT_MIN ≤ lo + 1 + 1 := by unfold INT_MIN at *; omega
      obtain ⟨s2, hrun, hI2⟩ := ih (lo + 1) s1 fuel hmin (by omega)
        (by push_cast at h3 ⊢; omega) (by omega) hI1
      exact ⟨s2, by simp [forLoop, hle, hb, hadd, hrun], hI2⟩
    · have e : lo = hi + 1 := by omega
      subst e
      exact ⟨s, by simp [forLoop, hle], hI⟩

/-- A counting loop whose bound is `INT_MAX` or more increments its counter past
`INT_MAX`, provided its body succeeds up to there. -/
theorem forLoop_overflow {σ : Type} (hi : Int) (body : Int → σ → Except UB σ)
    (Inv : Int → σ → Prop) (hhi : INT_MAX ≤ hi)
    (hbody : ∀ i s, i ≤ INT_MAX → Inv i s → ∃ s1, body i s = .ok s1 ∧ Inv (i + 1) s1) :
    ∀ (k : Nat) (lo : Int) (s : σ) (fuel : Nat), INT_MIN ≤ lo + 1 → lo ≤ INT_MAX →
      INT_MAX - lo ≤ (k : Int) → k < fuel → Inv lo s →
      forLoop hi body fuel lo s = .error .signedOverflow := by
  intro k
  induction k with
  | zero =>
    intro lo s fuel _ h2 h3 h4 hI
    obtain ⟨fuel, rfl⟩ : ∃ g, fuel = g + 1 := ⟨fuel - 1, by omega⟩
    have e : lo = INT_MAX := by omega
    subst e
    obtain ⟨s1, hb, _⟩ := hbody INT_MAX s le_rfl hI
    have hadd : intAdd INT_MAX 1 = .error .signedOverflow :=
      intAdd_overflow (by omega)
    simp [forLoop, hhi, hb, hadd]
  | succ k ih =>
    intro lo s fuel h1 h2 h3 h4 hI
    obtain ⟨fuel, rfl⟩ : ∃ g, fuel = g + 1 := ⟨fuel - 1, by omega⟩
    have hle : lo ≤ hi := le_trans h2 hhi
    obtain ⟨s1, hb, hI1⟩ := hbody lo s h2 hI
    by_cases hlt : lo < INT_MAX
    · have hadd : intAdd lo 1 = .ok (lo + 1) := intAdd_ok h1 (by omega)
      have hmin : INT_MIN ≤ lo + 1 + 1 := by unfold INT_MIN at *; omega
      have hrun := ih (lo + 1) s1 fuel hmin (by omega)
        (by push_cast at h3 ⊢; omega) (by omega) hI1
      simp [forLoop, hle, hb, hadd, hrun]
    · have hadd : intAdd lo 1 = .error .signedOverflow :=
        intAdd_overflow (by omega)
      simp [forLoop, hle, hb, hadd]

/-- A loop whose first iteration fails, fails. -/
theorem forLoop_first_error {σ : Type} (hi : Int) (body : Int → σ → Except UB σ)
    (fuel : Nat) (lo : Int) (s : σ) (e : UB) (hle : lo ≤ hi) (hb : body lo s = .error e) :
    forLoop hi body (fuel + 1) lo s = .error e := by
  simp [forLoop, hle, hb]

/-! ## Memory accesses on an allocated matrix -/

theorem checkRowIndex_ok_of {h : Heap} {m : Nat} {f : Frame}
    (hd : f.d = some h.next) (hb0 : f.heap.blocks h.next = some (m + 1))
    {i : Int} (h0 : 0 ≤ i) (h1 : i ≤ m) :
    checkRowIndex f i = .ok () := by
  have : 0 ≤ i ∧ i < ((m + 1 : Nat) : Int) := ⟨h0, by push_cast; omega⟩
  unfold checkRowIndex
  rw [hd]
  dsimp only
  rw [hb0]
  dsimp only
  rw [if_pos this]

theorem Allocated.blocks_d {h : Heap} {m n : Nat} {upto : Int} {f : Frame}
    (hA : Allocated h m n upto f) : f.heap.blocks h.next = some (m + 1) := by
  have hb0 := hA.2.2.1 h.next
  rwa [if_pos rfl] at hb0

theorem checkRowIndex_ok {h : Heap} {m n : Nat} {upto : Int} {f : Frame}
    (hA : Allocated h m n upto f) {i : Int} (h0 : 0 ≤ i) (h1 : i ≤ m) :
    checkRowIndex f i = .ok () :=
  checkRowIndex_ok_of hA.1 hA.blocks_d h0 h1

theorem cellBlock_ok {h : Heap} {m n : Nat} {f : Frame}
    (hA : Allocated h m n ((m : Int) + 1) f) {i j : Int} (h0 : 0 ≤ i) (h1 : i ≤ m)
    (h2 : 0 ≤ j) (h3 : j ≤ n) : cellBlock f i j = .ok (rowBlock h i) := by
  have hc := checkRowIndex_ok hA h0 h1
  obtain ⟨_, _, hb, hr⟩ := hA
  have hri : f.rowPtr i = some (rowBlock h i) := by
    rw [hr i]
    have : 0 ≤ i ∧ i < (m : Int) + 1 := ⟨h0, by omega⟩
    rw [if_pos this]
  have hbi : f.heap.blocks (rowBlock h i) = some (n + 1) := by
    rw [hb]
    have e1 : rowBlock h i ≠ h.next := by unfold rowBlock; omega
    have e2 : h.next < rowBlock h i ∧ rowBlock h i < h.next + 1 + ((m : Int) + 1).toNat := by
      unfold rowBlock; omega
    rw [if_neg e1, if_pos e2]
  have : 0 ≤ j ∧ j < ((n + 1 : Nat) : Int) := ⟨h2, by push_cast; omega⟩
  unfold cellBlock loadRow
  rw [hc]
  dsimp only
  rw [hri]
  dsimp only
  rw [hbi]
  dsimp only
  rw [if_pos this]

theorem readCell_ok {h : Heap} {m n : Nat} {f : Frame}
    (hA : Allocated h m n ((m : Int) + 1) f) {i j : Int} (h0 : 0 ≤ i) (h1 : i ≤ m)
    (h2 : 0 ≤ j) (h3 : j ≤ n) : readCell f i j = .ok (f.cells (rowBlock h i) j) := by
  simp [readCell, cellBlock_ok hA h0 h1 h2 h3]

theorem writeCell_ok {h : Heap} {m n : Nat} {f : Frame}
    (hA : Allocated h m n ((m : Int) + 1) f) {i j : Int} (h0 : 0 ≤ i) (h1 : i ≤ m)
    (h2 : 0 ≤ j) (h3 : j ≤ n) (v : Int) :
    writeCell f i j v
      = .ok { f with cells := fun k c => if k = rowBlock h i ∧ c = j then v else f.cells k c } := by
  simp [writeCell, cellBlock_ok hA h0 h1 h2 h3]

theorem rowBlock_inj {h : Heap} {i k : Int} (hi : 0 ≤ i) (hk : 0 ≤ k)
    (e : rowBlock h i = rowBlock h k) : i = k := by
  unfold rowBlock at e; omega

/-- Writing the intended value into one cell extends the region that holds the
intended values by that cell. -/
theorem writeCell_extend {h : Heap} {m n : Nat} {f : Frame}
    (hA : Allocated h m n ((m : Int) + 1) f) (R R1 : Int → Int → Prop) (T : Int → Int → Int)
    (hR : Agrees h f R T) {i j : Int} (h0 : 0 ≤ i) (h1 : i ≤ m) (h2 : 0 ≤ j) (h3 : j ≤ n)
    (hpos : ∀ i1 j1, R1 i1 j1 → 0 ≤ i1)
    (hext : ∀ i1 j1, R1 i1 j1 → R i1 j1 ∨ (i1 = i ∧ j1 = j)) :
    ∃ f1, writeCell f i j (T i j) = .ok f1 ∧ Allocated h m n ((m : Int) + 1) f1
      ∧ Agrees h f1 R1 T := by
  refine ⟨_, writeCell_ok hA h0 h1 h2 h3 _, hA, ?_⟩
  intro i1 j1 hin
  show (if rowBlock h i1 = rowBlock h i ∧ j1 = j then T i j else f.cells (rowBlock h i1) j1) = _
  split
  · rename_i hc
    have := rowBlock_inj (hpos i1 j1 hin) h0 hc.1
    rw [this, hc.2]
  · rename_i hc
    rcases hext i1 j1 hin with hin1 | ⟨e1, e2⟩
    · exact hR i1 j1 hin1
    · exact absurd ⟨by rw [e1], e2⟩ hc

/-! ## The stages of the function -/

theorem Env.allocOK.calls {env : Env} (hE : env.allocOK) (h : Heap) (calls : Nat) :
    env.callsOK h calls :=
  fun k _ _ => hE k

theorem malloc_ok {env : Env} {h : Heap} (hE : env.mallocOk h.next = true) (n : Nat) :
    malloc env h n
      = (⟨h.next + 1, fun k => if k = h.next then some n else h.blocks k⟩, some h.next) := by
  simp [malloc, hE]

/-- The frame right after `d = malloc(...)` has the pointer array and no row. -/
theorem allocated_start (env : Env) (h : Heap) (m n : Nat) :
    Allocated h m n 0
      ⟨⟨h.next + 1, fun k => if k = h.next then some (m + 1) else h.blocks k⟩, some h.next,
        fun _ => none, env.junk⟩ := by
  refine ⟨rfl, by simp, ?_, ?_⟩
  · intro k
    have : ¬ (h.next < k ∧ k < h.next + 1 + (0 : Int).toNat) := by simp; omega
    simp only [this, if_false]
  · intro r
    have : ¬ (0 ≤ r ∧ r < 0) := by omega
    simp [this]

/-- One iteration of the allocation loop. -/
theorem allocRow_step {env : Env} {h : Heap} {m n : Nat} (hE : env.callsOK h (m + 2))
    {i : Int} {f : Frame} (h0 : 0 ≤ i) (h1 : i ≤ m) (hA : Allocated h m n i f) :
    ∃ f1, allocRow env (n : Int) i f = .ok f1 ∧ Allocated h m n (i + 1) f1 := by
  have hn : ((n : Int) + 1).toNat = n + 1 := by omega
  obtain ⟨a1, a2, a3, a4⟩ := hA
  have hnext : f.heap.next = rowBlock h i := a2
  have hne : h.next ≠ f.heap.next := by omega
  have hc : checkRowIndex
      { f with heap := ⟨f.heap.next + 1,
          fun k => if k = f.heap.next then some (n + 1) else f.heap.blocks k⟩ } i = .ok () := by
    have hb : (if h.next = f.heap.next then some (n + 1) else f.heap.blocks h.next)
        = some (m + 1) := by
      rw [if_neg hne, a3, if_pos rfl]
    exact checkRowIndex_ok_of (h := h) (m := m)
      (f := { f with heap := ⟨f.heap.next + 1,
          fun k => if k = f.heap.next then some (n + 1) else f.heap.blocks k⟩ }) a1 hb h0 h1
  refine ⟨⟨⟨f.heap.next + 1, fun k => if k = f.heap.next then some (n + 1) else f.heap.blocks k⟩,
    f.d, fun k => if k = i then some f.heap.next else f.rowPtr k, f.cells⟩, ?_, ?_⟩
  · unfold allocRow
    rw [hn, malloc_ok (hE _ (by omega) (by omega))]
    dsimp only
    unfold storeRow
    rw [hc]
  · refine ⟨a1, ?_, ?_, ?_⟩
    · show f.heap.next + 1 = _
      omega
    · intro k
      show (if k = f.heap.next then some (n + 1) else f.heap.blocks k) = _
      rw [a3]
      split_ifs <;> first | rfl | (exfalso; omega)
    · intro r
      show (if r = i then some f.heap.next else f.rowPtr r) = _
      rw [a4, hnext]
      split_ifs with c1 c2 c3 c4 c5
      · subst c1; rfl
      · exfalso; omega
      · rfl
      · exfalso; omega
      · exfalso; omega
      · rfl

/-- The allocation loop (lines 51-53) allocates every row. -/
theorem alloc_stage {env : Env} {h : Heap} {m : Nat} (hE : env.callsOK h (m + 2)) (n : Nat)
    (hm : (m : Int) < INT_MAX) :
    ∃ f1, forLoop (m : Int) (allocRow env (n : Int)) (loopFuel (m : Int)) 0
        ⟨⟨h.next + 1, fun k => if k = h.next then some (m + 1) else h.blocks k⟩, some h.next,
          fun _ => none, env.junk⟩ = .ok f1
      ∧ Allocated h m n ((m : Int) + 1) f1 := by
  have key := forLoop_inv (m : Int) (allocRow env (n : Int))
    (fun i f => 0 ≤ i ∧ Allocated h m n i f) hm
    (by
      intro i f hi ⟨h0, hA⟩
      obtain ⟨f1, e, hA1⟩ := allocRow_step hE h0 hi hA
      exact ⟨f1, e, by omega, hA1⟩)
    (m + 1) 0 _ (loopFuel (m : Int)) (by unfold INT_MIN; omega) (by omega)
    (by push_cast; omega) (by unfold loopFuel; omega) ⟨le_rfl, allocated_start env h m n⟩
  obtain ⟨f1, e, _, hA⟩ := key
  exact ⟨f1, e, hA⟩

theorem Agrees.mono {h : Heap} {f : Frame} {R R1 : Int → Int → Prop} {T : Int → Int → Int}
    (hR : Agrees h f R T) (hsub : ∀ i j, R1 i j → R i j) : Agrees h f R1 T :=
  fun i j hin => hR i j (hsub i j hin)

/-- A loop that writes the intended value into one cell per iteration extends
the region holding the intended values cell by cell. -/
theorem write_loop {h : Heap} {m n : Nat} (T : Int → Int → Int) (R : Int → Int → Int → Prop)
    (ci cj v : Int → Int) (lo hi : Int) (hhi : hi < INT_MAX) (hlo : 0 ≤ lo)
    (hlohi : lo ≤ hi + 1)
    (hcell : ∀ k, lo ≤ k → k ≤ hi →
      0 ≤ ci k ∧ ci k ≤ m ∧ 0 ≤ cj k ∧ cj k ≤ n ∧ v k = T (ci k) (cj k))
    (hpos : ∀ k i1 j1, R k i1 j1 → 0 ≤ i1)
    (hext : ∀ k, lo ≤ k → k ≤ hi → ∀ i1 j1, R (k + 1) i1 j1 →
      R k i1 j1 ∨ (i1 = ci k ∧ j1 = cj k))
    (f : Frame) (hA : Allocated h m n ((m : Int) + 1) f) (hR : Agrees h f (R lo) T) :
    ∃ f1, forLoop hi (fun k g => writeCell g (ci k) (cj k) (v k)) (loopFuel hi) lo f = .ok f1
      ∧ Allocated h m n ((m : Int) + 1) f1 ∧ Agrees h f1 (R (hi + 1)) T := by
  have key := forLoop_inv hi (fun k g => writeCell g (ci k) (cj k) (v k))
    (fun k g => lo ≤ k ∧ Allocated h m n ((m : Int) + 1) g ∧ Agrees h g (R k) T) hhi
    (by
      intro k g hk ⟨hlk, hAg, hRg⟩
      obtain ⟨c0, c1, c2, c3, c4⟩ := hcell k hlk hk
      obtain ⟨g1, e, hA1, hR1⟩ := writeCell_extend hAg (R k) (R (k + 1)) T hRg c0 c1 c2 c3
        (hpos (k + 1)) (hext k hlk hk)
      refine ⟨g1, ?_, by omega, hA1, hR1⟩
      show writeCell g (ci k) (cj k) (v k) = _
      rw [c4]; exact e)
    (hi + 1 - lo).toNat lo f (loopFuel hi) (by unfold INT_MIN; omega) hlohi
    (by omega) (by unfold loopFuel; omega) ⟨le_rfl, hA, hR⟩
  obtain ⟨f1, e, _, hA1, hR1⟩ := key
  exact ⟨f1, e, hA1, hR1⟩

/-- The zero fill of one row (lines 57-59). -/
theorem zero_row {h : Heap} {m n : Nat} (hn : (n : Int) < INT_MAX) {i : Int} (h0 : 0 ≤ i)
    (h1 : i ≤ m) (f : Frame) (hA : Allocated h m n ((m : Int) + 1) f)
    (hR : Agrees h f (fun i1 j1 => 0 ≤ i1 ∧ 0 ≤ j1 ∧ j1 ≤ n ∧ i1 < i) (fun _ _ => 0)) :
    ∃ f1, forLoop (n : Int) (fun j g => writeCell g i j 0) (loopFuel (n : Int)) 0 f = .ok f1
      ∧ Allocated h m n ((m : Int) + 1) f1
      ∧ Agrees h f1 (fun i1 j1 => 0 ≤ i1 ∧ 0 ≤ j1 ∧ j1 ≤ n ∧ i1 < i + 1) (fun _ _ => 0) := by
  obtain ⟨f1, e, hA1, hR1⟩ := write_loop (h := h) (m := m) (n := n) (fun _ _ => 0)
    (fun j i1 j1 => 0 ≤ i1 ∧ 0 ≤ j1 ∧ j1 ≤ n ∧ (i1 < i ∨ (i1 = i ∧ j1 < j)))
    (fun _ => i) (fun j => j) (fun _ => 0) 0 (n : Int) hn le_rfl (by omega)
    (fun k hk0 hkn => ⟨h0, h1, hk0, hkn, rfl⟩)
    (fun k i1 j1 hin => hin.1)
    (by
      intro k _ _ i1 j1 ⟨a, b, c, d⟩
      by_cases hc : i1 = i ∧ j1 = k
      · exact Or.inr hc
      · left
        refine ⟨a, b, c, ?_⟩
        omega)
    f hA (hR.mono (by
      intro i1 j1 ⟨a, b, c, d⟩
      exact ⟨a, b, c, by omega⟩))
  exact ⟨f1, e, hA1, hR1.mono (by
    intro i1 j1 ⟨a, b, c, d⟩
    exact ⟨a, b, c, by omega⟩)⟩

/-- The zero fill (lines 56-60) sets every cell of the matrix to 0. -/
theorem zero_stage {h : Heap} {m n : Nat} (hm : (m : Int) < INT_MAX)
    (hn : (n : Int) < INT_MAX) (f : Frame) (hA : Allocated h m n ((m : Int) + 1) f) :
    ∃ f1, forLoop (m : Int)
        (fun i g => forLoop (n : Int) (fun j g1 => writeCell g1 i j 0) (loopFuel (n : Int)) 0 g)
        (loopFuel (m : Int)) 0 f = .ok f1
      ∧ Allocated h m n ((m : Int) + 1) f1
      ∧ Agrees h f1 (fun i1 j1 => 0 ≤ i1 ∧ i1 ≤ m ∧ 0 ≤ j1 ∧ j1 ≤ n) (fun _ _ => 0) := by
  have key := forLoop_inv (m : Int)
    (fun i g => forLoop (n : Int) (fun j g1 => writeCell g1 i j 0) (loopFuel (n : Int)) 0 g)
    (fun i g => 0 ≤ i ∧ Allocated h m n ((m : Int) + 1) g
      ∧ Agrees h g (fun i1 j1 => 0 ≤ i1 ∧ 0 ≤ j1 ∧ j1 ≤ n ∧ i1 < i) (fun _ _ => 0)) hm
    (by
      intro i g hi ⟨h0, hAg, hRg⟩
      obtain ⟨g1, e, hA1, hR1⟩ := zero_row hn h0 hi g hAg hRg
      exact ⟨g1, e, by omega, hA1, hR1⟩)
    (m + 1) 0 f (loopFuel (m : Int)) (by unfold INT_MIN; omega) (by omega)
    (by push_cast; omega) (by unfold loopFuel; omega)
    ⟨le_rfl, hA, by intro i1 j1 ⟨a, _, _, d⟩; omega⟩
  obtain ⟨f1, e, _, hA1, hR1⟩ := key
  exact ⟨f1, e, hA1, hR1.mono (by
    intro i1 j1 ⟨a, b, c, d⟩
    exact ⟨a, c, d, by omega⟩)⟩

theorem codepoints_length (u : PyUnicode) : u.codepoints.length = u.length := by
  simp [PyUnicode.codepoints]

theorem codepoints_getD (u : PyUnicode) (k : Nat) (hk : k < u.length) :
    u.codepoints.getD k 0 = PyUnicode_READ u.kind u.data (k : Int) := by
  have hk1 : k < u.codepoints.length := by rw [codepoints_length]; exact hk
  rw [List.getD_eq_getElem _ 0 hk1]
  simp [PyUnicode.codepoints]

theorem target_col (a b : PyUnicode) (i : Int) (h0 : 0 ≤ i) (h1 : i ≤ a.length) :
    target a b i 0 = i := by
  unfold target
  have : i.toNat ≤ a.codepoints.length := by rw [codepoints_length]; omega
  rw [Int.toNat_zero, cellValue_zero_right _ _ _ this]
  omega

theorem target_row (a b : PyUnicode) (j : Int) (h0 : 0 ≤ j) (h1 : j ≤ b.length) :
    target a b 0 j = j := by
  unfold target
  have : j.toNat ≤ b.codepoints.length := by rw [codepoints_length]; omega
  rw [Int.toNat_zero, cellValue_zero_left _ _ _ this]
  omega

theorem target_le_max (a b : PyUnicode) (i j : Int) (h0 : 0 ≤ i) (h1 : 0 ≤ j) :
    0 ≤ target a b i j ∧ target a b i j ≤ max i j := by
  unfold target
  have := cellValue_le_max a.codepoints b.codepoints i.toNat j.toNat
  omega

/-- The recurrence of the source, on the values meant for the cells. -/
theorem target_rec (a b : PyUnicode) (i j : Int) (hi0 : 1 ≤ i) (hi1 : i ≤ a.length)
    (hj0 : 1 ≤ j) (hj1 : j ≤ b.length) :
    minimum (target a b (i - 1) j + 1) (target a b i (j - 1) + 1)
        (target a b (i - 1) (j - 1)
          + (if PyUnicode_READ (PyUnicode_KIND a) (PyUnicode_DATA a) (i - 1)
                = PyUnicode_READ (PyUnicode_KIND b) (PyUnicode_DATA b) (j - 1) then 0 else 1))
      = target a b i j := by
  obtain ⟨p, hp⟩ : ∃ p : Nat, i = (p : Int) + 1 := ⟨(i - 1).toNat, by omega⟩
  obtain ⟨q, hq⟩ : ∃ q : Nat, j = (q : Int) + 1 := ⟨(j - 1).toNat, by omega⟩
  subst hp hq
  have hp1 : p < a.codepoints.length := by rw [codepoints_length]; omega
  have hq1 : q < b.codepoints.length := by rw [codepoints_length]; omega
  have e1 : ((p : Int) + 1).toNat = p + 1 := by omega
  have e2 : ((q : Int) + 1).toNat = q + 1 := by omega
  have e3 : ((p : Int) + 1 - 1) = (p : Int) := by omega
  have e4 : ((q : Int) + 1 - 1) = (q : Int) := by omega
  rw [minimum_eq]
  unfold target
  rw [e3, e4, e1, e2, Int.toNat_ofNat, Int.toNat_ofNat,
    cellValue_succ_succ _ _ p q hp1 hq1,
    codepoints_getD a p (by omega), codepoints_getD b q (by omega)]
  unfold PyUnicode_KIND PyUnicode_DATA subCost
  push_cast
  split <;> simp

/-- The body of the fill loop, when none of its operations fails. -/
theorem fillCell_eq (a b : PyUnicode) (f : Frame) (i j i1 j1 up left diag x y z : Int)
    (s1 : intSub i 1 = .ok i1) (s2 : intSub j 1 = .ok j1)
    (r1 : readCell f i1 j = .ok up) (r2 : readCell f i j1 = .ok left)
    (r3 : readCell f i1 j1 = .ok diag)
    (a1 : intAdd up 1 = .ok x) (a2 : intAdd left 1 = .ok y)
    (a3 : intAdd diag
      (if PyUnicode_READ (PyUnicode_KIND a) (PyUnicode_DATA a) i1
          = PyUnicode_READ (PyUnicode_KIND b) (PyUnicode_DATA b) j1 then 0 else 1) = .ok z) :
    fillCell a b j i f = writeCell f i j (minimum x y z) := by
  unfold fillCell
  rw [s1, s2]
  dsimp only
  rw [r1, r2, r3]
  dsimp only
  rw [a1, a2, a3]

/-- One execution of the body of the fill loop (lines 78-79). -/
theorem fillCell_step (a b : PyUnicode) {h : Heap} (hm : (a.length : Int) < INT_MAX)
    (hn : (b.length : Int) < INT_MAX) {i j : Int} (hi0 : 1 ≤ i) (hi1 : i ≤ a.length)
    (hj0 : 1 ≤ j) (hj1 : j ≤ b.length) (f : Frame)
    (hA : Allocated h a.length b.length ((a.length : Int) + 1) f)
    (hR : Agrees h f (fun i1 j1 => 0 ≤ i1 ∧ i1 ≤ a.length ∧ 0 ≤ j1 ∧ j1 ≤ b.length
      ∧ (j1 < j ∨ i1 = 0 ∨ (j1 = j ∧ i1 < i))) (target a b)) :
    ∃ f1, fillCell a b j i f = .ok f1
      ∧ Allocated h a.length b.length ((a.length : Int) + 1) f1
      ∧ Agrees h f1 (fun i1 j1 => 0 ≤ i1 ∧ i1 ≤ a.length ∧ 0 ≤ j1 ∧ j1 ≤ b.length
          ∧ (j1 < j ∨ i1 = 0 ∨ (j1 = j ∧ i1 < i + 1))) (target a b) := by
  have s1 : intSub i 1 = .ok (i - 1) :=
    intSub_ok (by unfold INT_MIN; omega) (by unfold INT_MAX at *; omega)
  have s2 : intSub j 1 = .ok (j - 1) :=
    intSub_ok (by unfold INT_MIN; omega) (by unfold INT_MAX at *; omega)
  have r1 : readCell f (i - 1) j = .ok (target a b (i - 1) j) := by
    rw [readCell_ok hA (by omega) (by omega) (by omega) hj1]
    rw [hR (i - 1) j ⟨by omega, by omega, by omega, hj1, by omega⟩]
  have r2 : readCell f i (j - 1) = .ok (target a b i (j - 1)) := by
    rw [readCell_ok hA (by omega) hi1 (by omega) (by omega)]
    rw [hR i (j - 1) ⟨by omega, hi1, by omega, by omega, by omega⟩]
  have r3 : readCell f (i - 1) (j - 1) = .ok (target a b (i - 1) (j - 1)) := by
    rw [readCell_ok hA (by omega) (by omega) (by omega) (by omega)]
    rw [hR (i - 1) (j - 1) ⟨by omega, by omega, by omega, by omega, by omega⟩]
  have b1 := target_le_max a b (i - 1) j (by omega) (by omega)
  have b2 := target_le_max a b i (j - 1) (by omega) (by omega)
  have b3 := target_le_max a b (i - 1) (j - 1) (by omega) (by omega)
  have a1 : intAdd (target a b (i - 1) j) 1 = .ok (target a b (i - 1) j + 1) :=
    intAdd_ok (by unfold INT_MIN; omega) (by unfold INT_MAX at *; omega)
  have a2 : intAdd (target a b i (j - 1)) 1 = .ok (target a b i (j - 1) + 1) :=
    intAdd_ok (by unfold INT_MIN; omega) (by unfold INT_MAX at *; omega)
  have a3 : ∀ c : Int, 0 ≤ c → c ≤ 1 →
      intAdd (target a b (i - 1) (j - 1)) c = .ok (target a b (i - 1) (j - 1) + c) :=
    fun c c0 c1 => intAdd_ok (by unfold INT_MIN; omega) (by unfold INT_MAX at *; omega)
  obtain ⟨f1, e, hA1, hR1⟩ := writeCell_extend hA _
    (fun i1 j1 => 0 ≤ i1 ∧ i1 ≤ a.length ∧ 0 ≤ j1 ∧ j1 ≤ b.length
          ∧ (j1 < j ∨ i1 = 0 ∨ (j1 = j ∧ i1 < i + 1))) (target a b) hR
    (i := i) (j := j) (by omega) hi1 (by omega) hj1 (fun i1 j1 hin => hin.1)
    (by
      intro i1 j1 ⟨c0, c1, c2, c3, c4⟩
      by_cases hc : i1 = i ∧ j1 = j
      · exact Or.inr hc
      · left
        refine ⟨c0, c1, c2, c3, ?_⟩
        omega)
  refine ⟨f1, ?_, hA1, hR1⟩
  rw [← e, ← target_rec a b i j hi0 hi1 hj0 hj1]
  exact fillCell_eq a b f i j _ _ _ _ _ _ _ _ s1 s2 r1 r2 r3 a1 a2
    (a3 _ (by split <;> omega) (by split <;> omega))

/-- The base column (lines 63-65): `d[i][0] = i`. -/
theorem base_col_stage (a b : PyUnicode) {h : Heap} (hm : (a.length : Int) < INT_MAX)
    (f : Frame) (hA : Allocated h a.length b.length ((a.length : Int) + 1) f)
    (hR : Agrees h f (fun i1 j1 => 0 ≤ i1 ∧ i1 ≤ a.length ∧ 0 ≤ j1 ∧ j1 ≤ b.length)
      (fun _ _ => 0)) :
    ∃ f1, forLoop (a.length : Int) (fun i g => writeCell g i 0 i) (loopFuel (a.length : Int)) 1 f
        = .ok f1
      ∧ Allocated h a.length b.length ((a.length : Int) + 1) f1
      ∧ Agrees h f1 (fun i1 j1 => 0 ≤ i1 ∧ i1 ≤ a.length ∧ j1 = 0) (target a b) := by
  obtain ⟨f1, e, hA1, hR1⟩ := write_loop (h := h) (m := a.length) (n := b.length) (target a b)
    (fun k i1 j1 => 0 ≤ i1 ∧ i1 ≤ a.length ∧ j1 = 0 ∧ i1 < k)
    (fun k => k) (fun _ => 0) (fun k => k) 1 (a.length : Int) hm (by omega) (by omega)
    (fun k hk0 hk1 => ⟨by dsimp only; omega, hk1, le_rfl, by dsimp only; omega,
      (target_col a b k (by omega) hk1).symm⟩)
    (fun k i1 j1 hin => hin.1)
    (by
      intro k _ _ i1 j1 ⟨c0, c1, c2, c3⟩
      by_cases hc : i1 = k ∧ j1 = 0
      · exact Or.inr hc
      · left
        refine ⟨c0, c1, c2, ?_⟩
        omega)
    f hA (by
      intro i1 j1 ⟨c0, c1, c2, c3⟩
      have e0 : i1 = 0 := by omega
      subst e0 c2
      rw [hR 0 0 ⟨le_rfl, by omega, le_rfl, by omega⟩, target_col a b 0 le_rfl (by omega)])
  exact ⟨f1, e, hA1, hR1.mono (by
    intro i1 j1 ⟨c0, c1, c2⟩
    exact ⟨c0, c1, c2, by omega⟩)⟩

/-- The base row (lines 67-69): `d[0][j] = j`. -/
theorem base_row_stage (a b : PyUnicode) {h : Heap} (hn : (b.length : Int) < INT_MAX)
    (f : Frame) (hA : Allocated h a.length b.length ((a.length : Int) + 1) f)
    (hR : Agrees h f (fun i1 j1 => 0 ≤ i1 ∧ i1 ≤ a.length ∧ j1 = 0) (target a b)) :
    ∃ f1, forLoop (b.length : Int) (fun j g => writeCell g 0 j j) (loopFuel (b.length : Int)) 1 f
        = .ok f1
      ∧ Allocated h a.length b.length ((a.length : Int) + 1) f1
      ∧ Agrees h f1 (fun i1 j1 => 0 ≤ i1 ∧ i1 ≤ a.length ∧ 0 ≤ j1 ∧ j1 ≤ b.length
          ∧ (j1 < 1 ∨ i1 = 0)) (target a b) := by
  obtain ⟨f1, e, hA1, hR1⟩ := write_loop (h := h) (m := a.length) (n := b.length) (target a b)
    (fun k i1 j1 => 0 ≤ i1 ∧ i1 ≤ a.length ∧ 0 ≤ j1 ∧ j1 ≤ b.length
      ∧ (j1 = 0 ∨ (i1 = 0 ∧ j1 < k)))
    (fun _ => 0) (fun k => k) (fun k => k) 1 (b.length : Int) hn (by omega) (by omega)
    (fun k hk0 hk1 => ⟨le_rfl, by dsimp only; omega, by dsimp only; omega, hk1,
      (target_row a b k (by omega) hk1).symm⟩)
    (fun k i1 j1 hin => hin.1)
    (by
      intro k _ _ i1 j1 ⟨c0, c1, c2, c3, c4⟩
      by_cases hc : i1 = 0 ∧ j1 = k
      · exact Or.inr hc
      · left
        refine ⟨c0, c1, c2, c3, ?_⟩
        omega)
    f hA (hR.mono (by
      intro i1 j1 ⟨c0, c1, c2, c3, c4⟩
      exact ⟨c0, c1, by omega⟩))
  exact ⟨f1, e, hA1, hR1.mono (by
    intro i1 j1 ⟨c0, c1, c2, c3, c4⟩
    exact ⟨c0, c1, c2, c3, by omega⟩)⟩

/-- One column of the fill loop (the inner loop, lines 77-80). -/
theorem fill_column (a b : PyUnicode) {h : Heap} (hm : (a.length : Int) < INT_MAX)
    (hn : (b.length : Int) < INT_MAX) {j : Int} (hj0 : 1 ≤ j) (hj1 : j ≤ b.length) (f : Frame)
    (hA : Allocated h a.length b.length ((a.length : Int) + 1) f)
    (hR : Agrees h f (fun i1 j1 => 0 ≤ i1 ∧ i1 ≤ a.length ∧ 0 ≤ j1 ∧ j1 ≤ b.length
      ∧ (j1 < j ∨ i1 = 0)) (target a b)) :
    ∃ f1, forLoop (a.length : Int) (fillCell a b j) (loopFuel (a.length : Int)) 1 f = .ok f1
      ∧ Allocated h a.length b.length ((a.length : Int) + 1) f1
      ∧ Agrees h f1 (fun i1 j1 => 0 ≤ i1 ∧ i1 ≤ a.length ∧ 0 ≤ j1 ∧ j1 ≤ b.length
          ∧ (j1 < j + 1 ∨ i1 = 0)) (target a b) := by
  have key := forLoop_inv (a.length : Int) (fillCell a b j)
    (fun i g => 1 ≤ i ∧ Allocated h a.length b.length ((a.length : Int) + 1) g
      ∧ Agrees h g (fun i1 j1 => 0 ≤ i1 ∧ i1 ≤ a.length ∧ 0 ≤ j1 ∧ j1 ≤ b.length
          ∧ (j1 < j ∨ i1 = 0 ∨ (j1 = j ∧ i1 < i))) (target a b)) hm
    (by
      intro i g hi ⟨h0, hAg, hRg⟩
      obtain ⟨g1, e, hA1, hR1⟩ := fillCell_step a b hm hn h0 hi hj0 hj1 g hAg hRg
      exact ⟨g1, e, by omega, hA1, hR1⟩)
    a.length 1 f (loopFuel (a.length : Int)) (by unfold INT_MIN; omega) (by omega)
    (by omega) (by unfold loopFuel; omega)
    ⟨le_rfl, hA, hR.mono (by
      intro i1 j1 ⟨c0, c1, c2, c3, c4⟩
      exact ⟨c0, c1, c2, c3, by omega⟩)⟩
  obtain ⟨f1, e, _, hA1, hR1⟩ := key
  exact ⟨f1, e, hA1, hR1.mono (by
    intro i1 j1 ⟨c0, c1, c2, c3, c4⟩
    exact ⟨c0, c1, c2, c3, by omega⟩)⟩

/-- The fill loop (lines 76-81) gives every cell its intended value. -/
theorem fill_stage (a b : PyUnicode) {h : Heap} (hm : (a.length : Int) < INT_MAX)
    (hn : (b.length : Int) < INT_MAX) (f : Frame)
    (hA : Allocated h a.length b.length ((a.length : Int) + 1) f)
    (hR : Agrees h f (fun i1 j1 => 0 ≤ i1 ∧ i1 ≤ a.length ∧ 0 ≤ j1 ∧ j1 ≤ b.length
      ∧ (j1 < 1 ∨ i1 = 0)) (target a b)) :
    ∃ f1, forLoop (b.length : Int)
        (fun j g => forLoop (a.length : Int) (fillCell a b j) (loopFuel (a.length : Int)) 1 g)
        (loopFuel (b.length : Int)) 1 f = .ok f1
      ∧ Allocated h a.length b.length ((a.length : Int) + 1) f1
      ∧ Agrees h f1 (fun i1 j1 => 0 ≤ i1 ∧ i1 ≤ a.length ∧ 0 ≤ j1 ∧ j1 ≤ b.length)
          (target a b) := by
  have key := forLoop_inv (b.length : Int)
    (fun j g => forLoop (a.length : Int) (fillCell a b j) (loopFuel (a.length : Int)) 1 g)
    (fun j g => 1 ≤ j ∧ Allocated h a.length b.length ((a.length : Int) + 1) g
      ∧ Agrees h g (fun i1 j1 => 0 ≤ i1 ∧ i1 ≤ a.length ∧ 0 ≤ j1 ∧ j1 ≤ b.length
          ∧ (j1 < j ∨ i1 = 0)) (target a b)) hn
    (by
      intro j g hj ⟨h0, hAg, hRg⟩
      obtain ⟨g1, e, hA1, hR1⟩ := fill_column a b hm hn h0 hj g hAg hRg
      exact ⟨g1, e, by omega, hA1, hR1⟩)
    b.length 1 f (loopFuel (b.length : Int)) (by unfold INT_MIN; omega) (by omega)
    (by omega) (by unfold loopFuel; omega) ⟨le_rfl, hA, hR⟩
  obtain ⟨f1, e, _, hA1, hR1⟩ := key
  exact ⟨f1, e, hA1, hR1.mono (by
    intro i1 j1 ⟨c0, c1, c2, c3⟩
    exact ⟨c0, c1, c2, c3, by omega⟩)⟩

/-- Lines 43-81: with every `malloc` succeeding and both lengths below `INT_MAX`,
the matrix is built without undefined behaviour and every cell holds its
intended value. -/
theorem fillMatrix_ok {env : Env} (h : Heap) (a b : PyUnicode)
    (hE : env.callsOK h (a.length + 2))
    (hm : (a.length : Int) < INT_MAX) (hn : (b.length : Int) < INT_MAX) :
    ∃ f, fillMatrix env h a b = .ok f
      ∧ Allocated h a.length b.length ((a.length : Int) + 1) f
      ∧ Agrees h f (fun i1 j1 => 0 ≤ i1 ∧ i1 ≤ a.length ∧ 0 ≤ j1 ∧ j1 ≤ b.length)
          (target a b) := by
  obtain ⟨f1, e1, hA1⟩ := alloc_stage hE b.length hm
  obtain ⟨f2, e2, hA2, hR2⟩ := zero_stage hm hn f1 hA1
  obtain ⟨f3, e3, hA3, hR3⟩ := base_col_stage a b hm f2 hA2 hR2
  obtain ⟨f4, e4, hA4, hR4⟩ := base_row_stage a b hn f3 hA3 hR3
  obtain ⟨f5, e5, hA5, hR5⟩ := fill_stage a b hm hn f4 hA4 hR4
  refine ⟨f5, ?_, hA5, hR5⟩
  have hs : ((a.length : Int) + 1).toNat = a.length + 1 := by omega
  unfold fillMatrix PyUnicode_GetLength
  dsimp only
  rw [hs, malloc_ok (hE _ le_rfl (by omega))]
  dsimp only
  rw [e1]
  dsimp only
  rw [e2]
  dsimp only
  rw [e3]
  dsimp only
  rw [e4]
  dsimp only
  rw [e5]

theorem Allocated.released {h : Heap} {m n : Nat} {f : Frame}
    (hA : Allocated h m n ((m : Int) + 1) f) : Released h m n 0 f := by
  obtain ⟨a1, a2, a3, a4⟩ := hA
  refine ⟨a1, by omega, ?_, a4⟩
  intro k
  rw [a3]
  split_ifs <;> first | rfl | (exfalso; omega)

/-- One iteration of the release loop (line 88). -/
theorem freeRow_step {h : Heap} {m n : Nat} {i : Int} {f : Frame} (h0 : 0 ≤ i) (h1 : i ≤ m)
    (hF : Released h m n i f) :
    ∃ f1, freeRow i f = .ok f1 ∧ Released h m n (i + 1) f1 := by
  obtain ⟨a1, a2, a3, a4⟩ := hF
  have hb0 : f.heap.blocks h.next = some (m + 1) := by rw [a3, if_pos rfl]
  have hc : checkRowIndex f i = .ok () := checkRowIndex_ok_of a1 hb0 h0 h1
  have hri : f.rowPtr i = some (rowBlock h i) := by
    rw [a4, if_pos ⟨h0, by omega⟩]
  have hbi : f.heap.blocks (rowBlock h i) = some (n + 1) := by
    rw [a3]
    unfold rowBlock
    split_ifs <;> first | rfl | (exfalso; omega)
  refine ⟨{ f with heap := ⟨f.heap.next,
      fun k => if k = rowBlock h i then none else f.heap.blocks k⟩ }, ?_, ?_⟩
  · unfold freeRow loadRow
    rw [hc]
    dsimp only
    rw [hri]
    unfold free
    dsimp only
    rw [hbi]
  · refine ⟨a1, a2, ?_, a4⟩
    intro k
    show (if k = rowBlock h i then none else f.heap.blocks k) = _
    rw [a3]
    unfold rowBlock
    split_ifs <;> first | rfl | (exfalso; omega)

/-- The release loop (lines 87-89) frees every row. -/
theorem free_stage {h : Heap} {m n : Nat} (hm : (m : Int) < INT_MAX) (f : Frame)
    (hA : Allocated h m n ((m : Int) + 1) f) :
    ∃ f1, forLoop (m : Int) freeRow (loopFuel (m : Int)) 0 f = .ok f1
      ∧ Released h m n ((m : Int) + 1) f1 := by
  have key := forLoop_inv (m : Int) freeRow (fun i g => 0 ≤ i ∧ Released h m n i g) hm
    (by
      intro i g hi ⟨h0, hF⟩
      obtain ⟨g1, e, hF1⟩ := freeRow_step h0 hi hF
      exact ⟨g1, e, by omega, hF1⟩)
    (m + 1) 0 f (loopFuel (m : Int)) (by unfold INT_MIN; omega) (by omega)
    (by push_cast; omega) (by unfold loopFuel; omega) ⟨le_rfl, hA.released⟩
  obtain ⟨f1, e, _, hF⟩ := key
  exact ⟨f1, e, hF⟩

/-- The final `free(d)` (line 90) leaves no block of the call alive. -/
theorem free_d {h : Heap} {m n : Nat} {f : Frame} (hF : Released h m n ((m : Int) + 1) f) :
    free f.heap f.d = .ok (h.afterCall (m + 2)) := by
  obtain ⟨a1, a2, a3, _⟩ := hF
  have hb0 : f.heap.blocks h.next = some (m + 1) := by rw [a3, if_pos rfl]
  rw [a1]
  unfold free
  dsimp only
  rw [hb0]
  dsimp only
  congr 1
  unfold Heap.afterCall
  congr 1
  funext k
  rw [a3]
  split_ifs <;> first | rfl | (exfalso; omega)

theorem target_full (a b : PyUnicode) :
    target a b (a.length : Int) (b.length : Int) = (lev a.codepoints b.codepoints : Nat) := by
  unfold target
  rw [Int.toNat_ofNat, Int.toNat_ofNat]
  have := cellValue_full a.codepoints b.codepoints
  rw [codepoints_length, codepoints_length] at this
  rw [this]

/-- Lines 43-90: with every `malloc` succeeding and both lengths below `INT_MAX`,
the body runs without undefined behaviour, yields the recursion's value for the
two codepoint sequences and releases every block it allocated. -/
theorem distanceBody_ok {env : Env} (h : Heap) (a b : PyUnicode)
    (hE : env.callsOK h (a.length + 2))
    (hm : (a.length : Int) < INT_MAX) (hn : (b.length : Int) < INT_MAX) :
    distanceBody env h a b
      = .ok (h.afterCall (a.length + 2), (lev a.codepoints b.codepoints : Nat)) := by
  obtain ⟨f5, e5, hA5, hR5⟩ := fillMatrix_ok h a b hE hm hn
  obtain ⟨f6, e6, hF6⟩ := free_stage hm f5 hA5
  have hr : readCell f5 (a.length : Int) (b.length : Int)
      = .ok ((lev a.codepoints b.codepoints : Nat) : Int) := by
    rw [readCell_ok hA5 (by omega) le_rfl (by omega) le_rfl,
      hR5 _ _ ⟨by omega, le_rfl, by omega, le_rfl⟩, target_full]
  unfold distanceBody PyUnicode_GetLength
  dsimp only
  rw [e5]
  dsimp only
  rw [hr]
  dsimp only
  rw [e6]
  dsimp only
  rw [free_d hF6]

/-- The call on two exact strings, within the capacity of `int`: it returns the
recursion's value for the two codepoint sequences. -/
theorem levenshtein_distance_ok {env : Env} (h : Heap) (a b : PyUnicode)
    (hE : env.callsOK h (a.length + 2))
    (hm : (a.length : Int) < INT_MAX) (hn : (b.length : Int) < INT_MAX) :
    levenshtein_distance env h [.unicode true a, .unicode true b]
      = .returned (h.afterCall (a.length + 2))
          (.ok ((lev a.codepoints b.codepoints : Nat) : Int)) := by
  unfold levenshtein_distance
  simp only [PyUnicode_CheckExact, PyObject.payload, Bool.and_self, Bool.not_true,
    Bool.false_eq_true, if_false]
  rw [distanceBody_ok h a b hE hm hn]

/-! ## Beyond the capacity of `int` -/

theorem loopFuel_succ (hi : Int) : loopFuel hi = (hi.toNat + 1) + 1 := rfl

/-- With `size_a ≥ INT_MAX` the counter of the allocation loop (line 51) overflows. -/
theorem alloc_overflow {env : Env} {h : Heap} {m : Nat} (hE : env.callsOK h (m + 2)) (n : Nat)
    (hm : INT_MAX ≤ (m : Int)) :
    forLoop (m : Int) (allocRow env (n : Int)) (loopFuel (m : Int)) 0
        ⟨⟨h.next + 1, fun k => if k = h.next then some (m + 1) else h.blocks k⟩, some h.next,
          fun _ => none, env.junk⟩ = .error .signedOverflow := by
  exact forLoop_overflow (m : Int) (allocRow env (n : Int))
    (fun i f => 0 ≤ i ∧ Allocated h m n i f) hm
    (by
      intro i f hi ⟨h0, hA⟩
      obtain ⟨f1, e, hA1⟩ := allocRow_step hE h0 (le_trans hi hm) hA
      exact ⟨f1, e, by omega, hA1⟩)
    2147483647 0 _ (loopFuel (m : Int)) (by unfold INT_MIN; omega) (by unfold INT_MAX; omega)
    (by unfold INT_MAX; omega) (by unfold loopFuel; unfold INT_MAX at hm; omega)
    ⟨le_rfl, allocated_start env h m n⟩

/-- With `size_b ≥ INT_MAX` the counter of the inner zero-fill loop (line 57)
overflows in the first row. -/
theorem zero_overflow {h : Heap} {m n : Nat} (hn : INT_MAX ≤ (n : Int)) (f : Frame)
    (hA : Allocated h m n ((m : Int) + 1) f) :
    forLoop (m : Int)
        (fun i g => forLoop (n : Int) (fun j g1 => writeCell g1 i j 0) (loopFuel (n : Int)) 0 g)
        (loopFuel (m : Int)) 0 f = .error .signedOverflow := by
  have inner : forLoop (n : Int) (fun j g1 => writeCell g1 0 j 0) (loopFuel (n : Int)) 0 f
      = .error .signedOverflow :=
    forLoop_overflow (n : Int) (fun j g1 => writeCell g1 0 j 0)
      (fun j g => 0 ≤ j ∧ Allocated h m n ((m : Int) + 1) g) hn
      (by
        intro j g hj ⟨h0, hAg⟩
        exact ⟨_, writeCell_ok hAg le_rfl (by omega) h0 (le_trans hj hn) 0, by omega, hAg⟩)
      2147483647 0 f (loopFuel (n : Int)) (by unfold INT_MIN; omega) (by unfold INT_MAX; omega)
      (by unfold INT_MAX; omega) (by unfold loopFuel; unfold INT_MAX at hn; omega)
      ⟨le_rfl, hA⟩
  rw [loopFuel_succ]
  exact forLoop_first_error _ _ _ 0 f _ (by omega) inner

/-- When a length is `INT_MAX` or more, building the matrix runs into a signed
overflow of a loop counter. -/
theorem fillMatrix_overflow {env : Env} (h : Heap) (a b : PyUnicode)
    (hE : env.callsOK h (a.length + 2))
    (hbig : INT_MAX ≤ (a.length : Int) ∨ INT_MAX ≤ (b.length : Int)) :
    fillMatrix env h a b = .error .signedOverflow := by
  have hs : ((a.length : Int) + 1).toNat = a.length + 1 := by omega
  unfold fillMatrix PyUnicode_GetLength
  dsimp only
  rw [hs, malloc_ok (hE _ le_rfl (by omega))]
  dsimp only
  by_cases hm : INT_MAX ≤ (a.length : Int)
  · rw [alloc_overflow hE b.length hm]
  · have hn : INT_MAX ≤ (b.length : Int) := hbig.resolve_left hm
    obtain ⟨f1, e1, hA1⟩ := alloc_stage hE b.length (not_le.mp hm)
    rw [e1]
    dsimp only
    rw [zero_overflow hn f1 hA1]

/-- The call on two exact strings of which one has `INT_MAX` codepoints or more
has undefined behaviour: a loop counter of type `int` overflows. -/
theorem levenshtein_distance_overflow {env : Env} (h : Heap)
    (a b : PyUnicode) (hE : env.callsOK h (a.length + 2)) (hbig : INT_MAX ≤ (a.length : Int) ∨ INT_MAX ≤ (b.length : Int)) :
    levenshtein_distance env h [.unicode true a, .unicode true b]
      = .undefined .signedOverflow := by
  unfold levenshtein_distance
  simp only [PyUnicode_CheckExact, PyObject.payload, Bool.and_self, Bool.not_true,
    Bool.false_eq_true, if_false]
  unfold distanceBody
  dsimp only
  rw [fillMatrix_overflow h a b hE hbig]

/-! ## When `malloc` fails -/

theorem writeCell_shape {f f1 : Frame} {i j v : Int} (h : writeCell f i j v = .ok f1) :
    f1.heap = f.heap ∧ f1.d = f.d ∧ f1.rowPtr = f.rowPtr := by
  unfold writeCell at h
  split at h
  · exact absurd h (by simp)
  · injection h with h
    subst h
    exact ⟨rfl, rfl, rfl⟩

/-- What every iteration keeps when it succeeds, the whole loop keeps when it
succeeds. -/
theorem forLoop_preserves {σ : Type} (hi : Int) (body : Int → σ → Except UB σ)
    (P : σ → Prop) (hpres : ∀ i s s1, body i s = .ok s1 → P s → P s1) :
    ∀ (fuel : Nat) (lo : Int) (s s1 : σ), forLoop hi body fuel lo s = .ok s1 → P s → P s1 := by
  intro fuel
  induction fuel with
  | zero => intro lo s s1 h; simp [forLoop] at h
  | succ fuel ih =>
    intro lo s s1 h hP
    unfold forLoop at h
    split at h
    · split at h
      · exact absurd h (by simp)
      · rename_i s2 hb
        split at h
        · exact absurd h (by simp)
        · exact ih _ _ _ h (hpres _ _ _ hb hP)
    · injection h with h
      subst h
      exact hP

/-- A loop fails when its body fails at an iteration `k` within its range and
keeps, until then, what makes the body fail there. -/
theorem forLoop_error_at {σ : Type} (hi : Int) (body : Int → σ → Except UB σ)
    (P : σ → Prop) (k : Int) (hk : k ≤ hi)
    (hpres : ∀ i s s1, body i s = .ok s1 → P s → P s1)
    (hfail : ∀ s, P s → ∃ e, body k s = .error e) :
    ∀ (n : Nat) (lo : Int) (s : σ) (fuel : Nat), lo ≤ k → k - lo ≤ (n : Int) → n < fuel →
      P s → ∃ e, forLoop hi body fuel lo s = .error e := by
  intro n
  induction n with
  | zero =>
    intro lo s fuel h1 h2 h3 hP
    obtain ⟨fuel, rfl⟩ : ∃ g, fuel = g + 1 := ⟨fuel - 1, by omega⟩
    have e : lo = k := by omega
    subst e
    obtain ⟨e, he⟩ := hfail s hP
    exact ⟨e, by simp [forLoop, hk, he]⟩
  | succ n ih =>
    intro lo s fuel h1 h2 h3 hP
    obtain ⟨fuel, rfl⟩ : ∃ g, fuel = g + 1 := ⟨fuel - 1, by omega⟩
    have hle : lo ≤ hi := le_trans h1 hk
    by_cases hlk : lo = k
    · subst hlk
      obtain ⟨e, he⟩ := hfail s hP
      exact ⟨e, by simp [forLoop, hk, he]⟩
    · cases hb : body lo s with
      | error e => exact ⟨e, by simp [forLoop, hle, hb]⟩
      | ok s1 =>
        cases hadd : intAdd lo 1 with
        | error e => exact ⟨e, by simp [forLoop, hle, hb, hadd]⟩
        | ok i1 =>
          have hi1 : i1 = lo + 1 := by
            unfold intAdd at hadd
            split at hadd
            · injection hadd with hadd; exact hadd.symm
            · exact absurd hadd (by simp)
          subst hi1
          obtain ⟨e, he⟩ := ih (lo + 1) s1 fuel (by omega) (by push_cast at h2 ⊢; omega)
            (by omega) (hpres _ _ _ hb hP)
          exact ⟨e, by simp [forLoop, hle, hb, hadd, he]⟩

/-- With `d == NULL` the first assignment `d[i] = malloc(...)` is undefined. -/
theorem allocRow_null_d (env : Env) (size_b i : Int) (f : Frame) (hd : f.d = none) :
    allocRow env size_b i f = .error .invalidPointer := by
  unfold allocRow
  cases malloc env f.heap (size_b + 1).toNat with
  | mk h1 p => simp [storeRow, checkRowIndex, hd]

/-- One iteration of the allocation loop when the allocation of row `r` fails:
the loop goes on, and `d[r]` is `NULL` from then on. -/
theorem allocRow_tolerant (env : Env) {h : Heap} {m n : Nat} {r : Int}
    (hr : env.mallocOk (h.next + 1 + r.toNat) = false) {i : Int} {f : Frame}
    (h0 : 0 ≤ i) (h1 : i ≤ m)
    (hd : f.d = some h.next) (hb : f.heap.blocks h.next = some (m + 1))
    (hn : f.heap.next = h.next + 1 + i.toNat) (hp : r < i → f.rowPtr r = none) :
    ∃ f1, allocRow env (n : Int) i f = .ok f1 ∧ f1.d = some h.next
      ∧ f1.heap.blocks h.next = some (m + 1) ∧ f1.heap.next = h.next + 1 + (i + 1).toNat
      ∧ (r < i + 1 → f1.rowPtr r = none) := by
  have hne : h.next ≠ f.heap.next := by omega
  unfold allocRow malloc
  by_cases hok : env.mallocOk f.heap.next = true
  · rw [if_pos hok]
    dsimp only
    have hc : checkRowIndex
        { f with heap := ⟨f.heap.next + 1,
            fun k => if k = f.heap.next then some ((n : Int) + 1).toNat
              else f.heap.blocks k⟩ } i = .ok () :=
      checkRowIndex_ok_of (h := h) (m := m)
        (f := { f with heap := ⟨f.heap.next + 1,
            fun k => if k = f.heap.next then some ((n : Int) + 1).toNat
              else f.heap.blocks k⟩ }) hd
        (by show (if h.next = f.heap.next then _ else f.heap.blocks h.next) = _
            rw [if_neg hne, hb]) h0 h1
    unfold storeRow
    rw [hc]
    refine ⟨_, rfl, hd, ?_, ?_, ?_⟩
    · show (if h.next = f.heap.next then _ else f.heap.blocks h.next) = _
      rw [if_neg hne, hb]
    · show f.heap.next + 1 = _
      omega
    · intro hri
      show (if r = i then some f.heap.next else f.rowPtr r) = none
      have hne2 : r ≠ i := by
        intro e
        subst e
        rw [hn, hr] at hok
        exact absurd hok (by simp)
      rw [if_neg hne2]
      exact hp (by omega)
  · rw [if_neg hok]
    dsimp only
    have hc : checkRowIndex { f with heap := ⟨f.heap.next + 1, f.heap.blocks⟩ } i = .ok () :=
      checkRowIndex_ok_of (h := h) (m := m)
        (f := { f with heap := ⟨f.heap.next + 1, f.heap.blocks⟩ }) hd hb h0 h1
    unfold storeRow
    rw [hc]
    refine ⟨_, rfl, hd, hb, ?_, ?_⟩
    · show f.heap.next + 1 = _
      omega
    · intro hri
      show (if r = i then none else f.rowPtr r) = none
      split
      · rfl
      · exact hp (by omega)

/-- With `d[r] == NULL` the zero fill of row `r` is undefined, so the zero fill
(lines 56-60) is. -/
theorem zero_null_row {h : Heap} {m n : Nat} {r : Int} (hr0 : 0 ≤ r) (hr1 : r ≤ m) (f : Frame)
    (hd : f.d = some h.next) (hb : f.heap.blocks h.next = some (m + 1))
    (hp : f.rowPtr r = none) :
    ∃ e, forLoop (m : Int)
        (fun i g => forLoop (n : Int) (fun j g1 => writeCell g1 i j 0) (loopFuel (n : Int)) 0 g)
        (loopFuel (m : Int)) 0 f = .error e := by
  apply forLoop_error_at (m : Int) _
    (fun g => g.d = some h.next ∧ g.heap.blocks h.next = some (m + 1) ∧ g.rowPtr r = none)
    r hr1 _ _ r.toNat 0 f (loopFuel (m : Int)) hr0 (by omega) (by unfold loopFuel; omega)
    ⟨hd, hb, hp⟩
  · intro i s s1 hrun hP
    exact forLoop_preserves (n : Int) (fun j g1 => writeCell g1 i j 0)
      (fun g => g.d = some h.next ∧ g.heap.blocks h.next = some (m + 1) ∧ g.rowPtr r = none)
      (by
        intro j g g1 hw ⟨p1, p2, p3⟩
        obtain ⟨q1, q2, q3⟩ := writeCell_shape hw
        exact ⟨by rw [q2, p1], by rw [q1, p2], by rw [q3, p3]⟩)
      _ _ _ _ hrun hP
  · intro s ⟨p1, p2, p3⟩
    refine ⟨.invalidPointer, ?_⟩
    rw [loopFuel_succ]
    apply forLoop_first_error _ _ _ 0 s _ (by omega)
    have hc := checkRowIndex_ok_of p1 p2 hr0 hr1
    simp [writeCell, cellBlock, loadRow, hc, p3]

/-- When one of the `malloc` calls of the function fails, building the matrix
runs into undefined behaviour: the result of `malloc` is never checked. -/
theorem fillMatrix_alloc_failure (env : Env) (h : Heap) (a b : PyUnicode)
    (hfail : ¬ env.callsOK h (a.length + 2)) : ∃ e, fillMatrix env h a b = .error e := by
  unfold Env.callsOK at hfail
  push_neg at hfail
  obtain ⟨k, hk0, hk1, hk2⟩ := hfail
  have hkf : env.mallocOk k = false := by simpa using hk2
  have hs : ((a.length : Int) + 1).toNat = a.length + 1 := by omega
  unfold fillMatrix PyUnicode_GetLength
  dsimp only
  rw [hs]
  by_cases hd : env.mallocOk h.next = true
  · -- the pointer array is there, the row with call number `k` is not
    rw [malloc_ok hd]
    dsimp only
    obtain ⟨r, hr⟩ : ∃ r : Nat, k = h.next + 1 + r := by
      refine ⟨k - (h.next + 1), ?_⟩
      have : k ≠ h.next := by
        intro e; rw [e, hd] at hkf; exact absurd hkf (by simp)
      omega
    subst hr
    have hrm : r ≤ a.length := by omega
    have hrf : env.mallocOk (h.next + 1 + ((r : Nat) : Int).toNat) = false := by
      rw [Int.toNat_ofNat]; exact hkf
    have hstep : ∀ (i : Int) (f : Frame), i ≤ (a.length : Int) →
        (0 ≤ i ∧ f.d = some h.next ∧ f.heap.blocks h.next = some (a.length + 1)
          ∧ f.heap.next = h.next + 1 + i.toNat ∧ ((r : Int) < i → f.rowPtr (r : Int) = none)) →
        ∃ f1, allocRow env (b.length : Int) i f = .ok f1 ∧
          (0 ≤ i + 1 ∧ f1.d = some h.next ∧ f1.heap.blocks h.next = some (a.length + 1)
            ∧ f1.heap.next = h.next + 1 + (i + 1).toNat
            ∧ ((r : Int) < i + 1 → f1.rowPtr (r : Int) = none)) := by
      intro i f hi ⟨h0, q1, q2, q3, q4⟩
      obtain ⟨f1, e, c1, c2, c3, c4⟩ :=
        allocRow_tolerant env (n := b.length) hrf h0 hi q1 q2 q3 q4
      exact ⟨f1, e, by omega, c1, c2, c3, c4⟩
    have hstart : (0 : Int) ≤ 0 ∧ (⟨⟨h.next + 1,
          fun k => if k = h.next then some (a.length + 1) else h.blocks k⟩, some h.next,
          fun _ => none, env.junk⟩ : Frame).d = some h.next
        ∧ (if h.next = h.next then some (a.length + 1) else h.blocks h.next)
            = some (a.length + 1)
        ∧ h.next + 1 = h.next + 1 + (0 : Int).toNat
        ∧ ((r : Int) < 0 → (none : Option Nat) = none) :=
      ⟨le_rfl, rfl, by rw [if_pos rfl], by simp, fun _ => rfl⟩
    by_cases hm : (a.length : Int) < INT_MAX
    · obtain ⟨f1, e1, _, c1, c2, _, c4⟩ := forLoop_inv (a.length : Int)
        (allocRow env (b.length : Int))
        (fun i f => 0 ≤ i ∧ f.d = some h.next ∧ f.heap.blocks h.next = some (a.length + 1)
          ∧ f.heap.next = h.next + 1 + i.toNat ∧ ((r : Int) < i → f.rowPtr (r : Int) = none))
        hm (fun i f hi hI => hstep i f hi hI)
        (a.length + 1) 0 _ (loopFuel (a.length : Int)) (by unfold INT_MIN; omega) (by omega)
        (by push_cast; omega) (by unfold loopFuel; omega) hstart
      rw [e1]
      dsimp only
      obtain ⟨e, he⟩ := zero_null_row (n := b.length) (r := (r : Int)) (by omega) (by omega)
        f1 c1 c2 (c4 (by omega))
      rw [he]
      exact ⟨e, rfl⟩
    · have hm1 : INT_MAX ≤ (a.length : Int) := not_lt.mp hm
      have e1 := forLoop_overflow (a.length : Int) (allocRow env (b.length : Int))
        (fun i f => 0 ≤ i ∧ f.d = some h.next ∧ f.heap.blocks h.next = some (a.length + 1)
          ∧ f.heap.next = h.next + 1 + i.toNat ∧ ((r : Int) < i → f.rowPtr (r : Int) = none))
        hm1 (fun i f hi hI => hstep i f (le_trans hi hm1) hI)
        2147483647 0 _ (loopFuel (a.length : Int)) (by unfold INT_MIN; omega)
        (by unfold INT_MAX; omega) (by unfold INT_MAX; omega)
        (by unfold loopFuel; unfold INT_MAX at hm1; omega) hstart
      rw [e1]
      exact ⟨_, rfl⟩
  · -- the pointer array itself is missing
    have hdf : env.mallocOk h.next = false := by simpa using hd
    have hmal : malloc env h (a.length + 1) = (⟨h.next + 1, h.blocks⟩, none) := by
      simp [malloc, hdf]
    rw [hmal]
    dsimp only
    rw [loopFuel_succ, forLoop_first_error _ _ _ 0 _ .invalidPointer (by omega)
      (allocRow_null_d env _ 0 _ rfl)]
    exact ⟨_, rfl⟩

/-! ## The value of a call -/

/-- The integer returned by a call on two exact strings, when the `malloc` calls
of the call succeed: the recursion's value if both lengths are below `INT_MAX`,
and no value otherwise. -/
theorem levenshtein_distance_value {env : Env} (h : Heap) (a b : PyUnicode)
    (hE : env.callsOK h (a.length + 2)) :
    (levenshtein_distance env h [.unicode true a, .unicode true b]).value?
      = if (a.length : Int) < INT_MAX ∧ (b.length : Int) < INT_MAX
        then some ((lev a.codepoints b.codepoints : Nat) : Int) else none := by
  by_cases hc : (a.length : Int) < INT_MAX ∧ (b.length : Int) < INT_MAX
  · rw [if_pos hc, levenshtein_distance_ok h a b hE hc.1 hc.2]
    rfl
  · rw [if_neg hc, levenshtein_distance_overflow h a b hE (by omega)]
    rfl

/-- A call in which a `malloc` fails returns no integer. -/
theorem value_alloc_failure (env : Env) (h : Heap) (a b : PyUnicode)
    (hfail : ¬ env.callsOK h (a.length + 2)) :
    (levenshtein_distance env h [.unicode true a, .unicode true b]).value? = none := by
  obtain ⟨e, he⟩ := fillMatrix_alloc_failure env h a b hfail
  unfold levenshtein_distance
  simp only [PyUnicode_CheckExact, PyObject.payload, Bool.and_self, Bool.not_true,
    Bool.false_eq_true, if_false]
  unfold distanceBody
  dsimp only
  rw [he]
  rfl

/-- Whenever a call on two exact strings returns an integer, in whatever
environment, its `malloc` calls succeeded, both lengths are below `INT_MAX` and
the integer is the recursion's value for the two codepoint sequences. -/
theorem value_eq_some (env : Env) (h : Heap) (a b : PyUnicode) {v : Int}
    (hv : (levenshtein_distance env h [.unicode true a, .unicode true b]).value? = some v) :
    env.callsOK h (a.length + 2)
      ∧ ((a.length : Int) < INT_MAX ∧ (b.length : Int) < INT_MAX)
      ∧ v = ((lev a.codepoints b.codepoints : Nat) : Int) := by
  by_cases hE : env.callsOK h (a.length + 2)
  · rw [levenshtein_distance_value h a b hE] at hv
    split at hv
    · rename_i hc
      injection hv with hv
      exact ⟨hE, hc, hv.symm⟩
    · exact absurd hv (by simp)
  · rw [value_alloc_failure env h a b hE] at hv
    exact absurd hv (by simp)

theorem value_in_range {env : Env} (hE : env.allocOK) (h : Heap) (a b : PyUnicode)
    (hm : (a.length : Int) < INT_MAX) (hn : (b.length : Int) < INT_MAX) :
    (levenshtein_distance env h [.unicode true a, .unicode true b]).value?
      = some ((lev a.codepoints b.codepoints : Nat) : Int) := by
  rw [levenshtein_distance_value h a b (hE.calls h _), if_pos ⟨hm, hn⟩]

/-- The bound on the number of loop tests is never what stops a call in which
every `malloc` succeeds. -/
theorem levenshtein_distance_fuel {env : Env} (hE : env.allocOK) (h : Heap) (a b : PyUnicode) :
    levenshtein_distance env h [.unicode true a, .unicode true b] ≠ .undefined .outOfFuel := by
  by_cases hc : (a.length : Int) < INT_MAX ∧ (b.length : Int) < INT_MAX
  · rw [levenshtein_distance_ok h a b (hE.calls h _) hc.1 hc.2]
    intro hne
    cases hne
  · rw [levenshtein_distance_overflow h a b (hE.calls h _) (by omega)]
    intro hne
    cases hne

/-! ## Consequences for `ldist` -/

theorem ldist_eq_some (env : Env) (h : Heap) (a b : PyUnicode) {v : Int}
    (hv : ldist env h a b = some v) :
    env.callsOK h (a.length + 2)
      ∧ ((a.length : Int) < INT_MAX ∧ (b.length : Int) < INT_MAX)
      ∧ v = ((lev a.codepoints b.codepoints : Nat) : Int) :=
  value_eq_some env h a b hv

theorem ldist_in_range {env : Env} (hE : env.allocOK) (h : Heap) (a b : PyUnicode)
    (hm : (a.length : Int) < INT_MAX) (hn : (b.length : Int) < INT_MAX) :
    ldist env h a b = some ((lev a.codepoints b.codepoints : Nat) : Int) :=
  value_in_range hE h a b hm hn

/-- With a length of `INT_MAX` or more a call returns no value, in whatever
environment. -/
theorem ldist_none_of_big (env : Env) (h : Heap) (a b : PyUnicode)
    (hbig : INT_MAX ≤ (a.length : Int) ∨ INT_MAX ≤ (b.length : Int)) :
    ldist env h a b = none := by
  cases hv : ldist env h a b with
  | none => rfl
  | some v =>
    have hr := (ldist_eq_some env h a b hv).2.1
    omega

theorem ldist_value {env : Env} (h : Heap) (a b : PyUnicode)
    (hE : env.callsOK h (a.length + 2)) :
    ldist env h a b
      = if (a.length : Int) < INT_MAX ∧ (b.length : Int) < INT_MAX
        then some ((lev a.codepoints b.codepoints : Nat) : Int) else none :=
  levenshtein_distance_value h a b hE

/-- The value of a call is determined by the two codepoint sequences. -/
theorem ldist_congr (env : Env) (h : Heap) (a b c d : PyUnicode)
    (hac : a.codepoints = c.codepoints) (hbd : b.codepoints = d.codepoints) :
    ldist env h a b = ldist env h c d := by
  have la : a.length = c.length := by
    rw [← codepoints_length a, ← codepoints_length c, hac]
  have lb : b.length = d.length := by
    rw [← codepoints_length b, ← codepoints_length d, hbd]
  by_cases hE : env.callsOK h (a.length + 2)
  · rw [ldist_value h a b hE, ldist_value h c d (la ▸ hE), hac, hbd, la, lb]
  · have h1 := value_alloc_failure env h a b hE
    have h2 := value_alloc_failure env h c d (la ▸ hE)
    unfold ldist
    rw [h1, h2]

theorem codepoints_of_empty (e : PyUnicode) (he : e.length = 0) : e.codepoints = [] := by
  simp [PyUnicode.codepoints, he]

/-- A loop whose start is above its bound does nothing. -/
theorem forLoop_skip {σ : Type} (hi : Int) (body : Int → σ → Except UB σ) (fuel : Nat)
    (lo : Int) (s : σ) (hlt : hi < lo) : forLoop hi body (fuel + 1) lo s = .ok s := by
  have : ¬ (lo ≤ hi) := by omega
  simp [forLoop, this]

/-- A loop whose body changes nothing changes nothing. -/
theorem forLoop_idle {σ : Type} (hi : Int) (body : Int → σ → Except UB σ) (f : σ)
    (hhi : hi < INT_MAX) (h0 : 0 ≤ hi) (hbody : ∀ i, body i f = .ok f) :
    forLoop hi body (loopFuel hi) 1 f = .ok f := by
  obtain ⟨f1, e, _, hf⟩ := forLoop_inv hi body (fun i g => 1 ≤ i ∧ g = f) hhi
    (by
      intro i g _ ⟨hi1, hg⟩
      subst hg
      exact ⟨g, hbody i, by omega, rfl⟩)
    hi.toNat 1 f (loopFuel hi) (by unfold INT_MIN; omega) (by omega) (by omega)
    (by unfold loopFuel; omega) ⟨le_rfl, rfl⟩
  rw [e, hf]

/-- A call on two exact strings of which one has `2^31` codepoints is undefined,
whatever the other string is. -/
theorem overflow_of_huge (a b : PyUnicode)
    (hbig : a.length = 2147483648 ∨ b.length = 2147483648) :
    levenshtein_distance (Env.plain 0) Heap.empty [.unicode true a, .unicode true b]
      = .undefined .signedOverflow := by
  apply levenshtein_distance_overflow _ _ _ (Env.allocOK.calls (fun _ => rfl) _ _)
  unfold INT_MAX
  omega

theorem store_length (k : Nat) (s : List Nat) : (PyUnicode.store k s).length = s.length := rfl

/-! ## String storage -/

theorem unitBytes_length (w : Nat) : ∀ c : Nat, (unitBytes c w).length = w := by
  induction w with
  | zero => intro c; rfl
  | succ w ih => intro c; simp [unitBytes, ih]

/-- Reading back the bytes of a storage unit gives the stored value, reduced to
the width of the unit. -/
theorem readUnit_unitBytes (w : Nat) : ∀ (c : Nat) (pre rest : List Nat),
    readUnit (pre ++ unitBytes c w ++ rest) pre.length w = c % 256 ^ w := by
  induction w with
  | zero => intro c pre rest; simp [readUnit, Nat.mod_one]
  | succ w ih =>
    intro c pre rest
    have h1 : (pre ++ unitBytes c (w + 1) ++ rest).getD pre.length 0 = c % 256 := by
      rw [List.append_assoc, List.getD_append_right _ _ _ _ (le_refl _), Nat.sub_self]
      rfl
    have h2 : pre ++ unitBytes c (w + 1) ++ rest
        = (pre ++ [c % 256]) ++ unitBytes (c / 256) w ++ rest := by
      simp [unitBytes]
    have h3 := ih (c / 256) (pre ++ [c % 256]) rest
    rw [List.length_append, List.length_singleton] at h3
    rw [readUnit, h1, h2, h3, pow_succ', Nat.mod_mul]

theorem store_data_length (k : Nat) (s : List Nat) :
    ((s.map (fun c => unitBytes c k)).flatten).length = k * s.length := by
  induction s with
  | nil => simp
  | cons c s ih => simp [ih, unitBytes_length, Nat.mul_succ, Nat.add_comm]

/-- Element `i` of the storage of a string is its codepoint `i`, reduced to the
width of a character: the byte offset is `kind * i`. -/
theorem readUnit_store (k : Nat) (s : List Nat) (i : Nat) (hi : i < s.length) :
    readUnit (PyUnicode.store k s).data (k * i) k = s[i] % 256 ^ k := by
  have hsplit : s.take i ++ s[i] :: s.drop (i + 1) = s := by
    rw [← List.drop_eq_getElem_cons hi, List.take_append_drop]
  have hdata : (PyUnicode.store k s).data
      = ((s.take i).map (fun c => unitBytes c k)).flatten ++ unitBytes s[i] k
        ++ ((s.drop (i + 1)).map (fun c => unitBytes c k)).flatten := by
    have e := congrArg (fun l : List Nat => (l.map (fun c => unitBytes c k)).flatten) hsplit
    simp only [List.map_append, List.map_cons, List.flatten_append, List.flatten_cons] at e
    rw [List.append_assoc, e]
    rfl
  have hlen : (((s.take i).map (fun c => unitBytes c k)).flatten).length = k * i := by
    rw [store_data_length, List.length_take, Nat.min_eq_left (le_of_lt hi)]
  rw [hdata, ← hlen]
  exact readUnit_unitBytes k _ _ _

theorem READ_store (k : Nat) (hk : k = 1 ∨ k = 2 ∨ k = 4) (s : List Nat) (i : Nat)
    (hi : i < s.length) :
    PyUnicode_READ k (PyUnicode.store k s).data (i : Int) = s[i] % 256 ^ k := by
  have e := readUnit_store k s i hi
  unfold PyUnicode_READ
  rw [Int.toNat_ofNat]
  rcases hk with rfl | rfl | rfl
  · simpa using e
  · simpa using e
  · simpa using e

/-- A string stored with a character width that fits its codepoints stands for
exactly those codepoints. -/
theorem codepoints_store (k : Nat) (hk : k = 1 ∨ k = 2 ∨ k = 4) (s : List Nat)
    (hfit : ∀ c ∈ s, c < 256 ^ k) : (PyUnicode.store k s).codepoints = s := by
  apply List.ext_getElem
  · rw [codepoints_length]; rfl
  · intro i h1 h2
    have hi : i < (PyUnicode.store k s).length := by rw [codepoints_length] at h1; exact h1
    have := codepoints_getD (PyUnicode.store k s) i hi
    rw [List.getD_eq_getElem _ 0 h1] at this
    rw [this]
    show PyUnicode_READ k (PyUnicode.store k s).data (i : Int) = _
    rw [READ_store k hk s i h2, Nat.mod_eq_of_lt (hfit _ (List.getElem_mem h2))]

theorem READ_store_fit (k : Nat) (hk : k = 1 ∨ k = 2 ∨ k = 4) (s : List Nat)
    (hfit : ∀ c ∈ s, c < 256 ^ k) (i : Int) (h0 : 0 ≤ i) (h1 : i < s.length) :
    PyUnicode_READ (PyUnicode_KIND (PyUnicode.store k s)) (PyUnicode_DATA (PyUnicode.store k s)) i
      = s.getD i.toNat 0 := by
  obtain ⟨p, rfl⟩ : ∃ p : Nat, i = (p : Int) := ⟨i.toNat, by omega⟩
  have hp : p < s.length := by omega
  rw [Int.toNat_ofNat, List.getD_eq_getElem _ 0 hp]
  show PyUnicode_READ k (PyUnicode.store k s).data (p : Int) = _
  rw [READ_store k hk s p hp, Nat.mod_eq_of_lt (hfit _ (List.getElem_mem hp))]

/-! ## The claims -/

/-- Claim C1, as it stands, fails: for a string of `2^31` codepoints and "kit" the
counter `i` of the allocation loop (line 51) is incremented past `INT_MAX`,
which is undefined behaviour, so the call returns no value, although the two
codepoint sequences do have an edit distance. -/
theorem levenshtein_distance_is_edit_distance_overflow :
    levenshtein_distance (Env.plain 0) Heap.empty
        [.unicode true (PyUnicode.store 1 (List.replicate 2147483648 99)),
          .unicode true sampleKit]
      = .undefined .signedOverflow
    ∧ ∃ r : Nat, IsEditDistance
        (PyUnicode.store 1 (List.replicate 2147483648 99)).codepoints sampleKit.codepoints r :=
  ⟨overflow_of_huge _ _ (Or.inl (by rw [store_length, List.length_replicate])),
    _, lev_isEditDistance _ _⟩

/-- Claim C1, amended. For every pair of strings of fewer than `INT_MAX = 2^31 - 1`
codepoints each, every `malloc` succeeding, `ldist(a, b)` returns the
Levenshtein edit distance of the two codepoint sequences (the cell
`d[len a][len b]` of the filled matrix): some edit script of that length turns
`a` into `b` and no shorter script does.  In every environment and for all
strings, whatever value the call returns is that edit distance; with a length
of `INT_MAX` or more it returns none. -/
theorem levenshtein_distance_is_edit_distance (env : Env) (h : Heap) (a b : PyUnicode) :
    (∀ v : Int, ldist env h a b = some v →
      ∃ r : Nat, v = (r : Int) ∧ IsEditDistance a.codepoints b.codepoints r) ∧
    (env.allocOK → (a.length : Int) < INT_MAX → (b.length : Int) < INT_MAX →
      ∃ r : Nat, ldist env h a b = some (r : Int)
        ∧ IsEditDistance a.codepoints b.codepoints r) ∧
    (INT_MAX ≤ (a.length : Int) ∨ INT_MAX ≤ (b.length : Int) → ldist env h a b = none) := by
  refine ⟨?_, ?_, ldist_none_of_big env h a b⟩
  · intro v hv
    exact ⟨_, (ldist_eq_some env h a b hv).2.2, lev_isEditDistance _ _⟩
  · intro hE hm hn
    exact ⟨_, ldist_in_range hE h a b hm hn, lev_isEditDistance _ _⟩

/-- Witness for C1: on "kit" and "sit€" (one and two bytes per character) the
call returns their edit distance. -/
theorem levenshtein_distance_is_edit_distance_witness :
    ∃ r : Nat, ldist (Env.plain 0) Heap.empty sampleKit sampleSit = some (r : Int)
      ∧ IsEditDistance sampleKit.codepoints sampleSit.codepoints r :=
  (levenshtein_distance_is_edit_distance (Env.plain 0) Heap.empty sampleKit sampleSit).2.1
    (fun _ => rfl) (by decide) (by decide)

/-- Claim C2, as it stands, fails: for "kit" and a string of `2^31` codepoints
neither order returns a value to compare.  In the one order the counter `j` of
the zero fill (line 57), in the other the counter `i` of the allocation loop
(line 51), is incremented past `INT_MAX`, which is undefined behaviour. -/
theorem levenshtein_distance_symmetric_overflow :
    levenshtein_distance (Env.plain 0) Heap.empty
        [.unicode true sampleKit,
          .unicode true (PyUnicode.store 1 (List.replicate 2147483648 100))]
      = .undefined .signedOverflow
    ∧ levenshtein_distance (Env.plain 0) Heap.empty
        [.unicode true (PyUnicode.store 1 (List.replicate 2147483648 100)),
          .unicode true sampleKit]
      = .undefined .signedOverflow :=
  ⟨overflow_of_huge _ _ (Or.inr (by rw [store_length, List.length_replicate])),
    overflow_of_huge _ _ (Or.inl (by rw [store_length, List.length_replicate]))⟩

/-- Claim C2, amended. Symmetry within the capacity of `int`, although the matrix
is filled asymmetrically: for strings of fewer than `INT_MAX = 2^31 - 1`
codepoints each, every `malloc` succeeding, `ldist(a, b)` and `ldist(b, a)`
return the same integer.  In every environment, values returned by the two
calls are equal; when every `malloc` succeeds the two calls have the same
result; with a length of `INT_MAX` or more neither call returns a value. -/
theorem levenshtein_distance_symmetric (env : Env) (h1 h2 : Heap) (a b : PyUnicode) :
    (∀ x y : Int, ldist env h1 a b = some x → ldist env h2 b a = some y → x = y) ∧
    (env.allocOK → ldist env h1 a b = ldist env h2 b a) ∧
    (env.allocOK → (a.length : Int) < INT_MAX → (b.length : Int) < INT_MAX →
      ∃ v : Int, ldist env h1 a b = some v ∧ ldist env h2 b a = some v) ∧
    (INT_MAX ≤ (a.length : Int) ∨ INT_MAX ≤ (b.length : Int) →
      ldist env h1 a b = none ∧ ldist env h2 b a = none) := by
  refine ⟨?_, ?_, ?_, fun hbig =>
    ⟨ldist_none_of_big env h1 a b hbig, ldist_none_of_big env h2 b a hbig.symm⟩⟩
  · intro x y hx hy
    rw [(ldist_eq_some env h1 a b hx).2.2, (ldist_eq_some env h2 b a hy).2.2, lev_comm]
  · intro hE
    rw [ldist_value h1 a b (hE.calls _ _), ldist_value h2 b a (hE.calls _ _),
      lev_comm b.codepoints]
    by_cases hc : (a.length : Int) < INT_MAX ∧ (b.length : Int) < INT_MAX
    · rw [if_pos hc, if_pos ⟨hc.2, hc.1⟩]
    · rw [if_neg hc, if_neg (fun hd => hc ⟨hd.2, hd.1⟩)]
  · intro hE hm hn
    refine ⟨_, ldist_in_range hE h1 a b hm hn, ?_⟩
    rw [ldist_in_range hE h2 b a hn hm, lev_comm]

/-- Witness for C2: "kit" and a four-byte string, compared in both orders. -/
theorem levenshtein_distance_symmetric_witness :
    ∃ v : Int, ldist (Env.plain 0) Heap.empty sampleKit sampleWide = some v
      ∧ ldist (Env.plain 0) Heap.empty sampleWide sampleKit = some v :=
  (levenshtein_distance_symmetric (Env.plain 0) Heap.empty Heap.empty
    sampleKit sampleWide).2.2.1 (fun _ => rfl) (by decide) (by decide)

/-- Claim C3, as it stands, fails: with "kit" for `a`, "sit€" for `b` and a string of
`2^31` codepoints for `c`, the call on `a` and `b` returns 2, but the calls on
`a` and `c` and on `c` and `b` return no value to add: a loop counter is
incremented past `INT_MAX` (line 57, respectively line 51), which is undefined
behaviour. -/
theorem levenshtein_distance_triangle_overflow :
    ldist (Env.plain 0) Heap.empty sampleKit sampleSit = some 2
    ∧ levenshtein_distance (Env.plain 0) Heap.empty
        [.unicode true sampleKit,
          .unicode true (PyUnicode.store 1 (List.replicate 2147483648 101))]
      = .undefined .signedOverflow
    ∧ levenshtein_distance (Env.plain 0) Heap.empty
        [.unicode true (PyUnicode.store 1 (List.replicate 2147483648 101)),
          .unicode true sampleSit]
      = .undefined .signedOverflow :=
  ⟨rfl, overflow_of_huge _ _ (Or.inr (by rw [store_length, List.length_replicate])),
    overflow_of_huge _ _ (Or.inl (by rw [store_length, List.length_replicate]))⟩

/-- Claim C3, amended. Triangle inequality within the capacity of `int`: for
strings `a`, `b` and `c` of fewer than `INT_MAX = 2^31 - 1` codepoints each,
every `malloc` succeeding, the three calls return values and `ldist(a, b)` is
at most `ldist(a, c) + ldist(c, b)`.  In every environment, a value returned
by `ldist(a, b)` is at most the sum of values returned by `ldist(a, c)` and
`ldist(c, b)`; a string of `INT_MAX` codepoints or more leaves both calls it
takes part in without a value. -/
theorem levenshtein_distance_triangle (env : Env) (h1 h2 h3 : Heap) (a b c : PyUnicode) :
    (∀ x y z : Int, ldist env h1 a b = some x → ldist env h2 a c = some y →
      ldist env h3 c b = some z → x ≤ y + z) ∧
    (env.allocOK → (a.length : Int) < INT_MAX → (b.length : Int) < INT_MAX →
      (c.length : Int) < INT_MAX →
      ∃ x y z : Int, ldist env h1 a b = some x ∧ ldist env h2 a c = some y ∧
        ldist env h3 c b = some z ∧ x ≤ y + z) ∧
    (INT_MAX ≤ (a.length : Int) → ldist env h1 a b = none ∧ ldist env h2 a c = none) ∧
    (INT_MAX ≤ (b.length : Int) → ldist env h1 a b = none ∧ ldist env h3 c b = none) ∧
    (INT_MAX ≤ (c.length : Int) → ldist env h2 a c = none ∧ ldist env h3 c b = none) := by
  have key := lev_triangle a.codepoints b.codepoints c.codepoints
  refine ⟨?_, ?_,
    fun hb => ⟨ldist_none_of_big env h1 a b (Or.inl hb), ldist_none_of_big env h2 a c (Or.inl hb)⟩,
    fun hb => ⟨ldist_none_of_big env h1 a b (Or.inr hb), ldist_none_of_big env h3 c b (Or.inr hb)⟩,
    fun hb => ⟨ldist_none_of_big env h2 a c (Or.inr hb), ldist_none_of_big env h3 c b (Or.inl hb)⟩⟩
  · intro x y z hx hy hz
    rw [(ldist_eq_some env h1 a b hx).2.2, (ldist_eq_some env h2 a c hy).2.2,
      (ldist_eq_some env h3 c b hz).2.2]
    exact_mod_cast key
  · intro hE ha hb hc
    exact ⟨_, _, _, ldist_in_range hE h1 a b ha hb, ldist_in_range hE h2 a c ha hc,
      ldist_in_range hE h3 c b hc hb, by exact_mod_cast key⟩

/-- Witness for C3: three strings of three different character widths. -/
theorem levenshtein_distance_triangle_witness :
    ∃ x y z : Int, ldist (Env.plain 0) Heap.empty sampleKit sampleSit = some x ∧
      ldist (Env.plain 0) Heap.empty sampleKit sampleWide = some y ∧
      ldist (Env.plain 0) Heap.empty sampleWide sampleSit = some z ∧ x ≤ y + z :=
  (levenshtein_distance_triangle (Env.plain 0) Heap.empty Heap.empty Heap.empty
    sampleKit sampleSit sampleWide).2.1 (fun _ => rfl) (by decide) (by decide) (by decide)

/-- Claim C4, as it stands, fails: for a string of `2^31` codepoints compared with
itself the counter `i` of the allocation loop (line 51) is incremented past
`INT_MAX`, which is undefined behaviour, so the call does not return 0. -/
theorem levenshtein_distance_identical_overflow :
    levenshtein_distance (Env.plain 0) Heap.empty
      [.unicode true (PyUnicode.store 1 (List.replicate 2147483648 97)),
        .unicode true (PyUnicode.store 1 (List.replicate 2147483648 97))]
      = .undefined .signedOverflow :=
  overflow_of_huge _ _ (Or.inl (by rw [store_length, List.length_replicate]))

/-- Claim C4, amended. Identity within the capacity of `int`: `ldist(s, s)` returns
0 for every string of fewer than `INT_MAX = 2^31 - 1` codepoints, every
`malloc` succeeding; and in every environment, whatever value `ldist(s, s)`
returns is 0. -/
theorem levenshtein_distance_identical (env : Env) (h : Heap) (s : PyUnicode) :
    (∀ v : Int, ldist env h s s = some v → v = 0) ∧
    (env.allocOK → (s.length : Int) < INT_MAX → ldist env h s s = some 0) := by
  constructor
  · intro v hv
    rw [(ldist_eq_some env h s s hv).2.2, lev_self]
    rfl
  · intro hE hs
    rw [ldist_in_range hE h s s hs hs, lev_self]
    rfl

/-- Witness for C4: a string with a four-byte codepoint, compared with itself. -/
theorem levenshtein_distance_identical_witness :
    ldist (Env.plain 0) Heap.empty sampleWide sampleWide = some 0 :=
  (levenshtein_distance_identical (Env.plain 0) Heap.empty sampleWide).2
    (fun _ => rfl) (by decide)

/-- Claim C5, as it stands, fails: for a string of `2^31` codepoints and the empty
string the counter `i` of the allocation loop (line 51) is incremented past
`INT_MAX`, which is undefined behaviour, so the call does not return the
number of codepoints. -/
theorem levenshtein_distance_empty_overflow :
    levenshtein_distance (Env.plain 0) Heap.empty
      [.unicode true (PyUnicode.store 1 (List.replicate 2147483648 98)),
        .unicode true sampleEmpty]
      = .undefined .signedOverflow :=
  overflow_of_huge _ _ (Or.inl (by rw [store_length, List.length_replicate]))

/-- Claim C5, amended. With an empty string `e` on either side and a string `s` of
fewer than `INT_MAX = 2^31 - 1` codepoints on the other, `ldist` returns the
number of codepoints of `s` (0 when both are empty), every `malloc`
succeeding; in every environment, whatever value such a call returns is that
number.  In these calls the body of the fill loop never runs: whatever that
body is, the fill loop leaves the memory as it is. -/
theorem levenshtein_distance_empty (env : Env) (h1 h2 : Heap) (e s : PyUnicode)
    (he : e.length = 0) :
    (∀ v : Int, ldist env h1 e s = some v → v = (s.length : Int)) ∧
    (∀ v : Int, ldist env h2 s e = some v → v = (s.length : Int)) ∧
    (env.allocOK → (s.length : Int) < INT_MAX →
      ldist env h1 e s = some (s.length : Int) ∧ ldist env h2 s e = some (s.length : Int)) ∧
    ((s.length : Int) < INT_MAX →
      ∀ (body : Int → Int → Frame → Except UB Frame) (f : Frame),
        forLoop (PyUnicode_GetLength s)
            (fun j g => forLoop (PyUnicode_GetLength e) (body j)
              (loopFuel (PyUnicode_GetLength e)) 1 g)
            (loopFuel (PyUnicode_GetLength s)) 1 f = .ok f ∧
        forLoop (PyUnicode_GetLength e)
            (fun j g => forLoop (PyUnicode_GetLength s) (body j)
              (loopFuel (PyUnicode_GetLength s)) 1 g)
            (loopFuel (PyUnicode_GetLength e)) 1 f = .ok f) := by
  have l1 : ((lev e.codepoints s.codepoints : Nat) : Int) = (s.length : Int) := by
    rw [codepoints_of_empty e he, lev_nil_left, codepoints_length]
  have l2 : ((lev s.codepoints e.codepoints : Nat) : Int) = (s.length : Int) := by
    rw [codepoints_of_empty e he, lev_nil_right, codepoints_length]
  have hez : (e.length : Int) < INT_MAX := by rw [he]; unfold INT_MAX; omega
  refine ⟨?_, ?_, ?_, ?_⟩
  · intro v hv
    rw [(ldist_eq_some env h1 e s hv).2.2, l1]
  · intro v hv
    rw [(ldist_eq_some env h2 s e hv).2.2, l2]
  · intro hE hs
    exact ⟨by rw [ldist_in_range hE h1 e s hez hs, l1],
      by rw [ldist_in_range hE h2 s e hs hez, l2]⟩
  · intro hs body f
    unfold PyUnicode_GetLength
    rw [he]
    constructor
    · exact forLoop_idle _ _ f hs (by omega)
        (fun j => forLoop_skip _ _ _ _ _ (by norm_num))
    · exact forLoop_skip _ _ _ _ _ (by norm_num)

/-- Witness for C5: the empty string against a three-codepoint string stored in
twelve bytes, in both orders. -/
theorem levenshtein_distance_empty_witness :
    sampleEmpty.length = 0 ∧
    ldist (Env.plain 0) Heap.empty sampleEmpty sampleWide = some (sampleWide.length : Int) ∧
    ldist (Env.plain 0) Heap.empty sampleWide sampleEmpty = some (sampleWide.length : Int) :=
  ⟨rfl, (levenshtein_distance_empty (Env.plain 0) Heap.empty Heap.empty sampleEmpty
    sampleWide rfl).2.2.1 (fun _ => rfl) (by decide)⟩

/-- Claim C6, as it stands, fails: for the empty string and a string of `2^31`
codepoints the counter `j` of the zero fill (line 57) is incremented past
`INT_MAX`, which is undefined behaviour, so the call has no result `r` with
`0 ≤ r ≤ max(m, n)`. -/
theorem levenshtein_distance_range_overflow :
    levenshtein_distance (Env.plain 0) Heap.empty
        [.unicode true sampleEmpty,
          .unicode true (PyUnicode.store 1 (List.replicate 2147483648 102))]
      = .undefined .signedOverflow
    ∧ ¬ ∃ r : Int, ldist (Env.plain 0) Heap.empty sampleEmpty
          (PyUnicode.store 1 (List.replicate 2147483648 102)) = some r
        ∧ 0 ≤ r ∧ r ≤ max (sampleEmpty.length : Int)
          ((PyUnicode.store 1 (List.replicate 2147483648 102)).length : Int) := by
  have hu := overflow_of_huge sampleEmpty (PyUnicode.store 1 (List.replicate 2147483648 102))
    (Or.inr (by rw [store_length, List.length_replicate]))
  refine ⟨hu, ?_⟩
  rintro ⟨r, hr, _⟩
  unfold ldist at hr
  rw [hu] at hr
  exact absurd hr (by simp [Outcome.value?])

/-- Claim C6, amended. For strings `a` of length `m` and `b` of length `n`, both
below `INT_MAX = 2^31 - 1`, every `malloc` succeeding, `ldist(a, b)` returns a
result `r` with `0 ≤ r ≤ max(m, n)`.  In every environment, every value the
call returns lies in that range; with a length of `INT_MAX` or more it returns
none. -/
theorem levenshtein_distance_range (env : Env) (h : Heap) (a b : PyUnicode) :
    (∀ v : Int, ldist env h a b = some v →
      0 ≤ v ∧ v ≤ max (a.length : Int) (b.length : Int)) ∧
    (env.allocOK → (a.length : Int) < INT_MAX → (b.length : Int) < INT_MAX →
      ∃ v : Int, ldist env h a b = some v
        ∧ 0 ≤ v ∧ v ≤ max (a.length : Int) (b.length : Int)) ∧
    (INT_MAX ≤ (a.length : Int) ∨ INT_MAX ≤ (b.length : Int) → ldist env h a b = none) := by
  have key := lev_le_max a.codepoints b.codepoints
  rw [codepoints_length, codepoints_length] at key
  have hb : (0 : Int) ≤ ((lev a.codepoints b.codepoints : Nat) : Int)
      ∧ ((lev a.codepoints b.codepoints : Nat) : Int) ≤ max (a.length : Int) (b.length : Int) := by
    omega
  refine ⟨?_, ?_, ldist_none_of_big env h a b⟩
  · intro v hv
    rw [(ldist_eq_some env h a b hv).2.2]
    exact hb
  · intro hE hm hn
    exact ⟨_, ldist_in_range hE h a b hm hn, hb⟩

/-- Witness for C6: "kit" against "sit€". -/
theorem levenshtein_distance_range_witness :
    ∃ v : Int, ldist (Env.plain 0) Heap.empty sampleKit sampleSit = some v
      ∧ 0 ≤ v ∧ v ≤ max (sampleKit.length : Int) (sampleSit.length : Int) :=
  (levenshtein_distance_range (Env.plain 0) Heap.empty sampleKit sampleSit).2.1
    (fun _ => rfl) (by decide) (by decide)

/-- Claim C7, as it stands, fails: for a string of `2^31` codepoints and "sit€" the
counter `i` of the allocation loop (line 51) is incremented past `INT_MAX`,
which is undefined behaviour, so the call has no result that is at least
`|m - n|`. -/
theorem levenshtein_distance_length_gap_overflow :
    levenshtein_distance (Env.plain 0) Heap.empty
        [.unicode true (PyUnicode.store 1 (List.replicate 2147483648 103)),
          .unicode true sampleSit]
      = .undefined .signedOverflow
    ∧ ¬ ∃ r : Int, ldist (Env.plain 0) Heap.empty
          (PyUnicode.store 1 (List.replicate 2147483648 103)) sampleSit = some r
        ∧ |((PyUnicode.store 1 (List.replicate 2147483648 103)).length : Int)
            - (sampleSit.length : Int)| ≤ r := by
  have hu := overflow_of_huge (PyUnicode.store 1 (List.replicate 2147483648 103)) sampleSit
    (Or.inl (by rw [store_length, List.length_replicate]))
  refine ⟨hu, ?_⟩
  rintro ⟨r, hr, _⟩
  unfold ldist at hr
  rw [hu] at hr
  exact absurd hr (by simp [Outcome.value?])

/-- Claim C7, amended. For strings `a` of length `m` and `b` of length `n`, both
below `INT_MAX = 2^31 - 1`, every `malloc` succeeding, `ldist(a, b)` returns a
value that is at least `|m - n|`.  In every environment, every value the call
returns is at least `|m - n|`; with a length of `INT_MAX` or more it returns
none. -/
theorem levenshtein_distance_length_gap (env : Env) (h : Heap) (a b : PyUnicode) :
    (∀ v : Int, ldist env h a b = some v → |(a.length : Int) - (b.length : Int)| ≤ v) ∧
    (env.allocOK → (a.length : Int) < INT_MAX → (b.length : Int) < INT_MAX →
      ∃ v : Int, ldist env h a b = some v ∧ |(a.length : Int) - (b.length : Int)| ≤ v) ∧
    (INT_MAX ≤ (a.length : Int) ∨ INT_MAX ≤ (b.length : Int) → ldist env h a b = none) := by
  have key := lev_ge_diff a.codepoints b.codepoints
  rw [codepoints_length, codepoints_length] at key
  have hb : |(a.length : Int) - (b.length : Int)|
      ≤ ((lev a.codepoints b.codepoints : Nat) : Int) :=
    abs_le.mpr ⟨by omega, by omega⟩
  refine ⟨?_, ?_, ldist_none_of_big env h a b⟩
  · intro v hv
    rw [(ldist_eq_some env h a b hv).2.2]
    exact hb
  · intro hE hm hn
    exact ⟨_, ldist_in_range hE h a b hm hn, hb⟩

/-- Witness for C7: the empty string against "sit€". -/
theorem levenshtein_distance_length_gap_witness :
    ∃ v : Int, ldist (Env.plain 0) Heap.empty sampleEmpty sampleSit = some v
      ∧ |(sampleEmpty.length : Int) - (sampleSit.length : Int)| ≤ v :=
  (levenshtein_distance_length_gap (Env.plain 0) Heap.empty sampleEmpty sampleSit).2.1
    (fun _ => rfl) (by decide) (by decide)

/-- Claim C8, as it stands, fails in its last part: for a string of `2^31`
codepoints that mixes a one-byte codepoint with four-byte ones, against the
empty string, the counter `i` of the allocation loop (line 51) is incremented
past `INT_MAX`, so the call does not yield the codepoint count. -/
theorem levenshtein_distance_codepoint_level_overflow :
    levenshtein_distance (Env.plain 0) Heap.empty
      [.unicode true (PyUnicode.store 4 (97 :: List.replicate 2147483647 128512)),
        .unicode true sampleEmpty]
      = .undefined .signedOverflow :=
  overflow_of_huge _ _
    (Or.inl (by rw [store_length, List.length_cons, List.length_replicate]))

/-- Claim C8, amended. Characters are compared as codepoints at logical indices,
whatever the storage width.  For codepoint sequences `s` and `t` stored with
any widths `ka`, `kb` among 1, 2 and 4 bytes that fit them: reading by index
gives back `s` and `t`; the cost computed for cell `(i, j)` is 0 exactly when
codepoint `i - 1` of `s` equals codepoint `j - 1` of `t`; in every environment
every value returned is the recursion's value for `s` and `t`, and calls on
strings with the same codepoint sequences, however stored, have the same
result; with every `malloc` succeeding and fewer than `INT_MAX = 2^31 - 1`
codepoints, the value is returned, a string against itself gives 0 and against
an empty string its number of codepoints. -/
theorem levenshtein_distance_codepoint_level (env : Env) (h : Heap) (ka kb : Nat)
    (s t : List Nat) (hka : ka = 1 ∨ ka = 2 ∨ ka = 4) (hkb : kb = 1 ∨ kb = 2 ∨ kb = 4)
    (hs : ∀ c ∈ s, c < 256 ^ ka) (ht : ∀ c ∈ t, c < 256 ^ kb) :
    (PyUnicode.store ka s).codepoints = s ∧ (PyUnicode.store kb t).codepoints = t ∧
    (∀ i j : Int, 1 ≤ i → i ≤ s.length → 1 ≤ j → j ≤ t.length →
      ((if PyUnicode_READ (PyUnicode_KIND (PyUnicode.store ka s))
              (PyUnicode_DATA (PyUnicode.store ka s)) (i - 1)
            = PyUnicode_READ (PyUnicode_KIND (PyUnicode.store kb t))
              (PyUnicode_DATA (PyUnicode.store kb t)) (j - 1) then (0 : Int) else 1) = 0
        ↔ s.getD (i - 1).toNat 0 = t.getD (j - 1).toNat 0)) ∧
    (∀ v : Int, ldist env h (PyUnicode.store ka s) (PyUnicode.store kb t) = some v →
      v = ((lev s t : Nat) : Int)) ∧
    (∀ c d : PyUnicode, c.codepoints = s → d.codepoints = t →
      ldist env h c d = ldist env h (PyUnicode.store ka s) (PyUnicode.store kb t)) ∧
    (env.allocOK → (s.length : Int) < INT_MAX → (t.length : Int) < INT_MAX →
      ldist env h (PyUnicode.store ka s) (PyUnicode.store kb t)
        = some ((lev s t : Nat) : Int)) ∧
    (env.allocOK → (s.length : Int) < INT_MAX →
      ldist env h (PyUnicode.store ka s) (PyUnicode.store ka s) = some 0 ∧
      ∀ e : PyUnicode, e.length = 0 →
        ldist env h (PyUnicode.store ka s) e = some (s.length : Int) ∧
        ldist env h e (PyUnicode.store ka s) = some (s.length : Int)) := by
  have cs := codepoints_store ka hka s hs
  have ct := codepoints_store kb hkb t ht
  have hez : ∀ e : PyUnicode, e.length = 0 → (e.length : Int) < INT_MAX := by
    intro e he; rw [he]; unfold INT_MAX; omega
  refine ⟨cs, ct, ?_, ?_, ?_, ?_, ?_⟩
  · intro i j hi0 hi1 hj0 hj1
    rw [READ_store_fit ka hka s hs (i - 1) (by omega) (by omega),
      READ_store_fit kb hkb t ht (j - 1) (by omega) (by omega)]
    constructor
    · intro hc
      by_contra hne
      rw [if_neg hne] at hc
      exact absurd hc (by norm_num)
    · intro heq
      rw [if_pos heq]
  · intro v hv
    have := (ldist_eq_some env h _ _ hv).2.2
    rwa [cs, ct] at this
  · intro c d hc hd
    exact ldist_congr env h c d _ _ (by rw [hc, cs]) (by rw [hd, ct])
  · intro hE hm hn
    have := ldist_in_range hE h (PyUnicode.store ka s) (PyUnicode.store kb t) hm hn
    rwa [cs, ct] at this
  · intro hE hm
    refine ⟨?_, ?_⟩
    · rw [ldist_in_range hE h (PyUnicode.store ka s) (PyUnicode.store ka s) hm hm, lev_self]
      rfl
    · intro e he
      constructor
      · rw [ldist_in_range hE h (PyUnicode.store ka s) e hm (hez e he), cs,
          codepoints_of_empty e he, lev_nil_right]
      · rw [ldist_in_range hE h e (PyUnicode.store ka s) (hez e he) hm, cs,
          codepoints_of_empty e he, lev_nil_left]

/-- Witness for C8: a four-byte string against a one-byte string, against itself
and against the empty string. -/
theorem levenshtein_distance_codepoint_level_witness :
    ((4 : Nat) = 1 ∨ (4 : Nat) = 2 ∨ (4 : Nat) = 4) ∧
    ((1 : Nat) = 1 ∨ (1 : Nat) = 2 ∨ (1 : Nat) = 4) ∧
    (∀ c ∈ [105, 116, 128512], c < 256 ^ 4) ∧ (∀ c ∈ [107, 105, 116], c < 256 ^ 1) ∧
    (PyUnicode.store 4 [105, 116, 128512]).codepoints = [105, 116, 128512] ∧
    ldist (Env.plain 0) Heap.empty (PyUnicode.store 4 [105, 116, 128512])
        (PyUnicode.store 1 [107, 105, 116])
      = some ((lev [105, 116, 128512] [107, 105, 116] : Nat) : Int) ∧
    ldist (Env.plain 0) Heap.empty (PyUnicode.store 4 [105, 116, 128512])
        (PyUnicode.store 4 [105, 116, 128512]) = some 0 ∧
    ldist (Env.plain 0) Heap.empty (PyUnicode.store 4 [105, 116, 128512]) sampleEmpty
      = some 3 :=
  ⟨by decide, by decide, by decide, by decide,
    (levenshtein_distance_codepoint_level (Env.plain 0) Heap.empty 4 1
      [105, 116, 128512] [107, 105, 116] (by decide) (by decide) (by decide) (by decide)).1,
    (levenshtein_distance_codepoint_level (Env.plain 0) Heap.empty 4 1
      [105, 116, 128512] [107, 105, 116] (by decide) (by decide) (by decide)
      (by decide)).2.2.2.2.2.1 (fun _ => rfl) (by decide) (by decide),
    ((levenshtein_distance_codepoint_level (Env.plain 0) Heap.empty 4 1
      [105, 116, 128512] [107, 105, 116] (by decide) (by decide) (by decide)
      (by decide)).2.2.2.2.2.2 (fun _ => rfl) (by decide)).1,
    (((levenshtein_distance_codepoint_level (Env.plain 0) Heap.empty 4 1
      [105, 116, 128512] [107, 105, 116] (by decide) (by decide) (by decide)
      (by decide)).2.2.2.2.2.2 (fun _ => rfl) (by decide)).2 sampleEmpty rfl).1⟩

/-- Claim C9. When one of the two arguments is not of the exact type `str`, the
call returns with a `TypeError` and the allocator exactly as it found it: no
`malloc` was called, whatever the environment, and nothing of the arguments
beyond their types was looked at. -/
theorem levenshtein_distance_type_error (env : Env) (h : Heap) (x y : PyObject)
    (hbad : PyUnicode_CheckExact x = false ∨ PyUnicode_CheckExact y = false) :
    levenshtein_distance env h [x, y] = .returned h (.error .TypeError) := by
  unfold levenshtein_distance
  rcases hbad with hx | hy
  · simp [hx]
  · simp [hy]

/-- Witness for C9: a call on an object that is not a string and a string. -/
theorem levenshtein_distance_type_error_witness :
    (PyUnicode_CheckExact (.other 7) = false
        ∨ PyUnicode_CheckExact (.unicode true sampleKit) = false) ∧
    levenshtein_distance (Env.plain 0) Heap.empty [.other 7, .unicode true sampleKit]
      = .returned Heap.empty (.error .TypeError) :=
  ⟨Or.inl rfl,
    levenshtein_distance_type_error (Env.plain 0) Heap.empty (.other 7)
      (.unicode true sampleKit) (Or.inl rfl)⟩

/-- Claim C10, as it stands, fails: on the empty string and a string of `2^31`
codepoints the counter `j` of the zero-fill loop (line 57) is incremented past
`INT_MAX`, which is undefined behaviour, so the call returns no integer. -/
theorem levenshtein_distance_not_total :
    levenshtein_distance (Env.plain 0) Heap.empty
      [.unicode true sampleEmpty,
        .unicode true (PyUnicode.store 2 (List.replicate 2147483648 8364))]
      = .undefined .signedOverflow :=
  overflow_of_huge _ _ (Or.inr (by rw [store_length, List.length_replicate]))

/-- Claim C10, amended. For two strings of fewer than `INT_MAX = 2^31 - 1`
codepoints each, empty ones included, and with every `malloc` succeeding, all
loops of the function end and the call returns an integer, having released
every block it allocated. -/
theorem levenshtein_distance_total_within_int (env : Env) (hE : env.allocOK) (h : Heap)
    (a b : PyUnicode) (hm : (a.length : Int) < INT_MAX) (hn : (b.length : Int) < INT_MAX) :
    ∃ v : Int, levenshtein_distance env h [.unicode true a, .unicode true b]
      = .returned (h.afterCall (a.length + 2)) (.ok v) :=
  ⟨_, levenshtein_distance_ok h a b (hE.calls h _) hm hn⟩

/-- Witness for C10: the empty string against "sit€". -/
theorem levenshtein_distance_total_within_int_witness :
    (Env.plain 0).allocOK ∧ (sampleEmpty.length : Int) < INT_MAX
      ∧ (sampleSit.length : Int) < INT_MAX ∧
    ∃ v : Int, levenshtein_distance (Env.plain 0) Heap.empty
        [.unicode true sampleEmpty, .unicode true sampleSit]
      = .returned (Heap.empty.afterCall (sampleEmpty.length + 2)) (.ok v) :=
  ⟨fun _ => rfl, by decide, by decide,
    levenshtein_distance_total_within_int (Env.plain 0) (fun _ => rfl) Heap.empty
      sampleEmpty sampleSit (by decide) (by decide)⟩

/-! ## The matrix when the result is read -/

/-- The function `fillMatrix` is the base stages followed by the fill loop of the
source. -/
theorem fillMatrix_split (env : Env) (h : Heap) (a b : PyUnicode) :
    fillMatrix env h a b
      = match baseMatrix env h a b with
        | .error e => .error e
        | .ok g => fillColumnMajor a b g := by
  unfold fillMatrix baseMatrix fillColumnMajor
  dsimp only
  cases malloc env h (PyUnicode_GetLength a + 1).toNat with
  | mk h0 d =>
    dsimp only
    split
    · rfl
    · split
      · rfl
      · split
        · rfl
        · split <;> rfl

/-- Whenever the matrix gets built, in whatever environment, the `malloc` calls
succeeded, both lengths are below `INT_MAX`, and every cell holds its intended
value. -/
theorem fillMatrix_final (env : Env) (h : Heap) (a b : PyUnicode) (f : Frame)
    (hf : fillMatrix env h a b = .ok f) :
    env.callsOK h (a.length + 2)
      ∧ ((a.length : Int) < INT_MAX ∧ (b.length : Int) < INT_MAX)
      ∧ Allocated h a.length b.length ((a.length : Int) + 1) f
      ∧ Agrees h f (fun i1 j1 => 0 ≤ i1 ∧ i1 ≤ a.length ∧ 0 ≤ j1 ∧ j1 ≤ b.length)
          (target a b) := by
  by_cases hE : env.callsOK h (a.length + 2)
  · by_cases hc : (a.length : Int) < INT_MAX ∧ (b.length : Int) < INT_MAX
    · obtain ⟨f1, e1, hA, hR⟩ := fillMatrix_ok h a b hE hc.1 hc.2
      rw [e1] at hf
      injection hf with hf
      subst hf
      exact ⟨hE, hc, hA, hR⟩
    · rw [fillMatrix_overflow h a b hE (by omega)] at hf
      exact absurd hf (by simp)
  · obtain ⟨e, he⟩ := fillMatrix_alloc_failure env h a b hE
    rw [he] at hf
    exact absurd hf (by simp)

/-- Reading a cell of the finished matrix gives its intended value. -/
theorem final_cell (env : Env) (h : Heap) (a b : PyUnicode) (f : Frame)
    (hf : fillMatrix env h a b = .ok f) (i j : Int) (h0 : 0 ≤ i) (h1 : i ≤ a.length)
    (h2 : 0 ≤ j) (h3 : j ≤ b.length) : readCell f i j = .ok (target a b i j) := by
  obtain ⟨_, _, hA, hR⟩ := fillMatrix_final env h a b f hf
  rw [readCell_ok hA h0 h1 h2 h3, hR i j ⟨h0, h1, h2, h3⟩]

/-! ## The recurrence over unbounded integers -/

theorem unboundedCell_succ (a b : PyUnicode) (i j : Nat) :
    unboundedCell a b (i + 1) (j + 1)
      = minimum (unboundedCell a b i (j + 1) + 1) (unboundedCell a b (i + 1) j + 1)
          (unboundedCell a b i j + cellCost a b (i : Int) (j : Int)) := rfl

theorem unboundedCell_zero_left (a b : PyUnicode) (j : Nat) :
    unboundedCell a b 0 j = (j : Int) := rfl

theorem unboundedCell_zero_right (a b : PyUnicode) (i : Nat) :
    unboundedCell a b i 0 = (i : Int) := by
  cases i with
  | zero => rfl
  | succ i => show (i : Int) + 1 = ((i + 1 : Nat) : Int); push_cast; rfl

/-- The recurrence over unbounded integers gives every cell its intended value. -/
theorem unboundedCell_eq_target (a b : PyUnicode) :
    ∀ i j : Nat, i ≤ a.length → j ≤ b.length →
      unboundedCell a b i j = target a b (i : Int) (j : Int) := by
  intro i
  induction i with
  | zero =>
    intro j _ hj
    rw [unboundedCell_zero_left]
    exact (target_row a b (j : Int) (by omega) (by omega)).symm
  | succ i ihi =>
    intro j hi hj
    induction j with
    | zero =>
      rw [unboundedCell_zero_right]
      exact (target_col a b ((i + 1 : Nat) : Int) (by omega) (by omega)).symm
    | succ j ihj =>
      rw [unboundedCell_succ, ihi (j + 1) (by omega) hj, ihj (by omega),
        ihi j (by omega) (by omega)]
      have key := target_rec a b ((i + 1 : Nat) : Int) ((j + 1 : Nat) : Int)
        (by push_cast; omega) (by omega) (by push_cast; omega) (by omega)
      have e1 : ((i + 1 : Nat) : Int) - 1 = (i : Int) := by push_cast; omega
      have e2 : ((j + 1 : Nat) : Int) - 1 = (j : Int) := by push_cast; omega
      rw [e1, e2] at key
      exact key

/-! ## Claims on integer range, allocation and the scenarios -/

/-- Claim C11, as it stands, fails: for "sit€" and a string of `2^31` codepoints,
both valid texts, the loop counter `j` of line 57 is incremented past
`INT_MAX`; the value it would take is outside the range of `int`, and the
embedding reports the signed overflow. -/
theorem levenshtein_distance_int_overflow :
    levenshtein_distance (Env.plain 0) Heap.empty
      [.unicode true sampleSit,
        .unicode true (PyUnicode.store 1 (List.replicate 2147483648 120))]
      = .undefined .signedOverflow :=
  overflow_of_huge _ _ (Or.inr (by rw [store_length, List.length_replicate]))

/-- Claim C11, amended. For two strings of fewer than `INT_MAX = 2^31 - 1`
codepoints each, and with the `malloc` calls succeeding, the matrix is built
without any signed overflow and the `int` computation agrees with the same
recurrence over unbounded integers: every cell read from the finished matrix
is the unbounded value, which lies between 0 and `INT_MAX`; the three sums
formed for a cell lie between 0 and `INT_MAX`; the loop counters and base
values stay at most `INT_MAX`, also after their last increment; and the value
returned is the unbounded value of the last cell. -/
theorem levenshtein_distance_int_range (env : Env) (h : Heap) (a b : PyUnicode)
    (hE : env.callsOK h (a.length + 2)) (hm : (a.length : Int) < INT_MAX)
    (hn : (b.length : Int) < INT_MAX) :
    ∃ f, fillMatrix env h a b = .ok f ∧
      (∀ i j : Nat, i ≤ a.length → j ≤ b.length →
        readCell f (i : Int) (j : Int) = .ok (unboundedCell a b i j)
          ∧ 0 ≤ unboundedCell a b i j ∧ unboundedCell a b i j ≤ INT_MAX) ∧
      (∀ i j : Nat, i < a.length → j < b.length →
        (0 ≤ unboundedCell a b i (j + 1) + 1 ∧ unboundedCell a b i (j + 1) + 1 ≤ INT_MAX) ∧
        (0 ≤ unboundedCell a b (i + 1) j + 1 ∧ unboundedCell a b (i + 1) j + 1 ≤ INT_MAX) ∧
        (0 ≤ unboundedCell a b i j + cellCost a b (i : Int) (j : Int)
          ∧ unboundedCell a b i j + cellCost a b (i : Int) (j : Int) ≤ INT_MAX)) ∧
      (∀ i : Nat, i ≤ a.length → 0 ≤ (i : Int) + 1 ∧ (i : Int) + 1 ≤ INT_MAX) ∧
      (∀ j : Nat, j ≤ b.length → 0 ≤ (j : Int) + 1 ∧ (j : Int) + 1 ≤ INT_MAX) ∧
      ldist env h a b = some (unboundedCell a b a.length b.length) := by
  obtain ⟨f, hf, hA, hR⟩ := fillMatrix_ok h a b hE hm hn
  have bound : ∀ i j : Nat, i ≤ a.length → j ≤ b.length →
      0 ≤ unboundedCell a b i j ∧ unboundedCell a b i j ≤ max (i : Int) (j : Int) := by
    intro i j hi hj
    rw [unboundedCell_eq_target a b i j hi hj]
    exact target_le_max a b _ _ (by omega) (by omega)
  have hcost : ∀ i j : Int, 0 ≤ cellCost a b i j ∧ cellCost a b i j ≤ 1 := by
    intro i j
    unfold cellCost
    split <;> omega
  refine ⟨f, hf, ?_, ?_, ?_, ?_, ?_⟩
  · intro i j hi hj
    have hb := bound i j hi hj
    refine ⟨?_, hb.1, by unfold INT_MAX at *; omega⟩
    rw [final_cell env h a b f hf _ _ (by omega) (by omega) (by omega) (by omega),
      unboundedCell_eq_target a b i j hi hj]
  · intro i j hi hj
    have b1 := bound i (j + 1) (by omega) (by omega)
    have b2 := bound (i + 1) j (by omega) (by omega)
    have b3 := bound i j (by omega) (by omega)
    have hc := hcost (i : Int) (j : Int)
    push_cast at b1 b2
    unfold INT_MAX at *
    omega
  · intro i hi
    unfold INT_MAX at *
    omega
  · intro j hj
    unfold INT_MAX at *
    omega
  · rw [ldist_value h a b hE, if_pos ⟨hm, hn⟩,
      unboundedCell_eq_target a b _ _ le_rfl le_rfl, target_full]

/-- Witness for C11: "kit" against "sit€". -/
theorem levenshtein_distance_int_range_witness :
    (Env.plain 0).callsOK Heap.empty (sampleKit.length + 2) ∧
    (sampleKit.length : Int) < INT_MAX ∧ (sampleSit.length : Int) < INT_MAX ∧
    ldist (Env.plain 0) Heap.empty sampleKit sampleSit
      = some (unboundedCell sampleKit sampleSit sampleKit.length sampleSit.length) :=
  ⟨fun _ _ _ => rfl, by decide, by decide,
    (levenshtein_distance_int_range (Env.plain 0) Heap.empty sampleKit sampleSit
      (fun _ _ _ => rfl) (by decide) (by decide)).elim
      (fun _ hf => hf.2.2.2.2.2)⟩

/-- A call on two exact strings in which a `malloc` fails ends in undefined
behaviour: it never returns, neither an integer nor an exception. -/
theorem levenshtein_distance_alloc_failure (env : Env) (h : Heap) (a b : PyUnicode)
    (hfail : ¬ env.callsOK h (a.length + 2)) :
    ∃ e, levenshtein_distance env h [.unicode true a, .unicode true b] = .undefined e := by
  obtain ⟨e, he⟩ := fillMatrix_alloc_failure env h a b hfail
  refine ⟨e, ?_⟩
  unfold levenshtein_distance
  simp only [PyUnicode_CheckExact, PyObject.payload, Bool.and_self, Bool.not_true,
    Bool.false_eq_true, if_false]
  unfold distanceBody
  dsimp only
  rw [he]

/-- Claim C12 is not what the code does.  On "kit" and "sit€", when the `malloc`
of the row-pointer array fails (call 0) the assignment `d[0] = malloc(...)` of
line 52 goes through `NULL`; when the `malloc` of row 1 fails (call 2) the
`NULL` is stored in `d[1]` and `d[1][0] = 0` of line 58 goes through it.  Both
are undefined behaviour: no resource error is returned and nothing is released. -/
theorem levenshtein_distance_unchecked_malloc :
    levenshtein_distance (Env.failAt 0) Heap.empty
        [.unicode true sampleKit, .unicode true sampleSit] = .undefined .invalidPointer ∧
    levenshtein_distance (Env.failAt 2) Heap.empty
        [.unicode true sampleKit, .unicode true sampleSit] = .undefined .invalidPointer :=
  ⟨rfl, rfl⟩

/-- The library function `free` succeeds on a pointer only when the block is live,
and the block is not live afterwards: a second `free` of it would be undefined. -/
theorem free_live {hp hq : Heap} {p : Nat} (hfree : free hp (some p) = .ok hq) :
    hp.blocks p ≠ none ∧ hq.blocks p = none ∧ hq.next = hp.next
      ∧ ∀ k, k ≠ p → hq.blocks k = hp.blocks k := by
  have hfree2 : (match hp.blocks p with
      | none => Except.error UB.invalidPointer
      | some _ => Except.ok (⟨hp.next, fun k => if k = p then none else hp.blocks k⟩ : Heap))
      = .ok hq := hfree
  cases hsz : hp.blocks p with
  | none =>
    rw [hsz] at hfree2
    exact absurd hfree2 (by simp)
  | some sz =>
    rw [hsz] at hfree2
    injection hfree2 with hfree2
    subst hfree2
    refine ⟨by simp, by simp, rfl, ?_⟩
    intro k hk
    simp [hk]

/-- The two ways in which a call returns: with a `TypeError` and the allocator
untouched, or, on two exact strings whose `malloc` calls succeeded and whose
lengths are below `INT_MAX`, with an integer and every block released. -/
theorem returned_cases (env : Env) (h : Heap) (args : List PyObject) (h1 : Heap)
    (r : Except PyErr Int) (hret : levenshtein_distance env h args = .returned h1 r) :
    (r = .error .TypeError ∧ h1 = h) ∨
    (∃ a b : PyUnicode, args = [.unicode true a, .unicode true b]
      ∧ env.callsOK h (a.length + 2)
      ∧ ((a.length : Int) < INT_MAX ∧ (b.length : Int) < INT_MAX)
      ∧ r = .ok ((lev a.codepoints b.codepoints : Nat) : Int)
      ∧ h1 = h.afterCall (a.length + 2)) := by
  have herr : ∀ h2 r2, (Outcome.returned h (.error .TypeError) = .returned h2 r2) →
      (r2 = .error .TypeError ∧ h2 = h) := by
    intro h2 r2 e
    injection e with e1 e2
    exact ⟨e2.symm, e1.symm⟩
  match args, hret with
  | [], hret => exact Or.inl (herr _ _ hret)
  | [_], hret => exact Or.inl (herr _ _ hret)
  | _ :: _ :: _ :: _, hret => exact Or.inl (herr _ _ hret)
  | [x, y], hret =>
    unfold levenshtein_distance at hret
    dsimp only at hret
    split at hret
    · exact Or.inl (herr _ _ hret)
    · rename_i hchk
      have hx : PyUnicode_CheckExact x = true ∧ PyUnicode_CheckExact y = true := by
        simpa using hchk
      obtain ⟨a, rfl⟩ : ∃ a, x = .unicode true a := by
        cases x with
        | unicode exact u =>
          have : exact = true := hx.1
          subst this
          exact ⟨u, rfl⟩
        | other t => exact absurd hx.1 (by simp [PyUnicode_CheckExact])
      obtain ⟨b, rfl⟩ : ∃ b, y = .unicode true b := by
        cases y with
        | unicode exact u =>
          have : exact = true := hx.2
          subst this
          exact ⟨u, rfl⟩
        | other t => exact absurd hx.2 (by simp [PyUnicode_CheckExact])
      right
      refine ⟨a, b, rfl, ?_⟩
      have hret2 : levenshtein_distance env h [.unicode true a, .unicode true b]
          = .returned h1 r := by
        unfold levenshtein_distance
        dsimp only
        rw [if_neg hchk]
        exact hret
      by_cases hE : env.callsOK h (a.length + 2)
      · by_cases hc : (a.length : Int) < INT_MAX ∧ (b.length : Int) < INT_MAX
        · rw [levenshtein_distance_ok h a b hE hc.1 hc.2] at hret2
          injection hret2 with e1 e2
          exact ⟨hE, hc, e2.symm, e1.symm⟩
        · rw [levenshtein_distance_overflow h a b hE (by omega)] at hret2
          exact absurd hret2 (by simp)
      · obtain ⟨e, he⟩ := levenshtein_distance_alloc_failure env h a b hE
        rw [he] at hret2
        exact absurd hret2 (by simp)

theorem empty_wf : Heap.empty.WF := fun _ _ => rfl

/-- Claim C13. On every path on which the call returns, whatever the arguments
and the environment, the live blocks after the call are the live blocks
before it.  On the `TypeError` returns the allocator is untouched.  On the
normal return exactly `len(a) + 2` calls of `malloc` were made, for the
row-pointer array and the `len(a) + 1` rows; each of these blocks is live when
the result is read and released when the call returns, and no other block was
allocated or released.  As `free` succeeds only on a live block, which is not
live afterwards, each block was freed exactly once. -/
theorem levenshtein_distance_releases (env : Env) (h : Heap) (args : List PyObject)
    (h1 : Heap) (r : Except PyErr Int) (hwf : h.WF)
    (hret : levenshtein_distance env h args = .returned h1 r) :
    (∀ k, h1.blocks k = h.blocks k) ∧ h1.WF ∧
    ((r = .error .TypeError ∧ h1 = h) ∨
      (∃ (a b : PyUnicode) (v : Int) (f : Frame),
        args = [.unicode true a, .unicode true b] ∧ r = .ok v ∧
        fillMatrix env h a b = .ok f ∧
        h1.next = h.next + (a.length + 2) ∧
        (∀ k, h.next ≤ k → k < h.next + (a.length + 2) →
          f.heap.blocks k ≠ none ∧ h1.blocks k = none) ∧
        (∀ k, ¬ (h.next ≤ k ∧ k < h.next + (a.length + 2)) →
          f.heap.blocks k = h.blocks k ∧ h1.blocks k = h.blocks k))) ∧
    (∀ (hp hq : Heap) (p : Nat), free hp (some p) = .ok hq →
      hp.blocks p ≠ none ∧ hq.blocks p = none) := by
  have hfree : ∀ (hp hq : Heap) (p : Nat), free hp (some p) = .ok hq →
      hp.blocks p ≠ none ∧ hq.blocks p = none :=
    fun hp hq p hf => ⟨(free_live hf).1, (free_live hf).2.1⟩
  rcases returned_cases env h args h1 r hret with ⟨hr, hh⟩ | ⟨a, b, hargs, hE, hc, hr, hh⟩
  · subst hh
    exact ⟨fun _ => rfl, hwf, Or.inl ⟨hr, rfl⟩, hfree⟩
  · obtain ⟨f, hf, hA, _⟩ := fillMatrix_ok h a b hE hc.1 hc.2
    obtain ⟨_, _, hb, _⟩ := hA
    have hafter : ∀ k, h1.blocks k
        = if h.next ≤ k ∧ k < h.next + (a.length + 2) then none else h.blocks k := by
      intro k; rw [hh]; rfl
    have hnext : h1.next = h.next + (a.length + 2) := by rw [hh]; rfl
    refine ⟨?_, ?_, Or.inr ⟨a, b, _, f, hargs, hr, hf, hnext, ?_, ?_⟩, hfree⟩
    · intro k
      rw [hafter]
      split
      · rename_i hk
        exact (hwf k hk.1).symm
      · rfl
    · intro k hk
      rw [hafter]
      split
      · rfl
      · exact hwf k (by omega)
    · intro k hk0 hk1
      refine ⟨?_, by rw [hafter, if_pos ⟨hk0, hk1⟩]⟩
      rw [hb]
      split_ifs <;> first | (exfalso; omega) | simp
    · intro k hk
      refine ⟨?_, by rw [hafter, if_neg hk]⟩
      rw [hb]
      split_ifs <;> first | rfl | (exfalso; omega)

/-- Witness for C13: the normal return on "kit" and "sit€" from the empty heap. -/
theorem levenshtein_distance_releases_witness :
    Heap.empty.WF ∧
    levenshtein_distance (Env.plain 0) Heap.empty
        [.unicode true sampleKit, .unicode true sampleSit]
      = .returned (Heap.empty.afterCall (sampleKit.length + 2))
          (.ok ((lev sampleKit.codepoints sampleSit.codepoints : Nat) : Int)) ∧
    ∀ k, (Heap.empty.afterCall (sampleKit.length + 2)).blocks k = Heap.empty.blocks k :=
  ⟨empty_wf,
    levenshtein_distance_ok Heap.empty sampleKit sampleSit (fun _ _ _ => rfl)
      (by decide) (by decide),
    (levenshtein_distance_releases (Env.plain 0) Heap.empty
      [.unicode true sampleKit, .unicode true sampleSit]
      (Heap.empty.afterCall (sampleKit.length + 2))
      (.ok ((lev sampleKit.codepoints sampleSit.codepoints : Nat) : Int)) empty_wf
      (levenshtein_distance_ok Heap.empty sampleKit sampleSit (fun _ _ _ => rfl)
        (by decide) (by decide))).1⟩

theorem lev_kitten_sitting : lev kitten sitting = 3 := by decide

theorem lev_flaw_lawn : lev flaw lawn = 2 := by decide

/-- Claim C14. On the spec's scenarios the function returns the stated values:
for strings with the codepoints of "kitten" and "sitting", however stored,
`ldist` returns 3, and for "flaw" and "lawn" it returns 2, every `malloc`
succeeding; in every environment, whatever value these calls return is 3,
respectively 2. -/
theorem levenshtein_distance_scenarios (env : Env) (h1 h2 : Heap) (a b c d : PyUnicode)
    (ha : a.codepoints = kitten) (hb : b.codepoints = sitting)
    (hc : c.codepoints = flaw) (hd : d.codepoints = lawn) :
    (∀ v : Int, ldist env h1 a b = some v → v = 3) ∧
    (∀ v : Int, ldist env h2 c d = some v → v = 2) ∧
    (env.allocOK → ldist env h1 a b = some 3 ∧ ldist env h2 c d = some 2) := by
  have la : (a.length : Int) < INT_MAX := by
    rw [← codepoints_length a, ha]; decide
  have lb : (b.length : Int) < INT_MAX := by
    rw [← codepoints_length b, hb]; decide
  have lc : (c.length : Int) < INT_MAX := by
    rw [← codepoints_length c, hc]; decide
  have ld : (d.length : Int) < INT_MAX := by
    rw [← codepoints_length d, hd]; decide
  refine ⟨?_, ?_, ?_⟩
  · intro v hv
    rw [(ldist_eq_some env h1 a b hv).2.2, ha, hb, lev_kitten_sitting]
    rfl
  · intro v hv
    rw [(ldist_eq_some env h2 c d hv).2.2, hc, hd, lev_flaw_lawn]
    rfl
  · intro hE
    constructor
    · rw [ldist_in_range hE h1 a b la lb, ha, hb, lev_kitten_sitting]
      rfl
    · rw [ldist_in_range hE h2 c d lc ld, hc, hd, lev_flaw_lawn]
      rfl

/-- Witness for C14: the four strings stored with one byte per character. -/
theorem levenshtein_distance_scenarios_witness :
    (PyUnicode.store 1 kitten).codepoints = kitten ∧
    (PyUnicode.store 1 sitting).codepoints = sitting ∧
    (PyUnicode.store 1 flaw).codepoints = flaw ∧
    (PyUnicode.store 1 lawn).codepoints = lawn ∧
    ldist (Env.plain 0) Heap.empty (PyUnicode.store 1 kitten) (PyUnicode.store 1 sitting)
      = some 3 ∧
    ldist (Env.plain 0) Heap.empty (PyUnicode.store 1 flaw) (PyUnicode.store 1 lawn)
      = some 2 :=
  ⟨by decide, by decide, by decide, by decide,
    (levenshtein_distance_scenarios (Env.plain 0) Heap.empty Heap.empty
      (PyUnicode.store 1 kitten) (PyUnicode.store 1 sitting) (PyUnicode.store 1 flaw)
      (PyUnicode.store 1 lawn) (by decide) (by decide) (by decide) (by decide)).2.2
      (fun _ => rfl)⟩

/-- The embedding itself, run on "kitten" and "sitting" and on "flaw" and "lawn". -/
theorem scenarios_by_evaluation :
    ldist (Env.plain 0) Heap.empty (PyUnicode.store 1 kitten) (PyUnicode.store 1 sitting)
      = some 3 ∧
    ldist (Env.plain 0) Heap.empty (PyUnicode.store 1 flaw) (PyUnicode.store 1 lawn)
      = some 2 :=
  ⟨rfl, rfl⟩

/-! ## The matrix before the fill loop -/

/-- Lines 43-69: with every `malloc` succeeding and both lengths below `INT_MAX`,
the base stages succeed and leave the base row and the base column in place. -/
theorem baseMatrix_ok {env : Env} (h : Heap) (a b : PyUnicode)
    (hE : env.callsOK h (a.length + 2))
    (hm : (a.length : Int) < INT_MAX) (hn : (b.length : Int) < INT_MAX) :
    ∃ g, baseMatrix env h a b = .ok g
      ∧ Allocated h a.length b.length ((a.length : Int) + 1) g
      ∧ Agrees h g (fun i1 j1 => 0 ≤ i1 ∧ i1 ≤ a.length ∧ 0 ≤ j1 ∧ j1 ≤ b.length
          ∧ (j1 < 1 ∨ i1 = 0)) (target a b) := by
  obtain ⟨f1, e1, hA1⟩ := alloc_stage hE b.length hm
  obtain ⟨f2, e2, hA2, hR2⟩ := zero_stage hm hn f1 hA1
  obtain ⟨f3, e3, hA3, hR3⟩ := base_col_stage a b hm f2 hA2 hR2
  obtain ⟨f4, e4, hA4, hR4⟩ := base_row_stage a b hn f3 hA3 hR3
  refine ⟨f4, ?_, hA4, hR4⟩
  have hs : ((a.length : Int) + 1).toNat = a.length + 1 := by omega
  unfold baseMatrix PyUnicode_GetLength
  dsimp only
  rw [hs, malloc_ok (hE _ le_rfl (by omega))]
  dsimp only
  rw [e1]
  dsimp only
  rw [e2]
  dsimp only
  rw [e3]
  dsimp only
  rw [e4]

/-- When a length is `INT_MAX` or more, the base stages run into a signed
overflow of a loop counter. -/
theorem baseMatrix_overflow {env : Env} (h : Heap) (a b : PyUnicode)
    (hE : env.callsOK h (a.length + 2))
    (hbig : INT_MAX ≤ (a.length : Int) ∨ INT_MAX ≤ (b.length : Int)) :
    baseMatrix env h a b = .error .signedOverflow := by
  have hs : ((a.length : Int) + 1).toNat = a.length + 1 := by omega
  unfold baseMatrix PyUnicode_GetLength
  dsimp only
  rw [hs, malloc_ok (hE _ le_rfl (by omega))]
  dsimp only
  by_cases hm : INT_MAX ≤ (a.length : Int)
  · rw [alloc_overflow hE b.length hm]
  · have hn : INT_MAX ≤ (b.length : Int) := hbig.resolve_left hm
    obtain ⟨f1, e1, hA1⟩ := alloc_stage hE b.length (not_le.mp hm)
    rw [e1]
    dsimp only
    rw [zero_overflow hn f1 hA1]

/-- When one of the `malloc` calls of the function fails, the base stages run
into undefined behaviour. -/
theorem baseMatrix_alloc_failure (env : Env) (h : Heap) (a b : PyUnicode)
    (hfail : ¬ env.callsOK h (a.length + 2)) : ∃ e, baseMatrix env h a b = .error e := by
  unfold Env.callsOK at hfail
  push_neg at hfail
  obtain ⟨k, hk0, hk1, hk2⟩ := hfail
  have hkf : env.mallocOk k = false := by simpa using hk2
  have hs : ((a.length : Int) + 1).toNat = a.length + 1 := by omega
  unfold baseMatrix PyUnicode_GetLength
  dsimp only
  rw [hs]
  by_cases hd : env.mallocOk h.next = true
  · -- the pointer array is there, the row with call number `k` is not
    rw [malloc_ok hd]
    dsimp only
    obtain ⟨r, hr⟩ : ∃ r : Nat, k = h.next + 1 + r := by
      refine ⟨k - (h.next + 1), ?_⟩
      have : k ≠ h.next := by
        intro e; rw [e, hd] at hkf; exact absurd hkf (by simp)
      omega
    subst hr
    have hrm : r ≤ a.length := by omega
    have hrf : env.mallocOk (h.next + 1 + ((r : Nat) : Int).toNat) = false := by
      rw [Int.toNat_ofNat]; exact hkf
    have hstep : ∀ (i : Int) (f : Frame), i ≤ (a.length : Int) →
        (0 ≤ i ∧ f.d = some h.next ∧ f.heap.blocks h.next = some (a.length + 1)
          ∧ f.heap.next = h.next + 1 + i.toNat ∧ ((r : Int) < i → f.rowPtr (r : Int) = none)) →
        ∃ f1, allocRow env (b.length : Int) i f = .ok f1 ∧
          (0 ≤ i + 1 ∧ f1.d = some h.next ∧ f1.heap.blocks h.next = some (a.length + 1)
            ∧ f1.heap.next = h.next + 1 + (i + 1).toNat
            ∧ ((r : Int) < i + 1 → f1.rowPtr (r : Int) = none)) := by
      intro i f hi ⟨h0, q1, q2, q3, q4⟩
      obtain ⟨f1, e, c1, c2, c3, c4⟩ :=
        allocRow_tolerant env (n := b.length) hrf h0 hi q1 q2 q3 q4
      exact ⟨f1, e, by omega, c1, c2, c3, c4⟩
    have hstart : (0 : Int) ≤ 0 ∧ (⟨⟨h.next + 1,
          fun k => if k = h.next then some (a.length + 1) else h.blocks k⟩, some h.next,
          fun _ => none, env.junk⟩ : Frame).d = some h.next
        ∧ (if h.next = h.next then some (a.length + 1) else h.blocks h.next)
            = some (a.length + 1)
        ∧ h.next + 1 = h.next + 1 + (0 : Int).toNat
        ∧ ((r : Int) < 0 → (none : Option Nat) = none) :=
      ⟨le_rfl, rfl, by rw [if_pos rfl], by simp, fun _ => rfl⟩
    by_cases hm : (a.length : Int) < INT_MAX
    · obtain ⟨f1, e1, _, c1, c2, _, c4⟩ := forLoop_inv (a.length : Int)
        (allocRow env (b.length : Int))
        (fun i f => 0 ≤ i ∧ f.d = some h.next ∧ f.heap.blocks h.next = some (a.length + 1)
          ∧ f.heap.next = h.next + 1 + i.toNat ∧ ((r : Int) < i → f.rowPtr (r : Int) = none))
        hm (fun i f hi hI => hstep i f hi hI)
        (a.length + 1) 0 _ (loopFuel (a.length : Int)) (by unfold INT_MIN; omega) (by omega)
        (by push_cast; omega) (by unfold loopFuel; omega) hstart
      rw [e1]
      dsimp only
      obtain ⟨e, he⟩ := zero_null_row (n := b.length) (r := (r : Int)) (by omega) (by omega)
        f1 c1 c2 (c4 (by omega))
      rw [he]
      exact ⟨e, rfl⟩
    · have hm1 : INT_MAX ≤ (a.length : Int) := not_lt.mp hm
      have e1 := forLoop_overflow (a.length : Int) (allocRow env (b.length : Int))
        (fun i f => 0 ≤ i ∧ f.d = some h.next ∧ f.heap.blocks h.next = some (a.length + 1)
          ∧ f.heap.next = h.next + 1 + i.toNat ∧ ((r : Int) < i → f.rowPtr (r : Int) = none))
        hm1 (fun i f hi hI => hstep i f (le_trans hi hm1) hI)
        2147483647 0 _ (loopFuel (a.length : Int)) (by unfold INT_MIN; omega)
        (by unfold INT_MAX; omega) (by unfold INT_MAX; omega)
        (by unfold loopFuel; unfold INT_MAX at hm1; omega) hstart
      rw [e1]
      exact ⟨_, rfl⟩
  · -- the pointer array itself is missing
    have hdf : env.mallocOk h.next = false := by simpa using hd
    have hmal : malloc env h (a.length + 1) = (⟨h.next + 1, h.blocks⟩, none) := by
      simp [malloc, hdf]
    rw [hmal]
    dsimp only
    rw [loopFuel_succ, forLoop_first_error _ _ _ 0 _ .invalidPointer (by omega)
      (allocRow_null_d env _ 0 _ rfl)]
    exact ⟨_, rfl⟩

/-- Whenever the base stages succeed, in whatever environment, the `malloc`
calls succeeded, both lengths are below `INT_MAX`, and the base row and the
base column are in place. -/
theorem baseMatrix_final (env : Env) (h : Heap) (a b : PyUnicode) (g : Frame)
    (hg : baseMatrix env h a b = .ok g) :
    env.callsOK h (a.length + 2)
      ∧ ((a.length : Int) < INT_MAX ∧ (b.length : Int) < INT_MAX)
      ∧ Allocated h a.length b.length ((a.length : Int) + 1) g
      ∧ Agrees h g (fun i1 j1 => 0 ≤ i1 ∧ i1 ≤ a.length ∧ 0 ≤ j1 ∧ j1 ≤ b.length
          ∧ (j1 < 1 ∨ i1 = 0)) (target a b) := by
  by_cases hE : env.callsOK h (a.length + 2)
  · by_cases hc : (a.length : Int) < INT_MAX ∧ (b.length : Int) < INT_MAX
    · obtain ⟨f1, e1, hA, hR⟩ := baseMatrix_ok h a b hE hc.1 hc.2
      rw [e1] at hg
      injection hg with hg
      subst hg
      exact ⟨hE, hc, hA, hR⟩
    · rw [baseMatrix_overflow h a b hE (by omega)] at hg
      exact absurd hg (by simp)
  · obtain ⟨e, he⟩ := baseMatrix_alloc_failure env h a b hE
    rw [he] at hg
    exact absurd hg (by simp)

/-! ## What the fill loop leaves alone -/

/-- A successful run of the body of the fill loop is one write to cell `(i, j)`. -/
theorem fillCell_write (a b : PyUnicode) (j i : Int) (f f1 : Frame)
    (hf : fillCell a b j i f = .ok f1) : ∃ v, writeCell f i j v = .ok f1 := by
  unfold fillCell at hf
  split at hf
  · dsimp only at hf
    split at hf
    · split at hf
      · exact ⟨_, hf⟩
      · exact absurd hf (by simp)
    · exact absurd hf (by simp)
    · exact absurd hf (by simp)
    · exact absurd hf (by simp)
  · exact absurd hf (by simp)

/-- What every iteration at an index between the start and the bound keeps when
it succeeds, the whole loop keeps when it succeeds. -/
theorem forLoop_preserves_from {σ : Type} (hi : Int) (body : Int → σ → Except UB σ)
    (P : σ → Prop) (lo0 : Int)
    (hpres : ∀ i s s1, lo0 ≤ i → i ≤ hi → body i s = .ok s1 → P s → P s1) :
    ∀ (fuel : Nat) (lo : Int) (s s1 : σ), lo0 ≤ lo →
      forLoop hi body fuel lo s = .ok s1 → P s → P s1 := by
  intro fuel
  induction fuel with
  | zero => intro lo s s1 _ h; simp [forLoop] at h
  | succ fuel ih =>
    intro lo s s1 hlo h hP
    unfold forLoop at h
    split at h
    · rename_i hle
      split at h
      · exact absurd h (by simp)
      · rename_i s2 hb
        split at h
        · exact absurd h (by simp)
        · rename_i i1 hadd
          have hi1 : i1 = lo + 1 := by
            unfold intAdd at hadd
            split at hadd
            · injection hadd with hadd; exact hadd.symm
            · exact absurd hadd (by simp)
          exact ih _ _ _ (by omega) h (hpres _ _ _ hlo hle hb hP)
    · injection h with h
      subst h
      exact hP

/-- A write to cell `(i, j)` of an allocated matrix leaves every other cell of
the matrix as it was. -/
theorem writeCell_other {h : Heap} {m n : Nat} {f f1 : Frame}
    (hA : Allocated h m n ((m : Int) + 1) f) {i j v : Int} (h0 : 0 ≤ i) (h1 : i ≤ m)
    (h2 : 0 ≤ j) (h3 : j ≤ n) (hw : writeCell f i j v = .ok f1) :
    Allocated h m n ((m : Int) + 1) f1
      ∧ ∀ i1 j1 : Int, 0 ≤ i1 → (i1 ≠ i ∨ j1 ≠ j) →
          f1.cells (rowBlock h i1) j1 = f.cells (rowBlock h i1) j1 := by
  rw [writeCell_ok hA h0 h1 h2 h3] at hw
  injection hw with hw
  subst hw
  refine ⟨hA, ?_⟩
  intro i1 j1 hi1 hne
  show (if rowBlock h i1 = rowBlock h i ∧ j1 = j then v else f.cells (rowBlock h i1) j1) = _
  rw [if_neg]
  rintro ⟨e1, e2⟩
  have := rowBlock_inj hi1 h0 e1
  omega

/-- The fill loop of the source never writes to row 0 or to column 0: it keeps the
matrix allocated and leaves every cell of row 0 and of column 0 as it was. -/
theorem fillColumnMajor_keeps_base (a b : PyUnicode) {h : Heap} (g g1 : Frame)
    (hA : Allocated h a.length b.length ((a.length : Int) + 1) g)
    (hf : fillColumnMajor a b g = .ok g1) :
    Allocated h a.length b.length ((a.length : Int) + 1) g1
      ∧ ∀ i1 j1 : Int, 0 ≤ i1 → (i1 = 0 ∨ j1 = 0) →
          g1.cells (rowBlock h i1) j1 = g.cells (rowBlock h i1) j1 := by
  unfold fillColumnMajor PyUnicode_GetLength at hf
  refine forLoop_preserves_from (b.length : Int) _
    (fun f => Allocated h a.length b.length ((a.length : Int) + 1) f
      ∧ ∀ i1 j1 : Int, 0 ≤ i1 → (i1 = 0 ∨ j1 = 0) →
          f.cells (rowBlock h i1) j1 = g.cells (rowBlock h i1) j1) 1 ?_ _ 1 g g1 le_rfl hf
    ⟨hA, fun _ _ _ _ => rfl⟩
  intro j s s1 hj0 hj1 hcol hP
  refine forLoop_preserves_from (a.length : Int) _
    (fun f => Allocated h a.length b.length ((a.length : Int) + 1) f
      ∧ ∀ i1 j1 : Int, 0 ≤ i1 → (i1 = 0 ∨ j1 = 0) →
          f.cells (rowBlock h i1) j1 = g.cells (rowBlock h i1) j1) 1 ?_ _ 1 s s1 le_rfl hcol hP
  intro i t t1 hi0 hi1 hcell ⟨hAt, hKt⟩
  obtain ⟨v, hw⟩ := fillCell_write a b j i t t1 hcell
  obtain ⟨hA1, hK1⟩ := writeCell_other hAt (by omega) hi1 (by omega) hj1 hw
  refine ⟨hA1, ?_⟩
  intro i1 j1 h0 hz
  rw [hK1 i1 j1 h0 (by omega), hKt i1 j1 h0 hz]

/-- The loop of the base column (lines 63-65) starts at `i = 1`: it leaves row 0,
the corner `d[0][0]` included, as it was. -/
theorem base_col_keeps_row {h : Heap} {m n : Nat} (g g1 : Frame)
    (hA : Allocated h m n ((m : Int) + 1) g)
    (hf : forLoop (m : Int) (fun i f => writeCell f i 0 i) (loopFuel (m : Int)) 1 g = .ok g1) :
    Allocated h m n ((m : Int) + 1) g1
      ∧ ∀ j1 : Int, g1.cells (rowBlock h 0) j1 = g.cells (rowBlock h 0) j1 := by
  refine forLoop_preserves_from (m : Int) _
    (fun f => Allocated h m n ((m : Int) + 1) f
      ∧ ∀ j1 : Int, f.cells (rowBlock h 0) j1 = g.cells (rowBlock h 0) j1) 1 ?_ _ 1 g g1
    le_rfl hf ⟨hA, fun _ => rfl⟩
  intro i t t1 hi0 hi1 hw ⟨hAt, hKt⟩
  obtain ⟨hA1, hK1⟩ := writeCell_other hAt (by omega) hi1 le_rfl (by omega) hw
  refine ⟨hA1, ?_⟩
  intro j1
  rw [hK1 0 j1 le_rfl (by omega), hKt j1]

/-- The loop of the base row (lines 67-69) starts at `j = 1`: it leaves column 0,
the corner `d[0][0]` included, as it was. -/
theorem base_row_keeps_col {h : Heap} {m n : Nat} (g g1 : Frame)
    (hA : Allocated h m n ((m : Int) + 1) g)
    (hf : forLoop (n : Int) (fun j f => writeCell f 0 j j) (loopFuel (n : Int)) 1 g = .ok g1) :
    Allocated h m n ((m : Int) + 1) g1
      ∧ ∀ i1 : Int, 0 ≤ i1 → g1.cells (rowBlock h i1) 0 = g.cells (rowBlock h i1) 0 := by
  refine forLoop_preserves_from (n : Int) _
    (fun f => Allocated h m n ((m : Int) + 1) f
      ∧ ∀ i1 : Int, 0 ≤ i1 → f.cells (rowBlock h i1) 0 = g.cells (rowBlock h i1) 0) 1 ?_ _ 1
    g g1 le_rfl hf ⟨hA, fun _ _ => rfl⟩
  intro j t t1 hj0 hj1 hw ⟨hAt, hKt⟩
  obtain ⟨hA1, hK1⟩ := writeCell_other hAt le_rfl (by omega) (by omega) hj1 hw
  refine ⟨hA1, ?_⟩
  intro i1 h0
  rw [hK1 i1 0 h0 (by omega), hKt i1 h0]

/-- Claim C15. Whenever the matrix gets built, its column 0 reads `d[i][0] = i` for
`0 ≤ i ≤ m` and its row 0 reads `d[0][j] = j` for `0 ≤ j ≤ n` when the result is
read, the corner `d[0][0] = 0` included; the fill loop, run on the matrix that
the base stages leave, changes no cell of row 0 or column 0; the two base loops,
which start at index 1, leave the corner as the zero fill set it; and the matrix
does get built when every `malloc` succeeds and both lengths are below
`INT_MAX`. -/
theorem final_matrix_base_row_and_column (env : Env) (h : Heap) (a b : PyUnicode) :
    (∀ f, fillMatrix env h a b = .ok f →
      (∀ i : Nat, i ≤ a.length → readCell f (i : Int) 0 = .ok (i : Int))
        ∧ (∀ j : Nat, j ≤ b.length → readCell f 0 (j : Int) = .ok (j : Int))
        ∧ readCell f 0 0 = .ok 0)
    ∧ (∀ g g1, baseMatrix env h a b = .ok g → fillColumnMajor a b g = .ok g1 →
        ∀ i j : Int, 0 ≤ i → i ≤ a.length → 0 ≤ j → j ≤ b.length → (i = 0 ∨ j = 0) →
          readCell g1 i j = readCell g i j)
    ∧ (∀ g g1, Allocated h a.length b.length ((a.length : Int) + 1) g →
        forLoop (a.length : Int) (fun i f => writeCell f i 0 i) (loopFuel (a.length : Int)) 1 g
          = .ok g1 → readCell g1 0 0 = readCell g 0 0)
    ∧ (∀ g g1, Allocated h a.length b.length ((a.length : Int) + 1) g →
        forLoop (b.length : Int) (fun j f => writeCell f 0 j j) (loopFuel (b.length : Int)) 1 g
          = .ok g1 → readCell g1 0 0 = readCell g 0 0)
    ∧ (env.allocOK → (a.length : Int) < INT_MAX → (b.length : Int) < INT_MAX →
        ∃ f, fillMatrix env h a b = .ok f) := by
  refine ⟨?_, ?_, ?_, ?_, ?_⟩
  · intro f hf
    refine ⟨?_, ?_, ?_⟩
    · intro i hi
      rw [final_cell env h a b f hf i 0 (by omega) (by omega) le_rfl (by omega),
        target_col a b i (by omega) (by omega)]
    · intro j hj
      rw [final_cell env h a b f hf 0 j le_rfl (by omega) (by omega) (by omega),
        target_row a b j (by omega) (by omega)]
    · rw [final_cell env h a b f hf 0 0 le_rfl (by omega) le_rfl (by omega),
        target_col a b 0 le_rfl (by omega)]
  · intro g g1 hg hf i j h0 h1 h2 h3 hz
    obtain ⟨_, _, hA, _⟩ := baseMatrix_final env h a b g hg
    obtain ⟨hA1, hK⟩ := fillColumnMajor_keeps_base a b g g1 hA hf
    rw [readCell_ok hA1 h0 h1 h2 h3, readCell_ok hA h0 h1 h2 h3, hK i j h0 hz]
  · intro g g1 hA hf
    obtain ⟨hA1, hK⟩ := base_col_keeps_row g g1 hA hf
    rw [readCell_ok hA1 le_rfl (by omega) le_rfl (by omega),
      readCell_ok hA le_rfl (by omega) le_rfl (by omega), hK 0]
  · intro g g1 hA hf
    obtain ⟨hA1, hK⟩ := base_row_keeps_col g g1 hA hf
    rw [readCell_ok hA1 le_rfl (by omega) le_rfl (by omega),
      readCell_ok hA le_rfl (by omega) le_rfl (by omega), hK 0 le_rfl]
  · intro hE hm hn
    obtain ⟨f, e, _⟩ := fillMatrix_ok h a b (hE.calls h _) hm hn
    exact ⟨f, e⟩

/-- The cost of the source, read on the codepoint sequences: 0 when codepoint
`i` of `a` equals codepoint `j` of `b`. -/
theorem cellCost_codepoints (a b : PyUnicode) (i j : Int) (hi0 : 0 ≤ i) (hi1 : i < a.length)
    (hj0 : 0 ≤ j) (hj1 : j < b.length) :
    cellCost a b i j
      = if a.codepoints.getD i.toNat 0 = b.codepoints.getD j.toNat 0 then 0 else 1 := by
  have ei : ((i.toNat : Nat) : Int) = i := by omega
  have ej : ((j.toNat : Nat) : Int) = j := by omega
  rw [codepoints_getD a i.toNat (by omega), codepoints_getD b j.toNat (by omega), ei, ej]
  rfl

/-- A write of the value a cell already holds leaves the frame as it is. -/
theorem writeCell_same {h : Heap} {m n : Nat} {f : Frame}
    (hA : Allocated h m n ((m : Int) + 1) f) {i j : Int} (h0 : 0 ≤ i) (h1 : i ≤ m)
    (h2 : 0 ≤ j) (h3 : j ≤ n) : writeCell f i j (f.cells (rowBlock h i) j) = .ok f := by
  rw [writeCell_ok hA h0 h1 h2 h3]
  cases f with
  | mk heap d rowPtr cells =>
    congr 2
    funext k c
    dsimp only
    split
    · rename_i hc
      rw [hc.1, hc.2]
    · rfl

/-- Claim C16. Whenever the matrix gets built, every cell `d[i][j]` with
`1 ≤ i ≤ m` and `1 ≤ j ≤ n` of the matrix, as it stands when the result is read,
is `minimum(d[i-1][j] + 1, d[i][j-1] + 1, d[i-1][j-1] + cost)` of the three
neighbours as they stand then, with cost 0 when codepoint `i-1` of `a` equals
codepoint `j-1` of `b` and 1 otherwise; running the body of the fill loop once more
at that cell leaves the matrix as it is; and the matrix does get built when every
`malloc` succeeds and both lengths are below `INT_MAX`. -/
theorem final_matrix_recurrence (env : Env) (h : Heap) (a b : PyUnicode) :
    (∀ f, fillMatrix env h a b = .ok f →
      ∀ i j : Int, 1 ≤ i → i ≤ a.length → 1 ≤ j → j ≤ b.length →
        ∃ v up left diag : Int, readCell f i j = .ok v ∧ readCell f (i - 1) j = .ok up
          ∧ readCell f i (j - 1) = .ok left ∧ readCell f (i - 1) (j - 1) = .ok diag
          ∧ v = minimum (up + 1) (left + 1) (diag + cellCost a b (i - 1) (j - 1))
          ∧ v = min (min (up + 1) (left + 1)) (diag + cellCost a b (i - 1) (j - 1))
          ∧ cellCost a b (i - 1) (j - 1)
              = (if a.codepoints.getD (i - 1).toNat 0 = b.codepoints.getD (j - 1).toNat 0
                  then 0 else 1)
          ∧ fillCell a b j i f = .ok f)
    ∧ (env.allocOK → (a.length : Int) < INT_MAX → (b.length : Int) < INT_MAX →
        ∃ f, fillMatrix env h a b = .ok f) := by
  refine ⟨?_, ?_⟩
  · intro f hf i j hi0 hi1 hj0 hj1
    obtain ⟨_, ⟨hm, hn⟩, hA, hR⟩ := fillMatrix_final env h a b f hf
    have r0 := final_cell env h a b f hf i j (by omega) hi1 (by omega) hj1
    have r1 := final_cell env h a b f hf (i - 1) j (by omega) (by omega) (by omega) hj1
    have r2 := final_cell env h a b f hf i (j - 1) (by omega) hi1 (by omega) (by omega)
    have r3 := final_cell env h a b f hf (i - 1) (j - 1) (by omega) (by omega) (by omega)
      (by omega)
    have hrec : target a b i j
        = minimum (target a b (i - 1) j + 1) (target a b i (j - 1) + 1)
            (target a b (i - 1) (j - 1) + cellCost a b (i - 1) (j - 1)) :=
      (target_rec a b i j hi0 hi1 hj0 hj1).symm
    refine ⟨_, _, _, _, r0, r1, r2, r3, hrec, ?_, ?_, ?_⟩
    · rw [hrec, minimum_eq]
    · exact cellCost_codepoints a b (i - 1) (j - 1) (by omega) (by omega) (by omega) (by omega)
    · have b1 := target_le_max a b (i - 1) j (by omega) (by omega)
      have b2 := target_le_max a b i (j - 1) (by omega) (by omega)
      have b3 := target_le_max a b (i - 1) (j - 1) (by omega) (by omega)
      have s1 : intSub i 1 = .ok (i - 1) :=
        intSub_ok (by unfold INT_MIN; omega) (by unfold INT_MAX at *; omega)
      have s2 : intSub j 1 = .ok (j - 1) :=
        intSub_ok (by unfold INT_MIN; omega) (by unfold INT_MAX at *; omega)
      have a1 : intAdd (target a b (i - 1) j) 1 = .ok (target a b (i - 1) j + 1) :=
        intAdd_ok (by unfold INT_MIN; omega) (by unfold INT_MAX at *; omega)
      have a2 : intAdd (target a b i (j - 1)) 1 = .ok (target a b i (j - 1) + 1) :=
        intAdd_ok (by unfold INT_MIN; omega) (by unfold INT_MAX at *; omega)
      have a3 : ∀ c : Int, 0 ≤ c → c ≤ 1 →
          intAdd (target a b (i - 1) (j - 1)) c = .ok (target a b (i - 1) (j - 1) + c) :=
        fun c c0 c1 => intAdd_ok (by unfold INT_MIN; omega) (by unfold INT_MAX at *; omega)
      rw [fillCell_eq a b f i j _ _ _ _ _ _ _ _ s1 s2 r1 r2 r3 a1 a2
        (a3 _ (by split <;> omega) (by split <;> omega))]
      have hrec2 := target_rec a b i j hi0 hi1 hj0 hj1
      rw [hrec2, ← hR i j ⟨by omega, hi1, by omega, hj1⟩]
      exact writeCell_same hA (by omega) hi1 (by omega) hj1
  · intro hE hm hn
    obtain ⟨f, e, _⟩ := fillMatrix_ok h a b (hE.calls h _) hm hn
    exact ⟨f, e⟩

/-- Claim C18. Whenever the matrix gets built, every cell `d[i][j]` with
`0 ≤ i ≤ m` and `0 ≤ j ≤ n` of the matrix, as it stands when the result is read,
holds the edit distance between the first `i` codepoints of `a` and the first
`j` codepoints of `b`: some edit script of that length turns the one prefix into
the other and no shorter one does; and the matrix does get built when every
`malloc` succeeds and both lengths are below `INT_MAX`. -/
theorem final_matrix_prefix_distances (env : Env) (h : Heap) (a b : PyUnicode) :
    (∀ f, fillMatrix env h a b = .ok f →
      ∀ i j : Nat, i ≤ a.length → j ≤ b.length →
        ∃ r : Nat, readCell f (i : Int) (j : Int) = .ok (r : Int)
          ∧ IsEditDistance (a.codepoints.take i) (b.codepoints.take j) r
          ∧ r = lev (a.codepoints.take i) (b.codepoints.take j))
    ∧ (env.allocOK → (a.length : Int) < INT_MAX → (b.length : Int) < INT_MAX →
        ∃ f, fillMatrix env h a b = .ok f) := by
  refine ⟨?_, ?_⟩
  · intro f hf i j hi hj
    refine ⟨lev (a.codepoints.take i) (b.codepoints.take j), ?_, lev_isEditDistance _ _, rfl⟩
    rw [final_cell env h a b f hf i j (by omega) (by omega) (by omega) (by omega)]
    unfold target cellValue
    rw [Int.toNat_ofNat, Int.toNat_ofNat, lev_reverse]
  · intro hE hm hn
    obtain ⟨f, e, _⟩ := fillMatrix_ok h a b (hE.calls h _) hm hn
    exact ⟨f, e⟩

/-- Claim C20. For all integers `a`, `b` and `c`, the value of `minimum(a, b, c)`,
the nested expansion of the macro `_MIN`, is at most each of `a`, `b` and `c`, is
one of them, and is `min(min(a, b), c)`. -/
theorem minimum_is_least (a b c : Int) :
    minimum a b c ≤ a ∧ minimum a b c ≤ b ∧ minimum a b c ≤ c
      ∧ (minimum a b c = a ∨ minimum a b c = b ∨ minimum a b c = c)
      ∧ minimum a b c = min (min a b) c := by
  refine ⟨?_, ?_, ?_, ?_, minimum_eq a b c⟩
  all_goals
    unfold minimum
    split_ifs <;> omega

/-! ## The fill loop in the other order -/

/-- One execution of the body of the fill loop (lines 78-79), whatever the order
of the loops around it: when the three neighbours of the cell hold their
intended values, the cell gets its intended value. -/
theorem fillCell_step_any (a b : PyUnicode) {h : Heap} (hm : (a.length : Int) < INT_MAX)
    (hn : (b.length : Int) < INT_MAX) {i j : Int} (hi0 : 1 ≤ i) (hi1 : i ≤ a.length)
    (hj0 : 1 ≤ j) (hj1 : j ≤ b.length) (f : Frame)
    (hA : Allocated h a.length b.length ((a.length : Int) + 1) f)
    (R R1 : Int → Int → Prop) (hR : Agrees h f R (target a b))
    (hup : R (i - 1) j) (hleft : R i (j - 1)) (hdiag : R (i - 1) (j - 1))
    (hpos : ∀ i1 j1, R1 i1 j1 → 0 ≤ i1)
    (hext : ∀ i1 j1, R1 i1 j1 → R i1 j1 ∨ (i1 = i ∧ j1 = j)) :
    ∃ f1, fillCell a b j i f = .ok f1
      ∧ Allocated h a.length b.length ((a.length : Int) + 1) f1
      ∧ Agrees h f1 R1 (target a b) := by
  have s1 : intSub i 1 = .ok (i - 1) :=
    intSub_ok (by unfold INT_MIN; omega) (by unfold INT_MAX at *; omega)
  have s2 : intSub j 1 = .ok (j - 1) :=
    intSub_ok (by unfold INT_MIN; omega) (by unfold INT_MAX at *; omega)
  have r1 : readCell f (i - 1) j = .ok (target a b (i - 1) j) := by
    rw [readCell_ok hA (by omega) (by omega) (by omega) hj1, hR (i - 1) j hup]
  have r2 : readCell f i (j - 1) = .ok (target a b i (j - 1)) := by
    rw [readCell_ok hA (by omega) hi1 (by omega) (by omega), hR i (j - 1) hleft]
  have r3 : readCell f (i - 1) (j - 1) = .ok (target a b (i - 1) (j - 1)) := by
    rw [readCell_ok hA (by omega) (by omega) (by omega) (by omega), hR (i - 1) (j - 1) hdiag]
  have b1 := target_le_max a b (i - 1) j (by omega) (by omega)
  have b2 := target_le_max a b i (j - 1) (by omega) (by omega)
  have b3 := target_le_max a b (i - 1) (j - 1) (by omega) (by omega)
  have a1 : intAdd (target a b (i - 1) j) 1 = .ok (target a b (i - 1) j + 1) :=
    intAdd_ok (by unfold INT_MIN; omega) (by unfold INT_MAX at *; omega)
  have a2 : intAdd (target a b i (j - 1)) 1 = .ok (target a b i (j - 1) + 1) :=
    intAdd_ok (by unfold INT_MIN; omega) (by unfold INT_MAX at *; omega)
  have a3 : ∀ c : Int, 0 ≤ c → c ≤ 1 →
      intAdd (target a b (i - 1) (j - 1)) c = .ok (target a b (i - 1) (j - 1) + c) :=
    fun c c0 c1 => intAdd_ok (by unfold INT_MIN; omega) (by unfold INT_MAX at *; omega)
  obtain ⟨f1, e, hA1, hR1⟩ := writeCell_extend hA R R1 (target a b) hR
    (i := i) (j := j) (by omega) hi1 (by omega) hj1 hpos hext
  refine ⟨f1, ?_, hA1, hR1⟩
  rw [← e, ← target_rec a b i j hi0 hi1 hj0 hj1]
  exact fillCell_eq a b f i j _ _ _ _ _ _ _ _ s1 s2 r1 r2 r3 a1 a2
    (a3 _ (by split <;> omega) (by split <;> omega))

/-- One row of the fill loop run row by row (the inner loop over `j`). -/
theorem fill_row (a b : PyUnicode) {h : Heap} (hm : (a.length : Int) < INT_MAX)
    (hn : (b.length : Int) < INT_MAX) {i : Int} (hi0 : 1 ≤ i) (hi1 : i ≤ a.length) (f : Frame)
    (hA : Allocated h a.length b.length ((a.length : Int) + 1) f)
    (hR : Agrees h f (fun i1 j1 => 0 ≤ i1 ∧ i1 ≤ a.length ∧ 0 ≤ j1 ∧ j1 ≤ b.length
      ∧ (i1 < i ∨ j1 = 0)) (target a b)) :
    ∃ f1, forLoop (b.length : Int) (fun j f1 => fillCell a b j i f1)
        (loopFuel (b.length : Int)) 1 f = .ok f1
      ∧ Allocated h a.length b.length ((a.length : Int) + 1) f1
      ∧ Agrees h f1 (fun i1 j1 => 0 ≤ i1 ∧ i1 ≤ a.length ∧ 0 ≤ j1 ∧ j1 ≤ b.length
          ∧ (i1 < i + 1 ∨ j1 = 0)) (target a b) := by
  have key := forLoop_inv (b.length : Int) (fun j f1 => fillCell a b j i f1)
    (fun j g => 1 ≤ j ∧ Allocated h a.length b.length ((a.length : Int) + 1) g
      ∧ Agrees h g (fun i1 j1 => 0 ≤ i1 ∧ i1 ≤ a.length ∧ 0 ≤ j1 ∧ j1 ≤ b.length
          ∧ (i1 < i ∨ j1 = 0 ∨ (i1 = i ∧ j1 < j))) (target a b)) hn
    (by
      intro j g hj ⟨h0, hAg, hRg⟩
      obtain ⟨g1, e, hA1, hR1⟩ := fillCell_step_any a b hm hn hi0 hi1 h0 hj g hAg _
        (fun i1 j1 => 0 ≤ i1 ∧ i1 ≤ a.length ∧ 0 ≤ j1 ∧ j1 ≤ b.length
          ∧ (i1 < i ∨ j1 = 0 ∨ (i1 = i ∧ j1 < j + 1))) hRg
        ⟨by omega, by omega, by omega, hj, by omega⟩
        ⟨by omega, hi1, by omega, by omega, by omega⟩
        ⟨by omega, by omega, by omega, by omega, by omega⟩
        (fun i1 j1 hin => hin.1)
        (by
          intro i1 j1 ⟨c0, c1, c2, c3, c4⟩
          by_cases hc : i1 = i ∧ j1 = j
          · exact Or.inr hc
          · left
            refine ⟨c0, c1, c2, c3, ?_⟩
            omega)
      exact ⟨g1, e, by omega, hA1, hR1⟩)
    b.length 1 f (loopFuel (b.length : Int)) (by unfold INT_MIN; omega) (by omega)
    (by omega) (by unfold loopFuel; omega)
    ⟨le_rfl, hA, hR.mono (by
      intro i1 j1 ⟨c0, c1, c2, c3, c4⟩
      exact ⟨c0, c1, c2, c3, by omega⟩)⟩
  obtain ⟨f1, e, _, hA1, hR1⟩ := key
  exact ⟨f1, e, hA1, hR1.mono (by
    intro i1 j1 ⟨c0, c1, c2, c3, c4⟩
    exact ⟨c0, c1, c2, c3, by omega⟩)⟩

/-- The fill loop run row by row gives every cell its intended value. -/
theorem fillRowMajor_ok (a b : PyUnicode) {h : Heap} (hm : (a.length : Int) < INT_MAX)
    (hn : (b.length : Int) < INT_MAX) (g : Frame)
    (hA : Allocated h a.length b.length ((a.length : Int) + 1) g)
    (hR : Agrees h g (fun i1 j1 => 0 ≤ i1 ∧ i1 ≤ a.length ∧ 0 ≤ j1 ∧ j1 ≤ b.length
      ∧ (j1 < 1 ∨ i1 = 0)) (target a b)) :
    ∃ f1, fillRowMajor a b g = .ok f1
      ∧ Allocated h a.length b.length ((a.length : Int) + 1) f1
      ∧ Agrees h f1 (fun i1 j1 => 0 ≤ i1 ∧ i1 ≤ a.length ∧ 0 ≤ j1 ∧ j1 ≤ b.length)
          (target a b) := by
  have key := forLoop_inv (a.length : Int)
    (fun i f => forLoop (b.length : Int) (fun j f1 => fillCell a b j i f1)
      (loopFuel (b.length : Int)) 1 f)
    (fun i f => 1 ≤ i ∧ Allocated h a.length b.length ((a.length : Int) + 1) f
      ∧ Agrees h f (fun i1 j1 => 0 ≤ i1 ∧ i1 ≤ a.length ∧ 0 ≤ j1 ∧ j1 ≤ b.length
          ∧ (i1 < i ∨ j1 = 0)) (target a b)) hm
    (by
      intro i f hi ⟨h0, hAf, hRf⟩
      obtain ⟨f1, e, hA1, hR1⟩ := fill_row a b hm hn h0 hi f hAf hRf
      exact ⟨f1, e, by omega, hA1, hR1⟩)
    a.length 1 g (loopFuel (a.length : Int)) (by unfold INT_MIN; omega) (by omega)
    (by omega) (by unfold loopFuel; omega)
    ⟨le_rfl, hA, hR.mono (by
      intro i1 j1 ⟨c0, c1, c2, c3, c4⟩
      exact ⟨c0, c1, c2, c3, by omega⟩)⟩
  obtain ⟨f1, e, _, hA1, hR1⟩ := key
  exact ⟨f1, e, hA1, hR1.mono (by
    intro i1 j1 ⟨c0, c1, c2, c3⟩
    exact ⟨c0, c1, c2, c3, by omega⟩)⟩

/-- The fill loop of the source, column by column, gives every cell its intended
value. -/
theorem fillColumnMajor_ok (a b : PyUnicode) {h : Heap} (hm : (a.length : Int) < INT_MAX)
    (hn : (b.length : Int) < INT_MAX) (g : Frame)
    (hA : Allocated h a.length b.length ((a.length : Int) + 1) g)
    (hR : Agrees h g (fun i1 j1 => 0 ≤ i1 ∧ i1 ≤ a.length ∧ 0 ≤ j1 ∧ j1 ≤ b.length
      ∧ (j1 < 1 ∨ i1 = 0)) (target a b)) :
    ∃ f1, fillColumnMajor a b g = .ok f1
      ∧ Allocated h a.length b.length ((a.length : Int) + 1) f1
      ∧ Agrees h f1 (fun i1 j1 => 0 ≤ i1 ∧ i1 ≤ a.length ∧ 0 ≤ j1 ∧ j1 ≤ b.length)
          (target a b) :=
  fill_stage a b hm hn g hA hR

/-- Claim C17. From the matrix that the base stages of a call leave, the fill loop
run column by column, as the source has it, and the fill loop run row by row
both succeed and produce the same matrix, cell for cell, hence the same value in
the cell `d[m][n]` that the result is read from; the column by column run is the
matrix of the call itself; and the base stages do succeed when every `malloc`
succeeds and both lengths are below `INT_MAX`. -/
theorem fill_order_irrelevant (env : Env) (h : Heap) (a b : PyUnicode) :
    (∀ g, baseMatrix env h a b = .ok g →
      ∃ fc fr, fillColumnMajor a b g = .ok fc ∧ fillRowMajor a b g = .ok fr
        ∧ fillMatrix env h a b = .ok fc
        ∧ (∀ i j : Int, 0 ≤ i → i ≤ a.length → 0 ≤ j → j ≤ b.length →
            readCell fc i j = readCell fr i j
              ∧ ∃ v, readCell fr i j = .ok v)
        ∧ readCell fc (PyUnicode_GetLength a) (PyUnicode_GetLength b)
            = readCell fr (PyUnicode_GetLength a) (PyUnicode_GetLength b))
    ∧ (env.allocOK → (a.length : Int) < INT_MAX → (b.length : Int) < INT_MAX →
        ∃ g, baseMatrix env h a b = .ok g) := by
  refine ⟨?_, ?_⟩
  · intro g hg
    obtain ⟨_, ⟨hm, hn⟩, hA, hR⟩ := baseMatrix_final env h a b g hg
    obtain ⟨fc, ec, hAc, hRc⟩ := fillColumnMajor_ok a b hm hn g hA hR
    obtain ⟨fr, er, hAr, hRr⟩ := fillRowMajor_ok a b hm hn g hA hR
    have cells : ∀ i j : Int, 0 ≤ i → i ≤ a.length → 0 ≤ j → j ≤ b.length →
        readCell fc i j = readCell fr i j ∧ ∃ v, readCell fr i j = .ok v := by
      intro i j h0 h1 h2 h3
      rw [readCell_ok hAc h0 h1 h2 h3, readCell_ok hAr h0 h1 h2 h3,
        hRc i j ⟨h0, h1, h2, h3⟩, hRr i j ⟨h0, h1, h2, h3⟩]
      exact ⟨rfl, _, rfl⟩
    refine ⟨fc, fr, ec, er, ?_, cells, ?_⟩
    · rw [fillMatrix_split, hg]
      exact ec
    · exact (cells _ _ (by unfold PyUnicode_GetLength; omega)
        (by unfold PyUnicode_GetLength; omega) (by unfold PyUnicode_GetLength; omega)
        (by unfold PyUnicode_GetLength; omega)).1
  · intro hE hm hn
    obtain ⟨g, e, _⟩ := baseMatrix_ok h a b (hE.calls h _) hm hn
    exact ⟨g, e⟩

/-! ## The matrix claims on sample inputs -/

/-- Witness for C15, on "kit" and "sit€": the matrix is built, and its base column,
base row and corner read as stated. -/
theorem final_matrix_base_row_and_column_witness :
    ∃ f, fillMatrix (Env.plain 0) Heap.empty sampleKit sampleSit = .ok f
      ∧ readCell f ((3 : Nat) : Int) 0 = .ok ((3 : Nat) : Int)
      ∧ readCell f 0 ((4 : Nat) : Int) = .ok ((4 : Nat) : Int)
      ∧ readCell f 0 0 = .ok 0 := by
  have key := final_matrix_base_row_and_column (Env.plain 0) Heap.empty sampleKit sampleSit
  obtain ⟨f, hf⟩ := key.2.2.2.2 (fun _ => rfl) (by decide) (by decide)
  exact ⟨f, hf, (key.1 f hf).1 3 (by decide), (key.1 f hf).2.1 4 (by decide),
    (key.1 f hf).2.2⟩

/-- Witness for C16, on "kit" and "sit€" at the cell `d[2][3]`. -/
theorem final_matrix_recurrence_witness :
    ∃ f, fillMatrix (Env.plain 0) Heap.empty sampleKit sampleSit = .ok f
      ∧ ∃ v up left diag : Int, readCell f 2 3 = .ok v ∧ readCell f (2 - 1) 3 = .ok up
          ∧ readCell f 2 (3 - 1) = .ok left ∧ readCell f (2 - 1) (3 - 1) = .ok diag
          ∧ v = minimum (up + 1) (left + 1) (diag + cellCost sampleKit sampleSit (2 - 1) (3 - 1))
          ∧ fillCell sampleKit sampleSit 3 2 f = .ok f := by
  have key := final_matrix_recurrence (Env.plain 0) Heap.empty sampleKit sampleSit
  obtain ⟨f, hf⟩ := key.2 (fun _ => rfl) (by decide) (by decide)
  obtain ⟨v, up, left, diag, r0, r1, r2, r3, e, _, _, hfix⟩ :=
    key.1 f hf 2 3 (by decide) (by decide) (by decide) (by decide)
  exact ⟨f, hf, v, up, left, diag, r0, r1, r2, r3, e, hfix⟩

/-- Witness for C17, on "kit" and "sit€": both orders give the same last cell. -/
theorem fill_order_irrelevant_witness :
    ∃ g fc fr, baseMatrix (Env.plain 0) Heap.empty sampleKit sampleSit = .ok g
      ∧ fillColumnMajor sampleKit sampleSit g = .ok fc
      ∧ fillRowMajor sampleKit sampleSit g = .ok fr
      ∧ readCell fc 3 4 = readCell fr 3 4 := by
  have key := fill_order_irrelevant (Env.plain 0) Heap.empty sampleKit sampleSit
  obtain ⟨g, hg⟩ := key.2 (fun _ => rfl) (by decide) (by decide)
  obtain ⟨fc, fr, ec, er, _, cells, _⟩ := key.1 g hg
  exact ⟨g, fc, fr, hg, ec, er,
    (cells 3 4 (by decide) (by decide) (by decide) (by decide)).1⟩

/-- Witness for C18, on "kit" and "sit€" at the cell `d[2][3]`, the distance between
"ki" and "sit". -/
theorem final_matrix_prefix_distances_witness :
    ∃ f, fillMatrix (Env.plain 0) Heap.empty sampleKit sampleSit = .ok f
      ∧ ∃ r : Nat, readCell f ((2 : Nat) : Int) ((3 : Nat) : Int) = .ok (r : Int)
          ∧ IsEditDistance (sampleKit.codepoints.take 2) (sampleSit.codepoints.take 3) r := by
  have key := final_matrix_prefix_distances (Env.plain 0) Heap.empty sampleKit sampleSit
  obtain ⟨f, hf⟩ := key.2 (fun _ => rfl) (by decide) (by decide)
  obtain ⟨r, hr, hd, _⟩ := key.1 f hf 2 3 (by decide) (by decide)
  exact ⟨f, hf, r, hr, hd⟩

end Hint
